import Mathlib

/-!
# Gardener: ControllerRegistration seed reconciler

A shallow embedding of
`pkg/controllermanager/controller/controllerregistration/controllerregistration_seed_control.go`
together with the properties of the requirement resolver, the seed-eligibility filter and the
installation synchronizer.

Conventions of the embedding:

* a Go `map[string]V` is a `GoMap V`: the list of its entries.  The order of the list stands for
  the (unspecified) iteration order of the Go map, so a statement quantified over every `GoMap`
  covers every iteration order.  A real Go map has no duplicate keys (`GoMap.WF`);
* `sets.String` is a `StringSet`: the list of its members, again in iteration order;
* a Go `error` built by `fmt.Errorf` is kept as its format string and its arguments;
* a function returning `(T, error)` returns `Except GoError T`.
-/

namespace Gardener

/-! ## Go maps and string sets -/

/-- A Go `map[string]V`, as the list of its entries in iteration order. -/
abbrev GoMap (V : Type) := List (String × V)

namespace GoMap

/-- Keys of the map, in iteration order. -/
def keys {V : Type} (m : GoMap V) : List String := m.map Prod.fst

/-- Well-formedness of a Go map: every key occurs once. -/
def WF {V : Type} (m : GoMap V) : Prop := m.keys.Nodup

/-- Map index expression with the comma-ok form, `v, ok := m[k]`. -/
def get? {V : Type} : GoMap V → String → Option V
  | [], _ => none
  | (k, v) :: rest, n => if k = n then some v else get? rest n

/-- Map assignment `m[k] = v`. -/
def set {V : Type} : GoMap V → String → V → GoMap V
  | [], n, v => [(n, v)]
  | (k, w) :: rest, n, v => if k = n then (k, v) :: rest else (k, w) :: set rest n v

end GoMap

instance GoMap.decidableWF {V : Type} (m : GoMap V) : Decidable m.WF :=
  inferInstanceAs (Decidable (m.keys.Nodup))

/-- The type `sets.String` of k8s.io/apimachinery, as the list of its members. -/
abbrev StringSet := List String

namespace StringSet

/-- Constructor `sets.NewString()`. -/
def NewString : StringSet := []

/-- Membership test `s.Has(x)`. -/
def Has (s : StringSet) (x : String) : Bool := decide (x ∈ s)

/-- Insertion of one item; a set holds every member once. -/
def Insert1 (s : StringSet) (x : String) : StringSet := if x ∈ s then s else s ++ [x]

/-- Variadic `s.Insert(items...)`. -/
def Insert (s : StringSet) (items : List String) : StringSet := items.foldl Insert1 s

/-- The members in iteration order, `s.UnsortedList()`. -/
def UnsortedList (s : StringSet) : List String := s

/-- The members in increasing order, `s.List()`; strings are compared as character sequences. -/
def List (s : StringSet) : List String := s.insertionSort (fun a b => a.data ≤ b.data)

end StringSet

/-! ## Errors -/

deriving instance DecidableEq for Except

/-- Failures of `labels.NewRequirement` and `metav1.LabelSelectorAsSelector`. -/
inductive SelectorError where
  | invalidOperator (op : String)
  | invalidKey (key : String)
  | invalidValues (key : String) (values : List String)
  | invalidValue (key : String) (value : String)
  deriving DecidableEq, Repr

/-! ## Label selectors (k8s.io/apimachinery)

`metav1.LabelSelectorAsSelector` and `labels.Selector.Matches` belong to the Kubernetes library
the reconciler calls.  They are embedded here so that `seedSelectorMatches` can be evaluated. -/

/-- The type `metav1.LabelSelectorRequirement`. -/
structure LabelSelectorRequirement where
  Key : String
  Operator : String
  Values : List String
  deriving DecidableEq, Repr

/-- The type `metav1.LabelSelector`. -/
structure LabelSelector where
  MatchLabels : GoMap String := []
  MatchExpressions : List LabelSelectorRequirement := []
  deriving DecidableEq, Repr

/-- The operators of `selection.Operator` reachable from a `metav1.LabelSelector`. -/
inductive Operator where
  | Equals
  | In
  | NotIn
  | Exists
  | DoesNotExist
  deriving DecidableEq, Repr

/-- The type `labels.Requirement`. -/
structure Requirement where
  key : String
  operator : Operator
  strValues : List String
  deriving DecidableEq, Repr

/-- The result of `LabelSelectorAsSelector`: `labels.Nothing()` or a list of requirements
(`labels.Everything()` is the empty list). -/
inductive Selector where
  | nothing
  | internal (requirements : List Requirement)
  deriving DecidableEq, Repr

/-- Character class `[A-Za-z0-9]`. -/
def isAlnum (c : Char) : Bool :=
  ('a' ≤ c && c ≤ 'z') || ('A' ≤ c && c ≤ 'Z') || ('0' ≤ c && c ≤ '9')

/-- Character class `[a-z0-9]`. -/
def isLowerAlnum (c : Char) : Bool :=
  ('a' ≤ c && c ≤ 'z') || ('0' ≤ c && c ≤ '9')

/-- Go `len` of a string: its number of bytes. -/
def byteLen (cs : List Char) : Nat := (cs.map Char.utf8Size).sum

/-- The anchored pattern `([A-Za-z0-9][-A-Za-z0-9_.]*)?[A-Za-z0-9]` of qualified names. -/
def matchesQualifiedName (cs : List Char) : Bool :=
  match cs.head?, cs.getLast? with
  | some a, some b =>
    isAlnum a && isAlnum b && cs.all (fun c => isAlnum c || c = '-' || c = '_' || c = '.')
  | _, _ => false

/-- The anchored pattern `[a-z0-9]([-a-z0-9]*[a-z0-9])?` of DNS-1123 labels. -/
def matchesDNS1123Label (cs : List Char) : Bool :=
  match cs.head?, cs.getLast? with
  | some a, some b =>
    isLowerAlnum a && isLowerAlnum b && cs.all (fun c => isLowerAlnum c || c = '-')
  | _, _ => false

/-- Go `strings.Split(s, sep)` for a one-character separator. -/
def splitChar (sep : Char) : List Char → List (List Char)
  | [] => [[]]
  | c :: cs =>
    match splitChar sep cs with
    | [] => [[]]
    | p :: ps => if c = sep then [] :: p :: ps else (c :: p) :: ps

/-- Validity per `validation.IsDNS1123Subdomain`: at most 253 bytes, dot-separated DNS-1123
labels. -/
def IsDNS1123Subdomain (cs : List Char) : Bool :=
  decide (byteLen cs ≤ 253) && (splitChar '.' cs).all matchesDNS1123Label

/-- Validity per `validation.IsQualifiedName` (no error message is produced). -/
def IsQualifiedName (value : String) : Bool :=
  let namePart (name : List Char) : Bool :=
    !name.isEmpty && decide (byteLen name ≤ 63) && matchesQualifiedName name
  match splitChar '/' value.data with
  | [name] => namePart name
  | [pfx, name] => !pfx.isEmpty && IsDNS1123Subdomain pfx && namePart name
  | _ => false

/-- Validity per `validation.IsValidLabelValue`. -/
def IsValidLabelValue (value : String) : Bool :=
  decide (byteLen value.data ≤ 63) && (value.data.isEmpty || matchesQualifiedName value.data)

/-- Constructor `labels.NewRequirement(key, op, vals)`.  It fails exactly when the key, the number
of values for the operator, or one of the values is invalid; the error kept is the first of
these. -/
def NewRequirement (key : String) (op : Operator) (vals : List String) :
    Except SelectorError Requirement :=
  if !IsQualifiedName key then .error (.invalidKey key)
  else
    let arity : Bool :=
      match op with
      | .In | .NotIn => vals.length != 0
      | .Equals => vals.length == 1
      | .Exists | .DoesNotExist => vals.length == 0
    if !arity then .error (.invalidValues key vals)
    else
      match vals.find? (fun v => !IsValidLabelValue v) with
      | some v => .error (.invalidValue key v)
      | none => .ok { key := key, operator := op, strValues := vals }

/-- The requirements of the `matchLabels` entries, in the iteration order of the map. -/
def matchLabelsRequirements : GoMap String → Except SelectorError (List Requirement)
  | [] => .ok []
  | (k, v) :: rest => do
    let r ← NewRequirement k .Equals [v]
    let rs ← matchLabelsRequirements rest
    pure (r :: rs)

/-- The operator switch of `LabelSelectorAsSelector`. -/
def convertOperator (op : String) : Except SelectorError Operator :=
  if op = "In" then .ok .In
  else if op = "NotIn" then .ok .NotIn
  else if op = "Exists" then .ok .Exists
  else if op = "DoesNotExist" then .ok .DoesNotExist
  else .error (.invalidOperator op)

/-- The requirements of the `matchExpressions` entries, in order. -/
def matchExpressionsRequirements :
    List LabelSelectorRequirement → Except SelectorError (List Requirement)
  | [] => .ok []
  | expr :: rest => do
    let op ← convertOperator expr.Operator
    let r ← NewRequirement expr.Key op expr.Values
    let rs ← matchExpressionsRequirements rest
    pure (r :: rs)

/-- Conversion `metav1.LabelSelectorAsSelector(ps)`; `none` is the nil pointer. -/
def LabelSelectorAsSelector : Option LabelSelector → Except SelectorError Selector
  | none => .ok .nothing
  | some ps =>
    if ps.MatchLabels.length + ps.MatchExpressions.length = 0 then .ok (.internal [])
    else do
      let rs₁ ← matchLabelsRequirements ps.MatchLabels
      let rs₂ ← matchExpressionsRequirements ps.MatchExpressions
      pure (.internal (rs₁ ++ rs₂))

/-- Method `Requirement.Matches(ls)` on a label set. -/
def Requirement.Matches (r : Requirement) (ls : GoMap String) : Bool :=
  match r.operator with
  | .In | .Equals =>
    match ls.get? r.key with
    | none => false
    | some v => decide (v ∈ r.strValues)
  | .NotIn =>
    match ls.get? r.key with
    | none => true
    | some v => !decide (v ∈ r.strValues)
  | .Exists => (ls.get? r.key).isSome
  | .DoesNotExist => (ls.get? r.key).isNone

/-- Method `Selector.Matches(ls)`. -/
def Selector.Matches (s : Selector) (ls : GoMap String) : Bool :=
  match s with
  | .nothing => false
  | .internal rs => rs.all (fun r => r.Matches ls)

/-- A value substituted for a verb of a format string. -/
inductive ErrArg where
  | str (s : String)
  | selector (sel : LabelSelector)
  | cause (e : SelectorError)
  deriving DecidableEq, Repr

/-! ## API objects -/

/-- A point in time, `metav1.Time`. -/
abbrev Time := Int

/-- The fields of `metav1.ObjectMeta` the reconciler reads. -/
structure ObjectMeta where
  Name : String := ""
  GenerateName : String := ""
  ResourceVersion : String := ""
  Labels : GoMap String := []
  DeletionTimestamp : Option Time := none
  deriving DecidableEq, Repr

/-- The type `corev1.ObjectReference`, reduced to the fields the reconciler writes. -/
structure ObjectReference where
  Name : String := ""
  ResourceVersion : String := ""
  deriving DecidableEq, Repr

/-- The type `gardencorev1beta1.ControllerResource`. -/
structure ControllerResource where
  Kind : String
  Type_ : String
  deriving DecidableEq, Repr

/-- The type `gardencorev1beta1.DeploymentRef`. -/
structure DeploymentRef where
  Name : String
  deriving DecidableEq, Repr

/-- Policy constant `gardencorev1beta1.ControllerDeploymentPolicyAlways`. -/
def ControllerDeploymentPolicyAlways : String := "Always"

/-- Policy constant `gardencorev1beta1.ControllerDeploymentPolicyAlwaysExceptNoShoots`. -/
def ControllerDeploymentPolicyAlwaysExceptNoShoots : String := "AlwaysExceptNoShoots"

/-- The type `gardencorev1beta1.ControllerRegistrationDeployment`; `none` is a nil pointer. -/
structure ControllerRegistrationDeployment where
  Policy : Option String := none
  SeedSelector : Option LabelSelector := none
  DeploymentRefs : List DeploymentRef := []
  deriving DecidableEq, Repr

/-- The type `gardencorev1beta1.ControllerRegistrationSpec`. -/
structure ControllerRegistrationSpec where
  Resources : List ControllerResource := []
  Deployment : Option ControllerRegistrationDeployment := none
  deriving DecidableEq, Repr

/-- The type `gardencorev1beta1.ControllerRegistration`. -/
structure ControllerRegistration where
  ObjectMeta : ObjectMeta := {}
  Spec : ControllerRegistrationSpec := {}
  deriving DecidableEq, Repr

/-- The type `gardencorev1beta1.ControllerInstallationSpec`. -/
structure ControllerInstallationSpec where
  SeedRef : ObjectReference := {}
  RegistrationRef : ObjectReference := {}
  DeploymentRef : Option ObjectReference := none
  deriving DecidableEq, Repr

/-- Modelled from the spec: the status of a ControllerInstallation is not among the sources; the
spec gives an installation a "required" status flag, set by the extension controller itself to
mean that the installation is still actively needed. -/
structure ControllerInstallationStatus where
  Required : Bool := false
  deriving DecidableEq, Repr

/-- The type `gardencorev1beta1.ControllerInstallation`. -/
structure ControllerInstallation where
  ObjectMeta : ObjectMeta := {}
  Spec : ControllerInstallationSpec := {}
  Status : ControllerInstallationStatus := {}
  deriving DecidableEq, Repr

/-- Modelled from the spec: `gardencorev1beta1helper.IsControllerInstallationRequired` is not among
the sources; it reads the "required" status flag of the installation. -/
def IsControllerInstallationRequired (controllerInstallation : ControllerInstallation) : Bool :=
  controllerInstallation.Status.Required

/-- Modelled from the spec: `extensions.Id` is not among the sources; the spec encodes an
extension identity `(Kind, Type)` as the string `"Kind/Type"`. -/
def Id (kind type : String) : String := kind ++ "/" ++ type

/-- Reason constant `metav1.StatusReasonNotFound`. -/
def StatusReasonNotFound : String := "NotFound"

/-- A Go `error`: built by `fmt.Errorf` (the format string and the values of its verbs), returned
by the API client (a status reason and a message), or built by `fmt.Errorf` around another error
with the verb `%w` (`wrapf`). -/
inductive GoError where
  | errorf (format : String) (args : List ErrArg)
  | api (reason : String) (message : String)
  | wrapf (format : String) (args : List ErrArg) (err : GoError)
  deriving DecidableEq, Repr

/-! ## The reconciler -/

/-- The struct `controllerRegistration`: a registration with its deploy-policy booleans. -/
structure controllerRegistration where
  obj : ControllerRegistration
  deployAlways : Bool
  deployAlwaysExceptNoShoots : Bool
  deriving DecidableEq, Repr

/-- The policy comparison of `computeControllerRegistrationMaps`:
`cr.Spec.Deployment != nil && cr.Spec.Deployment.Policy != nil && *cr.Spec.Deployment.Policy == p`. -/
def hasPolicy (cr : ControllerRegistration) (p : String) : Bool :=
  match cr.Spec.Deployment with
  | none => false
  | some d =>
    match d.Policy with
    | none => false
    | some q => decide (q = p)

/-- Function `computeControllerRegistrationMaps`: the name of each registration mapped to the
registration and its deploy-policy booleans. -/
def computeControllerRegistrationMaps (controllerRegistrationList : List ControllerRegistration) :
    GoMap controllerRegistration :=
  controllerRegistrationList.foldl
    (fun out cr => out.set cr.ObjectMeta.Name
      { obj := cr
        deployAlways := hasPolicy cr ControllerDeploymentPolicyAlways
        deployAlwaysExceptNoShoots := hasPolicy cr ControllerDeploymentPolicyAlwaysExceptNoShoots })
    []

/-- The selector `seedSelectorMatches` converts: `&metav1.LabelSelector{}` unless the deployment
and its seed selector are both non-nil. -/
def seedSelectorOf (deployment : Option ControllerRegistrationDeployment) : LabelSelector :=
  match deployment with
  | none => {}
  | some d =>
    match d.SeedSelector with
    | none => {}
    | some sel => sel

/-- Function `seedSelectorMatches`. -/
def seedSelectorMatches (deployment : Option ControllerRegistrationDeployment)
    (seedLabels : GoMap String) : Except GoError Bool :=
  let selector : LabelSelector := seedSelectorOf deployment
  match LabelSelectorAsSelector (some selector) with
  | .error err =>
    .error (.errorf "label selector conversion failed: %v for seedSelector: %w"
      [.selector selector, .cause err])
  | .ok seedSelector => .ok (seedSelector.Matches seedLabels)

/-- The loop of `controllerRegistrationNamesWithMatchingSeedLabelSelector`, from the set built so
far. -/
def matchingSeedLabelSelectorLoop (controllerRegistrations : GoMap controllerRegistration)
    (seedLabels : GoMap String) : List String → StringSet → Except GoError StringSet
  | [], matchingNames => .ok matchingNames
  | name :: rest, matchingNames =>
    match controllerRegistrations.get? name with
    | none => .error (.errorf "ControllerRegistration with name %s not found" [.str name])
    | some controllerRegistration =>
      match seedSelectorMatches controllerRegistration.obj.Spec.Deployment seedLabels with
      | .error err => .error err
      | .ok isMatch =>
        matchingSeedLabelSelectorLoop controllerRegistrations seedLabels rest
          (if isMatch then matchingNames.Insert [name] else matchingNames)

/-- Function `controllerRegistrationNamesWithMatchingSeedLabelSelector`. -/
def controllerRegistrationNamesWithMatchingSeedLabelSelector (namesInQuestion : List String)
    (controllerRegistrations : GoMap controllerRegistration) (seedLabels : GoMap String) :
    Except GoError StringSet :=
  matchingSeedLabelSelectorLoop controllerRegistrations seedLabels namesInQuestion
    StringSet.NewString

/-- Function `installedAndRequiredRegistrationNames`. -/
def installedAndRequiredRegistrationNames (controllerInstallationList : List ControllerInstallation)
    (seedName : String) : StringSet :=
  controllerInstallationList.foldl
    (fun requiredControllerRegistrationNames controllerInstallation =>
      if controllerInstallation.Spec.SeedRef.Name ≠ seedName then
        requiredControllerRegistrationNames
      else if !IsControllerInstallationRequired controllerInstallation then
        requiredControllerRegistrationNames
      else
        requiredControllerRegistrationNames.Insert [controllerInstallation.Spec.RegistrationRef.Name])
    StringSet.NewString

/-- The statement `m[id] = append(m[id], name)` for each resource of a registration. -/
def appendResourceNames (name : String) (resources : List ControllerResource)
    (kindTypeToControllerRegistrationNames : GoMap (List String)) : GoMap (List String) :=
  resources.foldl
    (fun m resource =>
      let id := Id resource.Kind resource.Type_
      m.set id ((m.get? id).getD [] ++ [name]))
    kindTypeToControllerRegistrationNames

/-- First loop of `computeWantedControllerRegistrationNames`, over the registration map: the
identity lookup and the names wanted by policy. -/
def policyLoop (numberOfShoots : Int) (seedObjectMeta : ObjectMeta) :
    GoMap controllerRegistration → GoMap (List String) × StringSet → GoMap (List String) × StringSet
  | [], acc => acc
  | (name, controllerRegistration) :: rest, (kindTypeToControllerRegistrationNames, wanted) =>
    let wanted₁ :=
      if controllerRegistration.deployAlways && seedObjectMeta.DeletionTimestamp.isNone then
        wanted.Insert [name]
      else wanted
    let wanted₂ :=
      if controllerRegistration.deployAlwaysExceptNoShoots && decide (numberOfShoots > 0) then
        wanted₁.Insert [name]
      else wanted₁
    policyLoop numberOfShoots seedObjectMeta rest
      (appendResourceNames name controllerRegistration.obj.Spec.Resources
        kindTypeToControllerRegistrationNames, wanted₂)

/-- Second loop of `computeWantedControllerRegistrationNames`, over the required identities. -/
def requiredLoop (kindTypeToControllerRegistrationNames : GoMap (List String)) :
    List String → StringSet → Except GoError StringSet
  | [], wanted => .ok wanted
  | wantedExtension :: rest, wanted =>
    match kindTypeToControllerRegistrationNames.get? wantedExtension with
    | none =>
      .error (.errorf "need to install an extension controller for %q but no appropriate ControllerRegistration found"
        [.str wantedExtension])
    | some names => requiredLoop kindTypeToControllerRegistrationNames rest (wanted.Insert names)

/-- Function `computeWantedControllerRegistrationNames`. -/
def computeWantedControllerRegistrationNames (wantedKindTypeCombinations : StringSet)
    (controllerInstallationList : List ControllerInstallation)
    (controllerRegistrations : GoMap controllerRegistration) (numberOfShoots : Int)
    (seedObjectMeta : ObjectMeta) : Except GoError StringSet :=
  let (kindTypeToControllerRegistrationNames, wanted₀) :=
    policyLoop numberOfShoots seedObjectMeta controllerRegistrations ([], StringSet.NewString)
  match requiredLoop kindTypeToControllerRegistrationNames
      wantedKindTypeCombinations.UnsortedList wanted₀ with
  | .error err => .error err
  | .ok wanted₁ =>
    let wantedControllerRegistrationNames :=
      wanted₁.Insert
        (installedAndRequiredRegistrationNames controllerInstallationList seedObjectMeta.Name).List
    controllerRegistrationNamesWithMatchingSeedLabelSelector
      wantedControllerRegistrationNames.UnsortedList controllerRegistrations seedObjectMeta.Labels

/-- The loop of `computeRegistrationNameToInstallationMap`, from the map built so far. -/
def registrationNameToInstallationLoop (controllerRegistrations : GoMap controllerRegistration)
    (seedName : String) :
    List ControllerInstallation → GoMap ControllerInstallation →
      Except GoError (GoMap ControllerInstallation)
  | [], registrationNameToInstallationName => .ok registrationNameToInstallationName
  | controllerInstallation :: rest, registrationNameToInstallationName =>
    if controllerInstallation.Spec.SeedRef.Name ≠ seedName then
      registrationNameToInstallationLoop controllerRegistrations seedName rest
        registrationNameToInstallationName
    else
      match controllerRegistrations.get? controllerInstallation.Spec.RegistrationRef.Name with
      | none =>
        .error (.errorf "ControllerRegistration %q does not exist"
          [.str controllerInstallation.Spec.RegistrationRef.Name])
      | some _ =>
        registrationNameToInstallationLoop controllerRegistrations seedName rest
          (registrationNameToInstallationName.set
            controllerInstallation.Spec.RegistrationRef.Name controllerInstallation)

/-- Function `computeRegistrationNameToInstallationMap`. -/
def computeRegistrationNameToInstallationMap
    (controllerInstallationList : List ControllerInstallation)
    (controllerRegistrations : GoMap controllerRegistration) (seedName : String) :
    Except GoError (GoMap ControllerInstallation) :=
  registrationNameToInstallationLoop controllerRegistrations seedName controllerInstallationList []

/-- The type `gardencorev1beta1.ControllerDeployment`: a type tag and the raw provider
configuration. -/
structure ControllerDeployment where
  ObjectMeta : ObjectMeta := {}
  Type_ : String := ""
  ProviderConfig : String := ""
  deriving DecidableEq, Repr

/-- The API client `client.Client`, as far as the reconciler uses it: a call acts on the state `σ`
of the store and returns the Go `error` (`none` is `nil`).  `Get` is split by the kind of the
object read; `Patch` receives the object and the base of its merge patch. -/
structure Client (σ : Type) where
  Delete : σ → ControllerInstallation → Option GoError × σ
  GetControllerDeployment : σ → String → Except GoError ControllerDeployment × σ
  GetControllerInstallation : σ → String → Except GoError ControllerInstallation × σ
  Create : σ → ControllerInstallation → Option GoError × σ
  Patch : σ → ControllerInstallation → ControllerInstallation → Option GoError × σ

/-- Function `client.IgnoreNotFound`: `nil` for a not-found error, the error otherwise. -/
def IgnoreNotFound : Option GoError → Option GoError
  | some (.api reason message) =>
    if reason = StatusReasonNotFound then none else some (.api reason message)
  | err => err

/-- Outcome of the delete phase: the returned error, the state of the store, and the installations
a delete was issued for, in order. -/
structure DeleteRun (σ : Type) where
  err : Option GoError
  state : σ
  deleted : List ControllerInstallation

/-- Function `deleteUnneededInstallations`, from a state of the store and the deletes issued so
far. -/
def deleteUnneededInstallations {σ : Type} (c : Client σ)
    (wantedControllerRegistrationNames : StringSet) :
    GoMap ControllerInstallation → σ → List ControllerInstallation → DeleteRun σ
  | [], st, issued => { err := none, state := st, deleted := issued }
  | (registrationName, installation) :: rest, st, issued =>
    if !wantedControllerRegistrationNames.Has registrationName then
      match IgnoreNotFound (c.Delete st installation).1 with
      | some err =>
        { err := some err, state := (c.Delete st installation).2,
          deleted := issued ++ [installation] }
      | none =>
        deleteUnneededInstallations c wantedControllerRegistrationNames rest
          (c.Delete st installation).2 (issued ++ [installation])
    else
      deleteUnneededInstallations c wantedControllerRegistrationNames rest st issued

/-! ## The requirement aggregator -/

/-- The type `gardencorev1beta1.BackupBucketProvider`. -/
structure BackupBucketProvider where
  Type_ : String
  deriving DecidableEq, Repr

/-- The fields of `gardencorev1beta1.BackupBucketSpec` the reconciler reads. -/
structure BackupBucketSpec where
  Provider : BackupBucketProvider
  SeedName : Option String := none
  deriving DecidableEq, Repr

/-- The type `gardencorev1beta1.BackupBucket`. -/
structure BackupBucket where
  ObjectMeta : ObjectMeta := {}
  Spec : BackupBucketSpec
  deriving DecidableEq, Repr

/-- The fields of `gardencorev1beta1.BackupEntrySpec` the reconciler reads. -/
structure BackupEntrySpec where
  BucketName : String
  SeedName : Option String := none
  deriving DecidableEq, Repr

/-- The type `gardencorev1beta1.BackupEntry`. -/
structure BackupEntry where
  ObjectMeta : ObjectMeta := {}
  Spec : BackupEntrySpec
  deriving DecidableEq, Repr

/-- The type `gardencorev1beta1.SeedDNSProvider`. -/
structure SeedDNSProvider where
  Type_ : String
  deriving DecidableEq, Repr

/-- The type `gardencorev1beta1.SeedDNS`. -/
structure SeedDNS where
  Provider : Option SeedDNSProvider := none
  deriving DecidableEq, Repr

/-- The type `gardencorev1beta1.SeedSpec`: the DNS section, which the reconciler reads, and the
remaining content of the spec, which it only serializes. -/
structure SeedSpec where
  DNS : SeedDNS := {}
  Rest : String := ""
  deriving DecidableEq, Repr

/-- The type `gardencorev1beta1.Seed`. -/
structure Seed where
  ObjectMeta : ObjectMeta := {}
  Spec : SeedSpec := {}
  deriving DecidableEq, Repr

/-- The type `gardencorev1beta1.Provider` of a shoot. -/
structure ShootProvider where
  Type_ : String := ""
  deriving DecidableEq, Repr

/-- The fields of `gardencorev1beta1.ShootSpec` the reconciler reads, and the provider. -/
structure ShootSpec where
  SeedName : Option String := none
  Provider : ShootProvider := {}
  deriving DecidableEq, Repr

/-- The fields of `gardencorev1beta1.ShootStatus` the reconciler reads. -/
structure ShootStatus where
  SeedName : Option String := none
  UID : String := ""
  deriving DecidableEq, Repr

/-- The type `gardencorev1beta1.Shoot`. -/
structure Shoot where
  ObjectMeta : ObjectMeta := {}
  Spec : ShootSpec := {}
  Status : ShootStatus := {}
  deriving DecidableEq, Repr

/-- The type `gardenpkg.Domain`, reduced to the domain name and its DNS provider. -/
structure Domain where
  Name : String
  Provider : String
  deriving DecidableEq, Repr

/-- Modelled from the spec: the constant `extensionsv1alpha1.BackupBucketResource` is not among the
sources; the spec calls it the BackupBucket kind. -/
def BackupBucketResource : String := "BackupBucket"

/-- Modelled from the spec: the constant `extensionsv1alpha1.BackupEntryResource` is not among the
sources; the spec calls it the BackupEntry kind (as in the identity `BackupEntry/aws`). -/
def BackupEntryResource : String := "BackupEntry"

/-- Modelled from the spec: the constant `extensionsv1alpha1.DNSRecordResource` is not among the
sources; the spec calls it the DNS-record kind. -/
def DNSRecordResource : String := "DNSRecord"

/-- Kind constant `dnsv1alpha1.DNSProviderKind` of the external DNS management library. -/
def DNSProviderKind : String := "DNSProvider"

/-- The test `p == nil || *p != seedName` on an optional seed name. -/
def seedNameDiffers (p : Option String) (seedName : String) : Bool :=
  match p with
  | none => true
  | some name => name != seedName

/-- Method `s.Union(s2)` of `sets.String`. -/
def StringSet.Union (s s2 : StringSet) : StringSet := s.Insert s2

/-- Function `computeKindTypesForBackupBuckets`: the wanted identities and the lookup table of
all buckets by name. -/
def computeKindTypesForBackupBuckets (backupBucketList : List BackupBucket) (seedName : String) :
    StringSet × GoMap BackupBucket :=
  backupBucketList.foldl
    (fun (acc : StringSet × GoMap BackupBucket) backupBucket =>
      let buckets := acc.2.set backupBucket.ObjectMeta.Name backupBucket
      if seedNameDiffers backupBucket.Spec.SeedName seedName then (acc.1, buckets)
      else
        (acc.1.Insert [Id BackupBucketResource backupBucket.Spec.Provider.Type_], buckets))
    (StringSet.NewString, [])

/-- Function `computeKindTypesForBackupEntries`. -/
def computeKindTypesForBackupEntries (backupEntryList : List BackupEntry)
    (buckets : GoMap BackupBucket) (seedName : String) : StringSet :=
  backupEntryList.foldl
    (fun (wantedKindTypeCombinations : StringSet) backupEntry =>
      if seedNameDiffers backupEntry.Spec.SeedName seedName then wantedKindTypeCombinations
      else
        match buckets.get? backupEntry.Spec.BucketName with
        | none => wantedKindTypeCombinations
        | some bucket =>
          wantedKindTypeCombinations.Insert [Id BackupEntryResource bucket.Spec.Provider.Type_])
    StringSet.NewString

/-- The functions of package `shootpkg` that `computeKindTypesForShoots` calls; they are not among
the sources and are taken as parameters.  `ConstructExternalDomain` returns a domain pointer and
an error; `ComputeRequiredExtensions` returns the identities one shoot requires. -/
structure ShootFunctions where
  ConstructExternalDomain : Shoot → List Domain → Option Domain × Option GoError
  ComputeRequiredExtensions :
    Shoot → Seed → List ControllerRegistration → Option Domain → Option Domain → Bool → StringSet

/-- The body of the goroutine of `computeKindTypesForShoots`: the set one shoot sends on the
channel.  The error of `ConstructExternalDomain` is logged at most; the required extensions are
computed from the returned domain in every case. -/
def shootResult (fns : ShootFunctions) (seed : Seed)
    (controllerRegistrationList : List ControllerRegistration) (internalDomain : Option Domain)
    (defaultDomains : List Domain) (useDNSRecords : Bool) (shoot : Shoot) : StringSet :=
  let externalDomain := (fns.ConstructExternalDomain shoot defaultDomains).1
  fns.ComputeRequiredExtensions shoot seed controllerRegistrationList internalDomain
    externalDomain useDNSRecords

/-- The shoots for which `computeKindTypesForShoots` starts a goroutine: those not skipped by
the test on the spec-assigned and the status-assigned seed. -/
def shootsOfSeed (shootList : List Shoot) (seed : Seed) : List Shoot :=
  shootList.filter (fun shoot =>
    !(seedNameDiffers shoot.Spec.SeedName seed.ObjectMeta.Name &&
      seedNameDiffers shoot.Status.SeedName seed.ObjectMeta.Name))

/-- Function `computeKindTypesForShoots`.  The goroutines send their results on one channel;
`schedule` gives the order in which the receiving loop gets them (a rearrangement of the started
goroutines), and the loop merges them by `Union`.  `useDNSRecords` is the state of the feature
gate `features.UseDNSRecords`. -/
def computeKindTypesForShoots (fns : ShootFunctions) (schedule : List Shoot → List Shoot)
    (shootList : List Shoot) (seed : Seed)
    (controllerRegistrationList : List ControllerRegistration) (internalDomain : Option Domain)
    (defaultDomains : List Domain) (useDNSRecords : Bool) : StringSet :=
  (schedule (shootsOfSeed shootList seed)).foldl
    (fun (wantedKindTypeCombinations : StringSet) shoot =>
      wantedKindTypeCombinations.Union
        (shootResult fns seed controllerRegistrationList internalDomain defaultDomains
          useDNSRecords shoot))
    StringSet.NewString

/-- Function `computeKindTypesForSeed`; `useDNSRecords` is the state of the feature gate
`features.UseDNSRecords`. -/
def computeKindTypesForSeed (useDNSRecords : Bool) (seed : Seed) : StringSet :=
  if seed.ObjectMeta.DeletionTimestamp ≠ none then StringSet.NewString
  else
    match seed.Spec.DNS.Provider with
    | none => StringSet.NewString
    | some provider =>
      if useDNSRecords then StringSet.NewString.Insert [Id DNSRecordResource provider.Type_]
      else StringSet.NewString.Insert [Id DNSProviderKind provider.Type_]

/-- The last element of a list that satisfies a test. -/
def lastSuch {α : Type} (p : α → Bool) : List α → Option α
  | [] => none
  | x :: rest =>
    match lastSuch p rest with
    | some y => some y
    | none => if p x then some x else none

/-! ## The deploy phase -/

/-- Function `apierrors.IsNotFound`. -/
def IsNotFound : GoError → Bool
  | .api reason _ => reason == StatusReasonNotFound
  | _ => false

/-- Modelled from the spec: the label key `common.SeedSpecHash` is not among the sources; the spec
calls the label the seed-spec hash. -/
def SeedSpecHash : String := "seed-spec-hash"

/-- Modelled from the spec: the label key `common.RegistrationSpecHash` is not among the sources;
the spec calls the label the registration-spec hash. -/
def RegistrationSpecHash : String := "registration-spec-hash"

/-- Modelled from the spec: the label key `common.ControllerDeploymentHash` is not among the
sources; the spec calls the label the deployment-config hash. -/
def ControllerDeploymentHash : String := "deployment-hash"

/-- The values `convertObjToMap` is called with. -/
inductive HashInput where
  | seedSpec (spec : SeedSpec)
  | registrationSpec (spec : ControllerRegistrationSpec)
  | hashFields (type : String) (providerConfig : String)
  deriving DecidableEq, Repr

/-- The serialization and hashing functions `deployNeededInstallation` calls; they are not among
the sources and are taken as parameters: `json.Marshal`, `json.Unmarshal` into a
`map[string]interface{}` (the type `M`), and `utils.HashForMap`, which returns a hexadecimal
digest (longer than 16 characters). -/
structure HashFunctions (M : Type) where
  Marshal : HashInput → Except GoError String
  Unmarshal : String → Except GoError M
  HashForMap : M → String

/-- Function `convertObjToMap`. -/
def convertObjToMap {M : Type} (h : HashFunctions M) (input : HashInput) : Except GoError M :=
  match h.Marshal input with
  | .error err => .error err
  | .ok data =>
    match h.Unmarshal data with
    | .error err => .error err
    | .ok out => .ok out

/-- The slice expression `s[:16]` on a digest. -/
def first16 (s : String) : String := String.mk (s.data.take 16)

/-- Modelled from the spec: `kutil.SetMetaDataLabel` is not among the sources; it sets one label
of the object and keeps the others. -/
def SetMetaDataLabel (obj : ControllerInstallation) (key value : String) :
    ControllerInstallation :=
  { obj with ObjectMeta := { obj.ObjectMeta with Labels := obj.ObjectMeta.Labels.set key value } }

/-- The closure `mutate` of `deployNeededInstallation`, applied to the installation object it
captures: the object after the call, and the returned error. -/
def mutate {M : Type} (h : HashFunctions M) (seed : Seed)
    (controllerDeployment : Option ControllerDeployment)
    (controllerRegistration : ControllerRegistration)
    (installationSpec : ControllerInstallationSpec)
    (controllerInstallation : ControllerInstallation) :
    ControllerInstallation × Option GoError :=
  match convertObjToMap h (.seedSpec seed.Spec) with
  | .error err => (controllerInstallation, some err)
  | .ok seedSpecMap =>
    let obj₁ := SetMetaDataLabel controllerInstallation SeedSpecHash
      (first16 (h.HashForMap seedSpecMap))
    match convertObjToMap h (.registrationSpec controllerRegistration.Spec) with
    | .error err => (obj₁, some err)
    | .ok registrationSpecMap =>
      let obj₂ := SetMetaDataLabel obj₁ RegistrationSpecHash
        (first16 (h.HashForMap registrationSpecMap))
      match controllerDeployment with
      | none => ({ obj₂ with Spec := installationSpec }, none)
      | some deployment =>
        match convertObjToMap h (.hashFields deployment.Type_ deployment.ProviderConfig) with
        | .error err => (obj₂, some err)
        | .ok deploymentMap =>
          ({ SetMetaDataLabel obj₂ ControllerDeploymentHash
              (first16 (h.HashForMap deploymentMap)) with Spec := installationSpec }, none)

/-- A call to the API client. -/
inductive ClientCall where
  | getControllerDeployment (name : String)
  | getControllerInstallation (name : String)
  | create (obj : ControllerInstallation)
  | patch (obj : ControllerInstallation) (base : ControllerInstallation)
  deriving DecidableEq, Repr

/-- Modelled from the spec: `controllerutils.GetAndCreateOrMergePatch` is not among the sources;
per its name, its use in `deployNeededInstallation` and the spec (re-fetch, then patch), it reads
the current object, applies `mutate` to it and sends a merge patch against the object read; an
object that is not found is created instead.  The result is the error, the state of the store
and the calls issued. -/
def GetAndCreateOrMergePatch {σ : Type} (c : Client σ) (st : σ) (obj : ControllerInstallation)
    (f : ControllerInstallation → ControllerInstallation × Option GoError) :
    Option GoError × σ × List ClientCall :=
  match c.GetControllerInstallation st obj.ObjectMeta.Name with
  | (.error err, st₁) =>
    if IsNotFound err then
      match f obj with
      | (_, some merr) => (some merr, st₁, [.getControllerInstallation obj.ObjectMeta.Name])
      | (obj₁, none) =>
        ((c.Create st₁ obj₁).1, (c.Create st₁ obj₁).2,
          [.getControllerInstallation obj.ObjectMeta.Name, .create obj₁])
    else (some err, st₁, [.getControllerInstallation obj.ObjectMeta.Name])
  | (.ok current, st₁) =>
    match f current with
    | (_, some merr) => (some merr, st₁, [.getControllerInstallation obj.ObjectMeta.Name])
    | (obj₁, none) =>
      ((c.Patch st₁ obj₁ current).1, (c.Patch st₁ obj₁ current).2,
        [.getControllerInstallation obj.ObjectMeta.Name, .patch obj₁ current])

/-- Function `deployNeededInstallation`: the error, the state of the store and the calls
issued. -/
def deployNeededInstallation {σ M : Type} (c : Client σ) (h : HashFunctions M) (st : σ)
    (seed : Seed) (controllerDeployment : Option ControllerDeployment)
    (controllerRegistration : ControllerRegistration)
    (existingControllerInstallation : Option ControllerInstallation) :
    Option GoError × σ × List ClientCall :=
  let installationSpec : ControllerInstallationSpec :=
    { SeedRef := { Name := seed.ObjectMeta.Name
                   ResourceVersion := seed.ObjectMeta.ResourceVersion }
      RegistrationRef := { Name := controllerRegistration.ObjectMeta.Name
                           ResourceVersion := controllerRegistration.ObjectMeta.ResourceVersion }
      DeploymentRef := controllerDeployment.map (fun d =>
        { Name := d.ObjectMeta.Name, ResourceVersion := d.ObjectMeta.ResourceVersion }) }
  match existingControllerInstallation with
  | some existing =>
    GetAndCreateOrMergePatch c st { ObjectMeta := { Name := existing.ObjectMeta.Name } }
      (mutate h seed controllerDeployment controllerRegistration installationSpec)
  | none =>
    let obj := (mutate h seed controllerDeployment controllerRegistration installationSpec
      { ObjectMeta := { GenerateName := controllerRegistration.ObjectMeta.Name ++ "-" } }).1
    ((c.Create st obj).1, (c.Create st obj).2, [.create obj])

/-- A call to the API client together with the wanted registration name whose loop iteration
issued it. -/
structure IssuedCall where
  registrationName : String
  call : ClientCall
  deriving DecidableEq, Repr

/-- How a function ends: it returns its error value (`none` is `nil`), or it panics. -/
inductive Outcome where
  | returned (err : Option GoError)
  | panicked
  deriving DecidableEq, Repr

/-- Outcome of the deploy phase: how it ended, the state of the store, and the calls issued, in
order. -/
structure DeployRun (σ : Type) where
  outcome : Outcome
  state : σ
  calls : List IssuedCall

/-- The fetch of the ControllerDeployment named by the first deployment reference of a
registration, if it has one: the deployment (or `nil`), the state of the store and the calls
issued. -/
def fetchControllerDeployment {σ : Type} (c : Client σ) (st : σ)
    (controllerRegistration : ControllerRegistration) :
    Except GoError (Option ControllerDeployment) × σ × List ClientCall :=
  match controllerRegistration.Spec.Deployment with
  | none => (.ok none, st, [])
  | some deployment =>
    match deployment.DeploymentRefs with
    | [] => (.ok none, st, [])
    | ref :: _ =>
      match c.GetControllerDeployment st ref.Name with
      | (.error err, st₁) => (.error err, st₁, [.getControllerDeployment ref.Name])
      | (.ok controllerDeployment, st₁) =>
        (.ok (some controllerDeployment), st₁, [.getControllerDeployment ref.Name])

/-- The loop of `deployNeededInstallations` over the wanted names, from a state of the store and
the calls issued so far.  Indexing the registration map with a name that is no key yields a nil
registration, whose dereference panics. -/
def deployLoop {σ M : Type} (c : Client σ) (h : HashFunctions M) (seed : Seed)
    (controllerRegistrations : GoMap controllerRegistration)
    (registrationNameToInstallation : GoMap ControllerInstallation) :
    List String → σ → List IssuedCall → DeployRun σ
  | [], st, calls => { outcome := .returned none, state := st, calls := calls }
  | registrationName :: rest, st, calls =>
    match controllerRegistrations.get? registrationName with
    | none => { outcome := .panicked, state := st, calls := calls }
    | some cr =>
      if cr.obj.ObjectMeta.DeletionTimestamp ≠ none then
        deployLoop c h seed controllerRegistrations registrationNameToInstallation rest st calls
      else
        match fetchControllerDeployment c st cr.obj with
        | (.error err, st₁, issued) =>
          { outcome := .returned (some (.wrapf
              "cannot deploy ControllerInstallation because the referenced ControllerDeployment cannot be retrieved: %w"
              [] err))
            state := st₁
            calls := calls ++ issued.map (IssuedCall.mk registrationName) }
        | (.ok controllerDeployment, st₁, issued) =>
          let calls₁ := calls ++ issued.map (IssuedCall.mk registrationName)
          let existingControllerInstallation := registrationNameToInstallation.get? registrationName
          if (existingControllerInstallation.bind
              (fun i => i.ObjectMeta.DeletionTimestamp)).isSome then
            { outcome := .returned (some (.errorf
                "cannot deploy new ControllerInstallation for %q because the deletion of the old ControllerInstallation is still pending"
                [.str registrationName]))
              state := st₁
              calls := calls₁ }
          else
            match deployNeededInstallation c h st₁ seed controllerDeployment cr.obj
                existingControllerInstallation with
            | (some err, st₂, issued₂) =>
              { outcome := .returned (some err)
                state := st₂
                calls := calls₁ ++ issued₂.map (IssuedCall.mk registrationName) }
            | (none, st₂, issued₂) =>
              deployLoop c h seed controllerRegistrations registrationNameToInstallation rest st₂
                (calls₁ ++ issued₂.map (IssuedCall.mk registrationName))

/-- Function `deployNeededInstallations`. -/
def deployNeededInstallations {σ M : Type} (c : Client σ) (h : HashFunctions M) (st : σ)
    (seed : Seed) (wantedControllerRegistrations : StringSet)
    (controllerRegistrations : GoMap controllerRegistration)
    (registrationNameToInstallation : GoMap ControllerInstallation) : DeployRun σ :=
  deployLoop c h seed controllerRegistrations registrationNameToInstallation
    wantedControllerRegistrations.UnsortedList st []

/-! ## The reconcile cycle -/

/-- Whether a call to the API client creates an installation. -/
def ClientCall.isCreate : ClientCall → Bool
  | .create _ => true
  | _ => false

/-- Whether a call to the API client patches an installation. -/
def ClientCall.isPatch : ClientCall → Bool
  | .patch _ _ => true
  | _ => false

/-- The installation a call to the API client writes, if it is a create or a patch. -/
def ClientCall.written : ClientCall → Option ControllerInstallation
  | .create obj => some obj
  | .patch obj _ => some obj
  | _ => none

/-- Outcome of a reconcile cycle: how it ended, the state of the store, the calls of the deploy
phase and the installations a delete was issued for. -/
structure ReconcileRun (σ : Type) where
  outcome : Outcome
  state : σ
  calls : List IssuedCall
  deleted : List ControllerInstallation

/-- The required identities `Reconcile` computes: the union of the identities of the backup
buckets, the backup entries, the shoots and the seed. -/
def wantedKindTypeCombinations (fns : ShootFunctions) (schedule : List Shoot → List Shoot)
    (useDNSRecords : Bool) (seed : Seed)
    (controllerRegistrationList : List ControllerRegistration)
    (backupBucketList : List BackupBucket) (backupEntryList : List BackupEntry)
    (shootList : List Shoot) (internalDomain : Option Domain) (defaultDomains : List Domain) :
    StringSet :=
  let forBackupBuckets := computeKindTypesForBackupBuckets backupBucketList seed.ObjectMeta.Name
  let wantedKindTypeCombinationForBackupEntries :=
    computeKindTypesForBackupEntries backupEntryList forBackupBuckets.2 seed.ObjectMeta.Name
  let wantedKindTypeCombinationForShoots :=
    computeKindTypesForShoots fns schedule shootList seed controllerRegistrationList
      internalDomain defaultDomains useDNSRecords
  let wantedKindTypeCombinationForSeed := computeKindTypesForSeed useDNSRecords seed
  (((StringSet.NewString.Union forBackupBuckets.1).Union
    wantedKindTypeCombinationForBackupEntries).Union
    wantedKindTypeCombinationForShoots).Union wantedKindTypeCombinationForSeed

/-- The end of `Reconcile`, from the required identities on: the Wanted Set, the
registration-to-installation map, the deploy phase and the delete phase. -/
def reconcilePhases {σ M : Type} (c : Client σ) (h : HashFunctions M) (st : σ) (seed : Seed)
    (required : StringSet) (controllerRegistrations : GoMap controllerRegistration)
    (controllerInstallationList : List ControllerInstallation) (numberOfShoots : Int) :
    ReconcileRun σ :=
  match computeWantedControllerRegistrationNames required controllerInstallationList
      controllerRegistrations numberOfShoots seed.ObjectMeta with
  | .error err => { outcome := .returned (some err), state := st, calls := [], deleted := [] }
  | .ok wantedControllerRegistrationNames =>
    match computeRegistrationNameToInstallationMap controllerInstallationList
        controllerRegistrations seed.ObjectMeta.Name with
    | .error err => { outcome := .returned (some err), state := st, calls := [], deleted := [] }
    | .ok registrationNameToInstallation =>
      let deploy := deployNeededInstallations c h st seed wantedControllerRegistrationNames
        controllerRegistrations registrationNameToInstallation
      match deploy.outcome with
      | .returned none =>
        let delete := deleteUnneededInstallations c wantedControllerRegistrationNames
          registrationNameToInstallation deploy.state []
        { outcome := .returned delete.err, state := delete.state, calls := deploy.calls,
          deleted := delete.deleted }
      | other => { outcome := other, state := deploy.state, calls := deploy.calls, deleted := [] }

/-- Method `Reconcile`, from the point where the seed, the registrations, the installations, the
backup buckets and entries, the shoots and the domains have been read. -/
def Reconcile {σ M : Type} (c : Client σ) (h : HashFunctions M) (fns : ShootFunctions)
    (schedule : List Shoot → List Shoot) (useDNSRecords : Bool) (st : σ) (seed : Seed)
    (controllerRegistrationList : List ControllerRegistration)
    (controllerInstallationList : List ControllerInstallation)
    (backupBucketList : List BackupBucket) (backupEntryList : List BackupEntry)
    (shootList : List Shoot) (internalDomain : Option Domain) (defaultDomains : List Domain) :
    ReconcileRun σ :=
  reconcilePhases c h st seed
    (wantedKindTypeCombinations fns schedule useDNSRecords seed controllerRegistrationList
      backupBucketList backupEntryList shootList internalDomain defaultDomains)
    (computeControllerRegistrationMaps controllerRegistrationList)
    controllerInstallationList shootList.length

/-! ## Admission controller helpers (`pkg/admissioncontroller/apis/config/helper`) -/

/-- The fields of `rbacv1.Subject` the helpers read. -/
structure Subject where
  Kind : String
  Name : String
  Namespace : String := ""
  deriving DecidableEq, Repr

/-- The fields of `authenticationv1.UserInfo` the helpers read. -/
structure UserInfo where
  Username : String := ""
  Groups : List String := []
  deriving DecidableEq, Repr

/-- Kind constant `rbacv1.GroupKind` of the Kubernetes API. -/
def rbacv1GroupKind : String := "Group"

/-- The constant `apisconfig.WildcardAll`, which is not among the sources: the wildcard `*`. -/
def WildcardAll : String := "*"

/-- Function `UserGroupMatches`. -/
def UserGroupMatches (subject : Subject) (userInfo : UserInfo) : Bool :=
  if subject.Kind ≠ rbacv1GroupKind then false
  else if subject.Name = WildcardAll then true
  else userInfo.Groups.any (fun group => decide (group = subject.Name))

/-! ## Equivalences of group kinds (`pkg/resourcemanager/controller/managedresource`) -/

/-- The type `metav1.GroupKind`. -/
structure GroupKind where
  Group : String
  Kind : String
  deriving DecidableEq, Repr

/-- The type `Equivalences`, a Go map from GroupKind to `EquivalenceSet`.  An `EquivalenceSet` is
itself a Go map, hence a reference: several keys can hold the same set, and an insertion through
one of them is seen through all.  `sets` lists the sets that were allocated, by address, and
`refs` is the map from a GroupKind to the address of its set. -/
structure Equivalences where
  sets : List (List GroupKind) := []
  refs : List (GroupKind × Nat) := []
  deriving DecidableEq, Repr

/-- Map index with the comma-ok form, `f, ok := e[groupKind]`. -/
def Equivalences.ref? : List (GroupKind × Nat) → GroupKind → Option Nat
  | [], _ => none
  | (k, a) :: rest, gk => if k = gk then some a else Equivalences.ref? rest gk

/-- Map assignment `e[groupKind] = m`, with `m` given by its address. -/
def Equivalences.setRef : List (GroupKind × Nat) → GroupKind → Nat → List (GroupKind × Nat)
  | [], gk, a => [(gk, a)]
  | (k, b) :: rest, gk, a =>
    if k = gk then (k, a) :: rest else (k, b) :: Equivalences.setRef rest gk a

/-- Method `EquivalenceSet.Insert` on the set at an address. -/
def Equivalences.insertAt : List (List GroupKind) → Nat → GroupKind → List (List GroupKind)
  | [], _, _ => []
  | s :: rest, 0, gk => (if gk ∈ s then s else s ++ [gk]) :: rest
  | s :: rest, a + 1, gk => s :: Equivalences.insertAt rest a gk

/-- The first loop of `addEquivalentGroupKinds`: the set of the first given GroupKind that
already has one. -/
def Equivalences.firstExisting (e : Equivalences) : List GroupKind → Option Nat
  | [] => none
  | groupKind :: rest =>
    match Equivalences.ref? e.refs groupKind with
    | some a => some a
    | none => Equivalences.firstExisting e rest

/-- Method `addEquivalentGroupKinds`. -/
def Equivalences.addEquivalentGroupKinds (e : Equivalences)
    (equivalentGroupKinds : List GroupKind) : Equivalences :=
  let start : Equivalences × Nat :=
    match Equivalences.firstExisting e equivalentGroupKinds with
    | some a => (e, a)
    | none => ({ sets := e.sets ++ [[]], refs := e.refs }, e.sets.length)
  equivalentGroupKinds.foldl
    (fun (e : Equivalences) groupKind =>
      { sets := Equivalences.insertAt e.sets start.2 groupKind
        refs := Equivalences.setRef e.refs groupKind start.2 })
    start.1

/-- Function `newEquivalenceList`. -/
def newEquivalenceList (kind : String) (groups : List String) : List GroupKind :=
  groups.map (fun g => { Group := g, Kind := kind })

/-- The variable `defaultEquivalences`. -/
def defaultEquivalences : List (List GroupKind) :=
  [newEquivalenceList "Deployment" ["extensions", "apps"],
   newEquivalenceList "DaemonSet" ["extensions", "apps"],
   newEquivalenceList "ReplicaSet" ["extensions", "apps"],
   newEquivalenceList "StatefulSet" ["extensions", "apps"],
   newEquivalenceList "Ingress" ["extensions", "networking.k8s.io"],
   newEquivalenceList "NetworkPolicy" ["extensions", "networking.k8s.io"],
   newEquivalenceList "PodSecurityPolicy" ["extensions", "policy"]]

/-- Function `NewEquivalences`. -/
def NewEquivalences (additionalEquivalences : List (List GroupKind)) : Equivalences :=
  additionalEquivalences.foldl Equivalences.addEquivalentGroupKinds
    (defaultEquivalences.foldl Equivalences.addEquivalentGroupKinds {})

/-- Method `GetEquivalencesFor`: the set of a GroupKind, `none` (a nil map) when it has none. -/
def Equivalences.GetEquivalencesFor (e : Equivalences) (gk : GroupKind) :
    Option (List GroupKind) :=
  (Equivalences.ref? e.refs gk).map (fun a => e.sets.getD a [])

/-! ## Bootstrap names (`pkg/gardenlet/bootstrap/util`) -/

/-- Constant `GardenerSeedBootstrapper`. -/
def GardenerSeedBootstrapper : String := "gardener.cloud:system:seed-bootstrapper"

/-- Constant `ClusterRoleBindingNamePrefix`. -/
def ClusterRoleBindingNamePrefix : String := GardenerSeedBootstrapper ++ ":"

/-- Constant `clusterRoleBindingNameDelimiter`, a single character. -/
def clusterRoleBindingNameDelimiter : Char := ':'

/-- Function `ClusterRoleBindingName`. -/
def ClusterRoleBindingName (ns name : String) : String :=
  let suffix :=
    if ns ≠ "" then ns ++ String.singleton clusterRoleBindingNameDelimiter ++ name else name
  ClusterRoleBindingNamePrefix ++ suffix

/-- Go `strings.TrimPrefix`. -/
def TrimPrefix (s pfx : String) : String :=
  if pfx.data.isPrefixOf s.data then String.mk (s.data.drop pfx.data.length) else s

/-- Function `MetadataFromClusterRoleBindingName`: the namespace and the name. -/
def MetadataFromClusterRoleBindingName (clusterRoleBindingName : String) : String × String :=
  let metadata := TrimPrefix clusterRoleBindingName ClusterRoleBindingNamePrefix
  match splitChar clusterRoleBindingNameDelimiter metadata.data with
  | ns :: name :: _ => (String.mk ns, String.mk name)
  | [name] => ("", String.mk name)
  | [] => ("", "")

/-! ## Example objects -/

/-- A store of installations: a delete removes the installation of that name and reports
not-found when there is none; a create adds the installation (under its name, or under its
generated-name prefix with the suffix `00001`); a patch replaces the installation of that name.
The store holds no ControllerDeployment. -/
def storeClient : Client (List ControllerInstallation) where
  Delete := fun store installation =>
    if store.any (fun i => i.ObjectMeta.Name == installation.ObjectMeta.Name) then
      (none, store.filter (fun i => i.ObjectMeta.Name != installation.ObjectMeta.Name))
    else
      (some (.api StatusReasonNotFound "controllerinstallation not found"), store)
  GetControllerDeployment := fun store _ =>
    (.error (.api StatusReasonNotFound "controllerdeployment not found"), store)
  GetControllerInstallation := fun store name =>
    match store.find? (fun i => i.ObjectMeta.Name == name) with
    | some i => (.ok i, store)
    | none => (.error (.api StatusReasonNotFound "controllerinstallation not found"), store)
  Create := fun store obj =>
    let name := if obj.ObjectMeta.Name = "" then obj.ObjectMeta.GenerateName ++ "00001"
      else obj.ObjectMeta.Name
    if store.any (fun i => i.ObjectMeta.Name == name) then
      (some (.api "AlreadyExists" "controllerinstallation already exists"), store)
    else (none, store ++ [{ obj with ObjectMeta := { obj.ObjectMeta with Name := name } }])
  Patch := fun store obj _ =>
    if store.any (fun i => i.ObjectMeta.Name == obj.ObjectMeta.Name) then
      (none, store.map (fun i => if i.ObjectMeta.Name = obj.ObjectMeta.Name then obj else i))
    else (some (.api StatusReasonNotFound "controllerinstallation not found"), store)

/-- A seed labelled `region=eu` that is not being deleted. -/
def seedEU : ObjectMeta := { Name := "seed-eu", Labels := [("region", "eu")] }

/-- The seed `seedEU` with a deletion timestamp. -/
def seedEUDeleting : ObjectMeta :=
  { Name := "seed-eu", Labels := [("region", "eu")], DeletionTimestamp := some 1 }

/-- A seed selector that admits seeds labelled `region=us` only. -/
def selectorUS : LabelSelector := { MatchLabels := [("region", "us")] }

/-- A seed selector with an operator that `LabelSelectorAsSelector` rejects. -/
def selectorMalformed : LabelSelector :=
  { MatchExpressions := [{ Key := "region", Operator := "Bogus", Values := [] }] }

/-- A registration `always` with policy Always and no seed selector. -/
def regAlways : ControllerRegistration :=
  { ObjectMeta := { Name := "always" }
    Spec := { Deployment := some { Policy := some ControllerDeploymentPolicyAlways } } }

/-- A registration `always-us` with policy Always, restricted to seeds labelled `region=us`. -/
def regAlwaysUS : ControllerRegistration :=
  { ObjectMeta := { Name := "always-us" }
    Spec := { Deployment := some { Policy := some ControllerDeploymentPolicyAlways
                                   SeedSelector := some selectorUS } } }

/-- A registration `shoots` with policy AlwaysExceptNoShoots that declares `BackupEntry/aws`. -/
def regShoots : ControllerRegistration :=
  { ObjectMeta := { Name := "shoots" }
    Spec := { Resources := [{ Kind := "BackupEntry", Type_ := "aws" }]
              Deployment := some { Policy := some ControllerDeploymentPolicyAlwaysExceptNoShoots } } }

/-- A registration `shoots-us` with policy AlwaysExceptNoShoots, restricted to `region=us`. -/
def regShootsUS : ControllerRegistration :=
  { ObjectMeta := { Name := "shoots-us" }
    Spec := { Deployment := some { Policy := some ControllerDeploymentPolicyAlwaysExceptNoShoots
                                   SeedSelector := some selectorUS } } }

/-- A registration `backup-us` that declares `BackupEntry/aws`, restricted to `region=us`. -/
def regBackupUS : ControllerRegistration :=
  { ObjectMeta := { Name := "backup-us" }
    Spec := { Resources := [{ Kind := "BackupEntry", Type_ := "aws" }]
              Deployment := some { SeedSelector := some selectorUS } } }

/-- A registration `dns` that declares `DNSRecord/route53`, without deployment section. -/
def regDNS : ControllerRegistration :=
  { ObjectMeta := { Name := "dns" }
    Spec := { Resources := [{ Kind := "DNSRecord", Type_ := "route53" }] } }

/-- A registration with the malformed seed selector, under the given name. -/
def regMalformed (name : String) : ControllerRegistration :=
  { ObjectMeta := { Name := name }
    Spec := { Deployment := some { SeedSelector := some selectorMalformed } } }

/-- An installation of a registration on `seed-eu`, with the given required flag. -/
def installationOn (name registrationName : String) (required : Bool) : ControllerInstallation :=
  { ObjectMeta := { Name := name }
    Spec := { SeedRef := { Name := "seed-eu" }, RegistrationRef := { Name := registrationName } }
    Status := { Required := required } }

/-- The seed object of `seedEU`, without DNS provider. -/
def seedObjEU : Seed := { ObjectMeta := seedEU }

/-- The seed `seed-eu` with the DNS provider `route53`. -/
def seedObjDNS : Seed :=
  { ObjectMeta := seedEU, Spec := { DNS := { Provider := some { Type_ := "route53" } } } }

/-- A backup bucket of a provider type, assigned to a seed or to none. -/
def bucketOf (name providerType : String) (seedName : Option String) : BackupBucket :=
  { ObjectMeta := { Name := name }
    Spec := { Provider := { Type_ := providerType }, SeedName := seedName } }

/-- A backup entry in a bucket, assigned to a seed or to none. -/
def entryOf (name bucketName : String) (seedName : Option String) : BackupEntry :=
  { ObjectMeta := { Name := name }, Spec := { BucketName := bucketName, SeedName := seedName } }

/-- A shoot of a provider type with its spec-assigned and status-assigned seed. -/
def shootOf (name providerType : String) (specSeed statusSeed : Option String) : Shoot :=
  { ObjectMeta := { Name := name }
    Spec := { SeedName := specSeed, Provider := { Type_ := providerType } }
    Status := { SeedName := statusSeed } }

/-- An instance of the shoot functions for the examples: the external domain of the shoot named
`broken` cannot be determined; every shoot requires the infrastructure extension of its provider
type and, when its external domain is known, the DNS record extension of that domain. -/
def exampleShootFunctions : ShootFunctions where
  ConstructExternalDomain := fun shoot _ =>
    if shoot.ObjectMeta.Name = "broken" then
      (none, some (.errorf "cannot determine external domain of shoot %s"
        [.str shoot.ObjectMeta.Name]))
    else (some { Name := "example.com", Provider := "route53" }, none)
  ComputeRequiredExtensions := fun shoot _ _ _ externalDomain _ =>
    match externalDomain with
    | none => [Id "Infrastructure" shoot.Spec.Provider.Type_]
    | some domain =>
      [Id "Infrastructure" shoot.Spec.Provider.Type_, Id DNSRecordResource domain.Provider]

/-- An instance of the serialization and hashing functions for the examples: the serialization
lists the content of the value, and the digest (a stand-in for a cryptographic hash) is the
serialized content followed by sixteen zeros. -/
def exampleHash : HashFunctions String where
  Marshal := fun input =>
    match input with
    | .seedSpec spec =>
      .ok ("seed:" ++ (match spec.DNS.Provider with
        | some provider => provider.Type_
        | none => "") ++ ":" ++ spec.Rest)
    | .registrationSpec spec =>
      .ok ("registration:" ++ String.join (spec.Resources.map (fun r => Id r.Kind r.Type_)))
    | .hashFields type providerConfig => .ok ("deployment:" ++ type ++ ":" ++ providerConfig)
  Unmarshal := fun data => .ok data
  HashForMap := fun m => m ++ "0000000000000000"

/-- An installation of a registration on `seed-eu` that has a deletion timestamp. -/
def deletingInstallationOn (name registrationName : String) : ControllerInstallation :=
  { ObjectMeta := { Name := name, DeletionTimestamp := some 7 }
    Spec := { SeedRef := { Name := "seed-eu" }, RegistrationRef := { Name := registrationName } } }

/-- A registration `old` that declares `DNSRecord/route53` and is marked for deletion. -/
def regOld : ControllerRegistration :=
  { ObjectMeta := { Name := "old", DeletionTimestamp := some 5 }
    Spec := { Resources := [{ Kind := "DNSRecord", Type_ := "route53" }] } }

/-- The content of a cluster store: the installations and the controller deployments. -/
structure Cluster where
  installations : List ControllerInstallation := []
  deployments : List ControllerDeployment := []
  deriving DecidableEq, Repr

/-- A store of installations and controller deployments: the installations behave as in
`storeClient`, and a controller deployment is found by its name. -/
def clusterClient : Client Cluster where
  Delete := fun cl installation =>
    ((storeClient.Delete cl.installations installation).1,
      { cl with installations := (storeClient.Delete cl.installations installation).2 })
  GetControllerDeployment := fun cl name =>
    match cl.deployments.find? (fun d => d.ObjectMeta.Name == name) with
    | some d => (.ok d, cl)
    | none => (.error (.api StatusReasonNotFound "controllerdeployment not found"), cl)
  GetControllerInstallation := fun cl name =>
    ((storeClient.GetControllerInstallation cl.installations name).1, cl)
  Create := fun cl obj =>
    ((storeClient.Create cl.installations obj).1,
      { cl with installations := (storeClient.Create cl.installations obj).2 })
  Patch := fun cl obj base =>
    ((storeClient.Patch cl.installations obj base).1,
      { cl with installations := (storeClient.Patch cl.installations obj base).2 })

/-- A registration `ext` that declares `Extension/ext` and references the controller
deployments `ext-deployment` and `ext-extra`. -/
def regExt : ControllerRegistration :=
  { ObjectMeta := { Name := "ext" }
    Spec := { Resources := [{ Kind := "Extension", Type_ := "ext" }]
              Deployment := some { DeploymentRefs := [{ Name := "ext-deployment" },
                                                      { Name := "ext-extra" }] } } }

/-- The registration `regExt` with its first deployment reference only. -/
def regExtFirst : ControllerRegistration :=
  { ObjectMeta := { Name := "ext" }
    Spec := { Resources := [{ Kind := "Extension", Type_ := "ext" }]
              Deployment := some { DeploymentRefs := [{ Name := "ext-deployment" }] } } }

/-- The controller deployment `ext-deployment`, of type `helm`. -/
def extDeployment : ControllerDeployment :=
  { ObjectMeta := { Name := "ext-deployment", ResourceVersion := "3" }
    Type_ := "helm", ProviderConfig := "chart" }

/-- An instance of the serialization and hashing functions whose `json.Marshal` fails on the
values `fails` selects and otherwise behaves as in `exampleHash`. -/
def failingHash (fails : HashInput → Bool) : HashFunctions String where
  Marshal := fun input =>
    if fails input then .error (.errorf "json: unsupported value" [])
    else exampleHash.Marshal input
  Unmarshal := exampleHash.Unmarshal
  HashForMap := exampleHash.HashForMap

/-- An installation of `dns` on `seed-eu` that carries the deployment hash label of an earlier
run, in which the registration referenced the controller deployment `ext-deployment`. -/
def staleInstallation : ControllerInstallation :=
  { ObjectMeta := { Name := "dns-4hq9z", Labels := [("deployment-hash", "deployment:helm:")] }
    Spec := { SeedRef := { Name := "seed-eu" }, RegistrationRef := { Name := "dns" }
              DeploymentRef := some { Name := "ext-deployment", ResourceVersion := "3" } } }

/-- The effect of a delete on an installation that has a finalizer: the installation stays in
the store and gets a deletion timestamp, unless it has one already. -/
def markDeleting (now : Time) (i : ControllerInstallation) : ControllerInstallation :=
  match i.ObjectMeta.DeletionTimestamp with
  | some _ => i
  | none => { i with ObjectMeta := { i.ObjectMeta with DeletionTimestamp := some now } }

/-- The name the store gives a created installation: its name, or, if it has none, its
generated-name prefix followed by a suffix that grows with the store. -/
def generatedName (store : List ControllerInstallation) (obj : ControllerInstallation) :
    String :=
  if obj.ObjectMeta.Name = "" then
    obj.ObjectMeta.GenerateName ++ String.mk (List.replicate (store.length + 1) 'x')
  else obj.ObjectMeta.Name

/-- A cluster store of installations and controller deployments in which installations can have
finalizers: `finalizers` tells, by name, which installations have one, and `now` is the time of
the store.  A delete removes the installation of that name if it has no finalizer; if it has
one, the installation lingers with a deletion timestamp (it is removed once its finalizer is,
which is no action of the reconciler); a delete reports not-found when there is no
installation of that name.  A create adds the installation under its generated name unless the
name is taken, a patch replaces the installation of that name, and a read finds an installation
or a controller deployment by its name. -/
def finalizerClient (finalizers : String → Bool) (now : Time) : Client Cluster where
  Delete := fun cl installation =>
    (if cl.installations.any (fun i => i.ObjectMeta.Name == installation.ObjectMeta.Name) then
        none
      else some (.api StatusReasonNotFound "controllerinstallation not found"),
      { cl with installations := cl.installations.filterMap (fun i =>
          if i.ObjectMeta.Name = installation.ObjectMeta.Name then
            (if finalizers i.ObjectMeta.Name then some (markDeleting now i) else none)
          else some i) })
  GetControllerDeployment := fun cl name =>
    match cl.deployments.find? (fun d => d.ObjectMeta.Name == name) with
    | some d => (.ok d, cl)
    | none => (.error (.api StatusReasonNotFound "controllerdeployment not found"), cl)
  GetControllerInstallation := fun cl name =>
    match cl.installations.find? (fun i => i.ObjectMeta.Name == name) with
    | some i => (.ok i, cl)
    | none => (.error (.api StatusReasonNotFound "controllerinstallation not found"), cl)
  Create := fun cl obj =>
    if cl.installations.any (fun i => i.ObjectMeta.Name == generatedName cl.installations obj) then
      (some (.api "AlreadyExists" "controllerinstallation already exists"), cl)
    else
      (none, { cl with installations := cl.installations ++
        [{ obj with ObjectMeta :=
            { obj.ObjectMeta with Name := generatedName cl.installations obj } }] })
  Patch := fun cl obj _ =>
    if cl.installations.any (fun i => i.ObjectMeta.Name == obj.ObjectMeta.Name) then
      (none, { cl with installations := cl.installations.map (fun i =>
        if i.ObjectMeta.Name = obj.ObjectMeta.Name then obj else i) })
    else (some (.api StatusReasonNotFound "controllerinstallation not found"), cl)

/-- A cluster store with two installations on `seed-eu`, of the registrations `dns` and
`backup-us`, and the controller deployment `ext-deployment`. -/
def clusterEU : Cluster :=
  { installations := [installationOn "dns-4hq9z" "dns" false,
      installationOn "backup-us-x7k2p" "backup-us" false]
    deployments := [extDeployment] }

/-- A cluster store that holds the controller deployment `ext-deployment` and no
installation. -/
def clusterExt : Cluster := { deployments := [extDeployment] }

/-- The run of `Reconcile` for the seed `seed-eu` with the DNS provider `route53` on the store
`clusterEU`, in which the installation `backup-us-x7k2p` has a finalizer, with the
registrations `dns`, `always` and `backup-us` and no backup bucket, backup entry or shoot. -/
def firstRunEU : ReconcileRun Cluster :=
  Reconcile (finalizerClient (fun name => name == "backup-us-x7k2p") 7) exampleHash
    exampleShootFunctions id true clusterEU seedObjDNS [regDNS, regAlways, regBackupUS]
    clusterEU.installations [] [] [] none []

/-- The run of `Reconcile` that follows `firstRunEU`, on the store that run left. -/
def secondRunEU : ReconcileRun Cluster :=
  Reconcile (finalizerClient (fun name => name == "backup-us-x7k2p") 7) exampleHash
    exampleShootFunctions id true firstRunEU.state seedObjDNS [regDNS, regAlways, regBackupUS]
    firstRunEU.state.installations [] [] [] none []

/-! ## Vocabulary of the statements -/

/-- A registration declares an identity when one of its resources has that Kind/Type identity. -/
def declares (cr : controllerRegistration) (id : String) : Prop :=
  ∃ res ∈ cr.obj.Spec.Resources, Id res.Kind res.Type_ = id

/-- The names a Go map of name slices holds for a key (`nil` for a missing key). -/
def namesFor (m : GoMap (List String)) (id : String) : List String := (m.get? id).getD []

/-- The deploy-policy test of the first loop of `computeWantedControllerRegistrationNames`. -/
def wantedByPolicy (numberOfShoots : Int) (seedObjectMeta : ObjectMeta)
    (cr : controllerRegistration) : Prop :=
  (cr.deployAlways = true ∧ seedObjectMeta.DeletionTimestamp = none) ∨
    (cr.deployAlwaysExceptNoShoots = true ∧ 0 < numberOfShoots)

/-- Some installation of the list references the seed, is marked required and references the
registration `n`. -/
def requiredInstallationOf (controllerInstallationList : List ControllerInstallation)
    (seedName n : String) : Prop :=
  ∃ inst ∈ controllerInstallationList, inst.Spec.SeedRef.Name = seedName ∧
    IsControllerInstallationRequired inst = true ∧ inst.Spec.RegistrationRef.Name = n

/-- The names `computeWantedControllerRegistrationNames` hands to the seed-eligibility filter:
wanted by policy, declaring a required identity, or referenced by a required installation of the
seed. -/
def candidate (wantedKindTypeCombinations : StringSet)
    (controllerInstallationList : List ControllerInstallation)
    (controllerRegistrations : GoMap controllerRegistration) (numberOfShoots : Int)
    (seedObjectMeta : ObjectMeta) (n : String) : Prop :=
  (∃ cr, (n, cr) ∈ controllerRegistrations ∧ wantedByPolicy numberOfShoots seedObjectMeta cr) ∨
    (∃ id ∈ wantedKindTypeCombinations, ∃ cr, (n, cr) ∈ controllerRegistrations ∧ declares cr id) ∨
    requiredInstallationOf controllerInstallationList seedObjectMeta.Name n

/-- The spec `deployNeededInstallation` gives an installation: the references to the seed, the
registration and, if there is one, the controller deployment. -/
def installationSpecOf (seed : Seed) (controllerDeployment : Option ControllerDeployment)
    (controllerRegistration : ControllerRegistration) : ControllerInstallationSpec :=
  { SeedRef := { Name := seed.ObjectMeta.Name
                 ResourceVersion := seed.ObjectMeta.ResourceVersion }
    RegistrationRef := { Name := controllerRegistration.ObjectMeta.Name
                         ResourceVersion := controllerRegistration.ObjectMeta.ResourceVersion }
    DeploymentRef := controllerDeployment.map (fun d =>
      { Name := d.ObjectMeta.Name, ResourceVersion := d.ObjectMeta.ResourceVersion }) }

/-- The names of the installations of a list are pairwise distinct. -/
def uniqueNames (installs : List ControllerInstallation) : Prop :=
  (installs.map (fun i => i.ObjectMeta.Name)).Nodup

/-- No two installations of the list reference both the seed and the same registration. -/
def onePerRegistration (installs : List ControllerInstallation) (seedName : String) : Prop :=
  ∀ i ∈ installs, ∀ j ∈ installs, i.Spec.SeedRef.Name = seedName →
    j.Spec.SeedRef.Name = seedName →
    i.Spec.RegistrationRef.Name = j.Spec.RegistrationRef.Name → i = j

instance uniqueNames.decidable (installs : List ControllerInstallation) :
    Decidable (uniqueNames installs) :=
  inferInstanceAs
    (Decidable ((installs.map (fun (i : ControllerInstallation) => i.ObjectMeta.Name)).Nodup))

instance onePerRegistration.decidable (installs : List ControllerInstallation)
    (seedName : String) : Decidable (onePerRegistration installs seedName) :=
  inferInstanceAs (Decidable (∀ i ∈ installs, ∀ j ∈ installs, i.Spec.SeedRef.Name = seedName →
    j.Spec.SeedRef.Name = seedName →
    i.Spec.RegistrationRef.Name = j.Spec.RegistrationRef.Name → i = j))

/-- What holds of the cluster store `st` while the deploy phase runs on the store `cl`, after
the wanted names `done` have been processed: the controller deployments are those of `cl`; the
names are distinct; an installation on the seed whose registration has not been processed is in
`st` exactly when it is in `cl`; an installation on the seed of a processed registration that is
not being deleted has no deletion timestamp and is left as it is by `mutate`, and there is one;
and the installations on the seed that are required reference the same registrations as in
`cl`. -/
structure DeployInv {M : Type} (c : Client Cluster) (h : HashFunctions M) (seed : Seed)
    (regs : GoMap controllerRegistration) (cl st : Cluster) (done : List String) : Prop where
  deployments : st.deployments = cl.deployments
  unique : uniqueNames st.installations
  kept : ∀ i ∈ st.installations, i.Spec.SeedRef.Name = seed.ObjectMeta.Name →
    i.Spec.RegistrationRef.Name ∉ done → i ∈ cl.installations
  pending : ∀ i ∈ cl.installations, i.Spec.SeedRef.Name = seed.ObjectMeta.Name →
    i.Spec.RegistrationRef.Name ∉ done → i ∈ st.installations
  settled : ∀ i ∈ st.installations, i.Spec.SeedRef.Name = seed.ObjectMeta.Name →
    i.Spec.RegistrationRef.Name ∈ done →
    ∀ cr d, regs.get? i.Spec.RegistrationRef.Name = some cr →
      cr.obj.ObjectMeta.DeletionTimestamp = none →
      (fetchControllerDeployment c cl cr.obj).1 = .ok d →
      i.ObjectMeta.DeletionTimestamp = none ∧
        mutate h seed d cr.obj (installationSpecOf seed d cr.obj) i = (i, none)
  present : ∀ n ∈ done, ∀ cr, regs.get? n = some cr →
    cr.obj.ObjectMeta.DeletionTimestamp = none →
    (∃ d, (fetchControllerDeployment c cl cr.obj).1 = .ok d) ∧
      ∃ i ∈ st.installations, i.Spec.SeedRef.Name = seed.ObjectMeta.Name ∧
        i.Spec.RegistrationRef.Name = n
  requiredFrom : ∀ i ∈ st.installations, i.Spec.SeedRef.Name = seed.ObjectMeta.Name →
    IsControllerInstallationRequired i = true →
    ∃ j ∈ cl.installations, j.Spec.SeedRef.Name = seed.ObjectMeta.Name ∧
      j.Spec.RegistrationRef.Name = i.Spec.RegistrationRef.Name ∧
      IsControllerInstallationRequired j = true
  requiredTo : ∀ j ∈ cl.installations, j.Spec.SeedRef.Name = seed.ObjectMeta.Name →
    ∃ i ∈ st.installations, i.ObjectMeta.Name = j.ObjectMeta.Name ∧
      i.Spec.SeedRef.Name = seed.ObjectMeta.Name ∧
      i.Spec.RegistrationRef.Name = j.Spec.RegistrationRef.Name ∧
      IsControllerInstallationRequired i = IsControllerInstallationRequired j

/-- The names of the installations the delete phase issues a delete for. -/
def unwantedNames (wanted : StringSet) (m : GoMap ControllerInstallation) : List String :=
  (m.filter (fun p => !wanted.Has p.1)).map (fun p => p.2.ObjectMeta.Name)

/-- The installations of the cluster store after deletes of the installations of the given
names: those without finalizer are gone, those with a finalizer have a deletion timestamp. -/
def afterDeletes (finalizers : String → Bool) (now : Time) (names : List String)
    (store : List ControllerInstallation) : List ControllerInstallation :=
  store.filterMap (fun i =>
    if i.ObjectMeta.Name ∈ names then
      (if finalizers i.ObjectMeta.Name then some (markDeleting now i) else none)
    else some i)

/-- What holds of the cluster store `st` that a successful run on the store `cl` leaves, with
the Wanted Set of that run: an installation on the seed references a wanted registration, or it
lingers, with a finalizer and a deletion timestamp, and references a registered one; every
wanted registration that is not being deleted has an installation on the seed, and each such
installation has no deletion timestamp and is left as it is by `mutate`; and the required
installations on the seed reference the same wanted registrations as in `cl`. -/
structure Settled {M : Type} (c : Client Cluster) (finalizers : String → Bool)
    (h : HashFunctions M) (seed : Seed) (regs : GoMap controllerRegistration)
    (cl st : Cluster) (wanted : StringSet) : Prop where
  deployments : st.deployments = cl.deployments
  unique : uniqueNames st.installations
  lingering : ∀ i ∈ st.installations, i.Spec.SeedRef.Name = seed.ObjectMeta.Name →
    i.Spec.RegistrationRef.Name ∉ wanted →
    i.ObjectMeta.DeletionTimestamp ≠ none ∧ finalizers i.ObjectMeta.Name = true ∧
      (regs.get? i.Spec.RegistrationRef.Name).isSome = true
  settled : ∀ i ∈ st.installations, i.Spec.SeedRef.Name = seed.ObjectMeta.Name →
    i.Spec.RegistrationRef.Name ∈ wanted →
    ∀ cr d, regs.get? i.Spec.RegistrationRef.Name = some cr →
      cr.obj.ObjectMeta.DeletionTimestamp = none →
      (fetchControllerDeployment c cl cr.obj).1 = .ok d →
      i.ObjectMeta.DeletionTimestamp = none ∧
        mutate h seed d cr.obj (installationSpecOf seed d cr.obj) i = (i, none)
  present : ∀ n ∈ wanted, ∀ cr, regs.get? n = some cr →
    cr.obj.ObjectMeta.DeletionTimestamp = none →
    (∃ d, (fetchControllerDeployment c cl cr.obj).1 = .ok d) ∧
      ∃ i ∈ st.installations, i.Spec.SeedRef.Name = seed.ObjectMeta.Name ∧
        i.Spec.RegistrationRef.Name = n
  requiredFrom : ∀ n, requiredInstallationOf st.installations seed.ObjectMeta.Name n →
    requiredInstallationOf cl.installations seed.ObjectMeta.Name n
  requiredTo : ∀ n ∈ wanted, requiredInstallationOf cl.installations seed.ObjectMeta.Name n →
    requiredInstallationOf st.installations seed.ObjectMeta.Name n

/-! ## Lemmas on maps and sets -/

theorem GoMap.mem_of_get? {V : Type} (m : GoMap V) (n : String) (v : V)
    (h : m.get? n = some v) : (n, v) ∈ m := by
  induction m with
  | nil => simp [GoMap.get?] at h
  | cons e rest ih =>
    obtain ⟨k, w⟩ := e
    by_cases hk : k = n
    · simp [GoMap.get?, hk] at h
      simp [hk, h]
    · simp [GoMap.get?, hk] at h
      exact List.mem_cons_of_mem _ (ih h)

theorem GoMap.get?_eq_none_iff {V : Type} (m : GoMap V) (n : String) :
    m.get? n = none ↔ n ∉ m.keys := by
  induction m with
  | nil => simp [GoMap.get?, GoMap.keys]
  | cons e rest ih =>
    obtain ⟨k, w⟩ := e
    by_cases hk : k = n
    · simp [GoMap.get?, GoMap.keys, hk]
    · have hk2 : ¬ n = k := fun h => hk h.symm
      simp only [GoMap.get?, hk, if_false, ih]
      simp [GoMap.keys, hk2]

theorem GoMap.get?_of_mem {V : Type} (m : GoMap V) (hwf : m.WF) (n : String) (v : V)
    (h : (n, v) ∈ m) : m.get? n = some v := by
  induction m with
  | nil => simp at h
  | cons e rest ih =>
    obtain ⟨k, w⟩ := e
    have hnd : k ∉ GoMap.keys rest ∧ (GoMap.keys rest).Nodup := by
      simpa [GoMap.WF, GoMap.keys] using hwf
    by_cases hk : k = n
    · rcases List.mem_cons.mp h with h1 | h1
      · simp only [Prod.mk.injEq] at h1
        simp [GoMap.get?, hk, h1.2]
      · exfalso
        apply hnd.1
        rw [hk]
        exact List.mem_map_of_mem Prod.fst h1
    · rcases List.mem_cons.mp h with h1 | h1
      · simp only [Prod.mk.injEq] at h1
        exact absurd h1.1.symm hk
      · simp only [GoMap.get?, hk, if_false]
        exact ih hnd.2 h1

theorem GoMap.get?_set {V : Type} (m : GoMap V) (k n : String) (v : V) :
    (m.set k v).get? n = if k = n then some v else m.get? n := by
  induction m with
  | nil => simp [GoMap.set, GoMap.get?]
  | cons e rest ih =>
    obtain ⟨k1, w⟩ := e
    by_cases h1 : k1 = k
    · subst h1
      by_cases h2 : k1 = n <;> simp [GoMap.set, GoMap.get?, h2]
    · by_cases h2 : k1 = n
      · have h3 : ¬ k = n := fun h => h1 (h2.trans h.symm)
        subst h2
        simp [GoMap.set, GoMap.get?, h1, h3]
      · simp [GoMap.set, GoMap.get?, h1, h2, ih]

theorem GoMap.keys_set {V : Type} (m : GoMap V) (k : String) (v : V) :
    (m.set k v).keys = if k ∈ m.keys then m.keys else m.keys ++ [k] := by
  induction m with
  | nil => simp [GoMap.set, GoMap.keys]
  | cons e rest ih =>
    obtain ⟨k1, w⟩ := e
    by_cases h1 : k1 = k
    · simp [GoMap.set, GoMap.keys, h1]
    · have h2 : ¬ k = k1 := fun h => h1 h.symm
      have ih2 := ih
      simp only [GoMap.keys] at ih2
      by_cases h3 : k ∈ List.map Prod.fst rest
      · simp [GoMap.set, GoMap.keys, h1, h2, h3, ih2]
      · simp [GoMap.set, GoMap.keys, h1, h2, h3, ih2]

theorem GoMap.WF_set {V : Type} (m : GoMap V) (hwf : m.WF) (k : String) (v : V) :
    (m.set k v).WF := by
  unfold GoMap.WF at *
  rw [GoMap.keys_set]
  by_cases h : k ∈ m.keys
  · simpa [h] using hwf
  · simp only [h, if_false]
    rw [List.nodup_append]
    refine ⟨hwf, List.nodup_singleton k, ?_⟩
    intro a ha hb
    simp only [List.mem_singleton] at hb
    exact h (hb ▸ ha)

theorem StringSet_mem_Insert1 (s : StringSet) (x y : String) :
    y ∈ s.Insert1 x ↔ y ∈ s ∨ y = x := by
  unfold StringSet.Insert1
  by_cases h : x ∈ s
  · simp only [h, if_true]
    constructor
    · exact Or.inl
    · rintro (h1 | h1)
      · exact h1
      · exact h1 ▸ h
  · simp [h]

theorem StringSet_mem_Insert (s : StringSet) (items : List String) (y : String) :
    y ∈ s.Insert items ↔ y ∈ s ∨ y ∈ items := by
  unfold StringSet.Insert
  induction items generalizing s with
  | nil => simp
  | cons x rest ih =>
    rw [List.foldl_cons, ih, StringSet_mem_Insert1]
    simp only [List.mem_cons]
    tauto

theorem StringSet_mem_List (s : StringSet) (y : String) : y ∈ s.List ↔ y ∈ s := by
  unfold StringSet.List
  exact (List.perm_insertionSort _ s).mem_iff

theorem StringSet_Has_iff (s : StringSet) (y : String) : s.Has y = true ↔ y ∈ s := by
  simp [StringSet.Has]

/-! ## Lemmas on the loops of the resolver -/

theorem appendResourceNames_names (name : String) (resources : List ControllerResource)
    (m : GoMap (List String)) (id n : String) :
    n ∈ namesFor (appendResourceNames name resources m) id ↔
      n ∈ namesFor m id ∨ (n = name ∧ ∃ res ∈ resources, Id res.Kind res.Type_ = id) := by
  unfold appendResourceNames
  induction resources generalizing m with
  | nil => simp
  | cons r rest ih =>
    rw [List.foldl_cons, ih]
    have hstep : n ∈ namesFor (m.set (Id r.Kind r.Type_)
        ((m.get? (Id r.Kind r.Type_)).getD [] ++ [name])) id ↔
        n ∈ namesFor m id ∨ (n = name ∧ Id r.Kind r.Type_ = id) := by
      unfold namesFor
      rw [GoMap.get?_set]
      by_cases h : Id r.Kind r.Type_ = id
      · subst h
        simp
      · simp [h]
    rw [hstep]
    simp only [List.mem_cons, exists_eq_or_imp]
    tauto

theorem appendResourceNames_isSome (name : String) (resources : List ControllerResource)
    (m : GoMap (List String)) (id : String) :
    ((appendResourceNames name resources m).get? id).isSome = true ↔
      (m.get? id).isSome = true ∨ ∃ res ∈ resources, Id res.Kind res.Type_ = id := by
  unfold appendResourceNames
  induction resources generalizing m with
  | nil => simp
  | cons r rest ih =>
    rw [List.foldl_cons, ih, GoMap.get?_set]
    by_cases h : Id r.Kind r.Type_ = id
    · simp [h]
    · simp [h]

theorem policyLoop_names (numberOfShoots : Int) (seedObjectMeta : ObjectMeta)
    (regs : GoMap controllerRegistration) (m : GoMap (List String)) (w : StringSet)
    (id n : String) :
    n ∈ namesFor (policyLoop numberOfShoots seedObjectMeta regs (m, w)).1 id ↔
      n ∈ namesFor m id ∨ ∃ cr, (n, cr) ∈ regs ∧ declares cr id := by
  induction regs generalizing m w with
  | nil => simp [policyLoop]
  | cons e rest ih =>
    obtain ⟨name, cr⟩ := e
    simp only [policyLoop]
    rw [ih, appendResourceNames_names]
    simp only [List.mem_cons, Prod.mk.injEq, declares]
    constructor
    · rintro ((h | ⟨h1, h2⟩) | ⟨cr1, h1, h2⟩)
      · exact Or.inl h
      · exact Or.inr ⟨cr, Or.inl ⟨h1, rfl⟩, h2⟩
      · exact Or.inr ⟨cr1, Or.inr h1, h2⟩
    · rintro (h | ⟨cr1, (⟨h1, h3⟩ | h1), h2⟩)
      · exact Or.inl (Or.inl h)
      · exact Or.inl (Or.inr ⟨h1, h3 ▸ h2⟩)
      · exact Or.inr ⟨cr1, h1, h2⟩

theorem policyLoop_isSome (numberOfShoots : Int) (seedObjectMeta : ObjectMeta)
    (regs : GoMap controllerRegistration) (m : GoMap (List String)) (w : StringSet)
    (id : String) :
    ((policyLoop numberOfShoots seedObjectMeta regs (m, w)).1.get? id).isSome = true ↔
      (m.get? id).isSome = true ∨ ∃ n cr, (n, cr) ∈ regs ∧ declares cr id := by
  induction regs generalizing m w with
  | nil => simp [policyLoop]
  | cons e rest ih =>
    obtain ⟨name, cr⟩ := e
    simp only [policyLoop]
    rw [ih, appendResourceNames_isSome]
    simp only [List.mem_cons, Prod.mk.injEq, declares]
    constructor
    · rintro ((h | h) | ⟨n1, cr1, h1, h2⟩)
      · exact Or.inl h
      · exact Or.inr ⟨name, cr, Or.inl ⟨rfl, rfl⟩, h⟩
      · exact Or.inr ⟨n1, cr1, Or.inr h1, h2⟩
    · rintro (h | ⟨n1, cr1, (⟨_, h3⟩ | h1), h2⟩)
      · exact Or.inl (Or.inl h)
      · exact Or.inl (Or.inr (h3 ▸ h2))
      · exact Or.inr ⟨n1, cr1, h1, h2⟩

theorem policyLoop_wanted (numberOfShoots : Int) (seedObjectMeta : ObjectMeta)
    (regs : GoMap controllerRegistration) (m : GoMap (List String)) (w : StringSet)
    (n : String) :
    n ∈ (policyLoop numberOfShoots seedObjectMeta regs (m, w)).2 ↔
      n ∈ w ∨ ∃ cr, (n, cr) ∈ regs ∧ wantedByPolicy numberOfShoots seedObjectMeta cr := by
  induction regs generalizing m w with
  | nil => simp [policyLoop]
  | cons e rest ih =>
    obtain ⟨name, cr⟩ := e
    simp only [policyLoop]
    rw [ih]
    have hstep : ∀ (b : Bool) (s : StringSet),
        n ∈ (if b = true then s.Insert [name] else s) ↔ n ∈ s ∨ (b = true ∧ n = name) := by
      intro b s
      cases b <;> simp [StringSet_mem_Insert]
    rw [hstep, hstep]
    simp only [List.mem_cons, Prod.mk.injEq, wantedByPolicy, Bool.and_eq_true,
      decide_eq_true_eq, Option.isNone_iff_eq_none, gt_iff_lt]
    constructor
    · rintro (((h | ⟨h1, h2⟩) | ⟨h1, h2⟩) | ⟨cr1, h1, h2⟩)
      · exact Or.inl h
      · exact Or.inr ⟨cr, Or.inl ⟨h2, rfl⟩, Or.inl h1⟩
      · exact Or.inr ⟨cr, Or.inl ⟨h2, rfl⟩, Or.inr h1⟩
      · exact Or.inr ⟨cr1, Or.inr h1, h2⟩
    · rintro (h | ⟨cr1, (⟨h1, h3⟩ | h1), h2⟩)
      · exact Or.inl (Or.inl (Or.inl h))
      · subst h3
        rcases h2 with h2 | h2
        · exact Or.inl (Or.inl (Or.inr ⟨h2, h1⟩))
        · exact Or.inl (Or.inr ⟨h2, h1⟩)
      · exact Or.inr ⟨cr1, h1, h2⟩

theorem requiredLoop_ok (m : GoMap (List String)) (required : List String) (w w1 : StringSet)
    (h : requiredLoop m required w = .ok w1) :
    (∀ id ∈ required, (m.get? id).isSome = true) ∧
      ∀ n, n ∈ w1 ↔ n ∈ w ∨ ∃ id ∈ required, n ∈ namesFor m id := by
  induction required generalizing w with
  | nil =>
    simp only [requiredLoop, Except.ok.injEq] at h
    subst h
    simp
  | cons id rest ih =>
    cases hget : m.get? id with
    | none => simp [requiredLoop, hget] at h
    | some names =>
      simp only [requiredLoop, hget] at h
      obtain ⟨h1, h2⟩ := ih _ h
      refine ⟨?_, ?_⟩
      · intro id1 hid1
        rcases List.mem_cons.mp hid1 with h3 | h3
        · simp [h3, hget]
        · exact h1 id1 h3
      · intro n
        rw [h2, StringSet_mem_Insert]
        simp only [List.mem_cons, exists_eq_or_imp, namesFor, hget, Option.getD_some]
        tauto

theorem requiredLoop_error (m : GoMap (List String)) (required : List String) (w : StringSet)
    (e : GoError) (h : requiredLoop m required w = .error e) :
    ∃ id ∈ required, m.get? id = none ∧
      e = (.errorf "need to install an extension controller for %q but no appropriate ControllerRegistration found"
        [.str id]) := by
  induction required generalizing w with
  | nil => simp [requiredLoop] at h
  | cons id rest ih =>
    cases hget : m.get? id with
    | none =>
      simp only [requiredLoop, hget, Except.error.injEq] at h
      exact ⟨id, List.mem_cons_self _ _, hget, h.symm⟩
    | some names =>
      simp only [requiredLoop, hget] at h
      obtain ⟨id1, h1, h2⟩ := ih _ h
      exact ⟨id1, List.mem_cons_of_mem _ h1, h2⟩

theorem matchingLoop_ok (regs : GoMap controllerRegistration) (seedLabels : GoMap String)
    (names : List String) (acc s : StringSet)
    (h : matchingSeedLabelSelectorLoop regs seedLabels names acc = .ok s) :
    (∀ n ∈ names, ∃ cr b, regs.get? n = some cr ∧
        seedSelectorMatches cr.obj.Spec.Deployment seedLabels = .ok b) ∧
      ∀ n, n ∈ s ↔ n ∈ acc ∨ (n ∈ names ∧ ∃ cr, regs.get? n = some cr ∧
        seedSelectorMatches cr.obj.Spec.Deployment seedLabels = .ok true) := by
  induction names generalizing acc with
  | nil =>
    simp only [matchingSeedLabelSelectorLoop, Except.ok.injEq] at h
    subst h
    simp
  | cons name rest ih =>
    cases hget : regs.get? name with
    | none => simp [matchingSeedLabelSelectorLoop, hget] at h
    | some cr =>
      cases hm : seedSelectorMatches cr.obj.Spec.Deployment seedLabels with
      | error err => simp [matchingSeedLabelSelectorLoop, hget, hm] at h
      | ok b =>
        simp only [matchingSeedLabelSelectorLoop, hget, hm] at h
        obtain ⟨h1, h2⟩ := ih _ h
        refine ⟨?_, ?_⟩
        · intro n hn
          rcases List.mem_cons.mp hn with h3 | h3
          · exact ⟨cr, b, h3 ▸ hget, hm⟩
          · exact h1 n h3
        · intro n
          rw [h2]
          have hacc : n ∈ (if b = true then acc.Insert [name] else acc) ↔
              n ∈ acc ∨ (b = true ∧ n = name) := by
            cases b <;> simp [StringSet_mem_Insert]
          rw [hacc]
          simp only [List.mem_cons]
          constructor
          · rintro ((h3 | ⟨h3, h4⟩) | ⟨h3, h4⟩)
            · exact Or.inl h3
            · exact Or.inr ⟨Or.inl h4, cr, h4 ▸ hget, h3 ▸ hm⟩
            · exact Or.inr ⟨Or.inr h3, h4⟩
          · rintro (h3 | ⟨(h3 | h3), cr1, h4, h5⟩)
            · exact Or.inl (Or.inl h3)
            · subst h3
              rw [hget] at h4
              cases h4
              rw [hm] at h5
              cases h5
              exact Or.inl (Or.inr ⟨rfl, rfl⟩)
            · exact Or.inr ⟨h3, cr1, h4, h5⟩

theorem matchingLoop_error (regs : GoMap controllerRegistration) (seedLabels : GoMap String)
    (names : List String) (acc : StringSet) (e : GoError)
    (h : matchingSeedLabelSelectorLoop regs seedLabels names acc = .error e) :
    (∃ n ∈ names, regs.get? n = none ∧
        e = (.errorf "ControllerRegistration with name %s not found" [.str n])) ∨
      ∃ n ∈ names, ∃ cr, regs.get? n = some cr ∧
        seedSelectorMatches cr.obj.Spec.Deployment seedLabels = .error e := by
  induction names generalizing acc with
  | nil => simp [matchingSeedLabelSelectorLoop] at h
  | cons name rest ih =>
    cases hget : regs.get? name with
    | none =>
      simp only [matchingSeedLabelSelectorLoop, hget, Except.error.injEq] at h
      exact Or.inl ⟨name, List.mem_cons_self _ _, hget, h.symm⟩
    | some cr =>
      cases hm : seedSelectorMatches cr.obj.Spec.Deployment seedLabels with
      | error err =>
        simp only [matchingSeedLabelSelectorLoop, hget, hm, Except.error.injEq] at h
        exact Or.inr ⟨name, List.mem_cons_self _ _, cr, hget, h ▸ hm⟩
      | ok b =>
        simp only [matchingSeedLabelSelectorLoop, hget, hm] at h
        rcases ih _ h with ⟨n, h1, h2⟩ | ⟨n, h1, h2⟩
        · exact Or.inl ⟨n, List.mem_cons_of_mem _ h1, h2⟩
        · exact Or.inr ⟨n, List.mem_cons_of_mem _ h1, h2⟩

theorem installedAndRequired_mem (installs : List ControllerInstallation) (seedName n : String) :
    n ∈ installedAndRequiredRegistrationNames installs seedName ↔
      requiredInstallationOf installs seedName n := by
  have key : ∀ (l : List ControllerInstallation) (acc : StringSet),
      n ∈ l.foldl
        (fun requiredControllerRegistrationNames controllerInstallation =>
          if controllerInstallation.Spec.SeedRef.Name ≠ seedName then
            requiredControllerRegistrationNames
          else if !IsControllerInstallationRequired controllerInstallation then
            requiredControllerRegistrationNames
          else
            StringSet.Insert requiredControllerRegistrationNames
              [controllerInstallation.Spec.RegistrationRef.Name]) acc ↔
        n ∈ acc ∨ requiredInstallationOf l seedName n := by
    intro l
    induction l with
    | nil => simp [requiredInstallationOf]
    | cons inst rest ih =>
      intro acc
      rw [List.foldl_cons, ih]
      unfold requiredInstallationOf
      simp only [List.mem_cons, exists_eq_or_imp]
      by_cases h1 : inst.Spec.SeedRef.Name = seedName
      · cases h2 : IsControllerInstallationRequired inst
        · simp [h1]
        · simp only [h1, ne_eq, not_true_eq_false, if_false, Bool.not_true, StringSet_mem_Insert,
            List.mem_singleton, true_and, Bool.false_eq_true]
          constructor
          · rintro ((h | h) | h)
            · exact Or.inl h
            · exact Or.inr (Or.inl h.symm)
            · exact Or.inr (Or.inr h)
          · rintro (h | h | h)
            · exact Or.inl (Or.inl h)
            · exact Or.inl (Or.inr h.symm)
            · exact Or.inr h
      · simp [h1]
  have h := key installs StringSet.NewString
  simpa [installedAndRequiredRegistrationNames, StringSet.NewString] using h

theorem computeWanted_unfold (required : StringSet) (installs : List ControllerInstallation)
    (regs : GoMap controllerRegistration) (numberOfShoots : Int) (seedObjectMeta : ObjectMeta) :
    computeWantedControllerRegistrationNames required installs regs numberOfShoots seedObjectMeta =
      match requiredLoop (policyLoop numberOfShoots seedObjectMeta regs ([], [])).1 required
          (policyLoop numberOfShoots seedObjectMeta regs ([], [])).2 with
      | .error err => .error err
      | .ok w =>
        matchingSeedLabelSelectorLoop regs seedObjectMeta.Labels
          (w.Insert (installedAndRequiredRegistrationNames installs seedObjectMeta.Name).List)
          [] := by
  rfl

theorem kindType_isSome_iff (numberOfShoots : Int) (seedObjectMeta : ObjectMeta)
    (regs : GoMap controllerRegistration) (id : String) :
    ((policyLoop numberOfShoots seedObjectMeta regs ([], [])).1.get? id).isSome = true ↔
      ∃ n cr, (n, cr) ∈ regs ∧ declares cr id := by
  rw [policyLoop_isSome]
  simp [GoMap.get?]

theorem beforeFilter_mem (required : StringSet) (installs : List ControllerInstallation)
    (regs : GoMap controllerRegistration) (numberOfShoots : Int) (seedObjectMeta : ObjectMeta)
    (w : StringSet)
    (h : requiredLoop (policyLoop numberOfShoots seedObjectMeta regs ([], [])).1 required
      (policyLoop numberOfShoots seedObjectMeta regs ([], [])).2 = .ok w) (n : String) :
    n ∈ w.Insert (installedAndRequiredRegistrationNames installs seedObjectMeta.Name).List ↔
      candidate required installs regs numberOfShoots seedObjectMeta n := by
  obtain ⟨_, h2⟩ := requiredLoop_ok _ _ _ _ h
  rw [StringSet_mem_Insert, h2, policyLoop_wanted, StringSet_mem_List, installedAndRequired_mem]
  unfold candidate
  have hn : ∀ id, n ∈ namesFor (policyLoop numberOfShoots seedObjectMeta regs ([], [])).1 id ↔
      ∃ cr, (n, cr) ∈ regs ∧ declares cr id := by
    intro id
    rw [policyLoop_names]
    simp [namesFor, GoMap.get?]
  simp only [hn, List.not_mem_nil, false_or]
  exact or_assoc

/-- What a successful run of the resolver establishes. -/
theorem computeWanted_ok (required : StringSet) (installs : List ControllerInstallation)
    (regs : GoMap controllerRegistration) (numberOfShoots : Int) (seedObjectMeta : ObjectMeta)
    (s : StringSet)
    (h : computeWantedControllerRegistrationNames required installs regs numberOfShoots
      seedObjectMeta = .ok s) :
    (∀ id ∈ required, ∃ n cr, (n, cr) ∈ regs ∧ declares cr id) ∧
    (∀ n, candidate required installs regs numberOfShoots seedObjectMeta n →
      ∃ cr b, regs.get? n = some cr ∧
        seedSelectorMatches cr.obj.Spec.Deployment seedObjectMeta.Labels = .ok b) ∧
    (∀ n, n ∈ s ↔ candidate required installs regs numberOfShoots seedObjectMeta n ∧
      ∃ cr, regs.get? n = some cr ∧
        seedSelectorMatches cr.obj.Spec.Deployment seedObjectMeta.Labels = .ok true) := by
  rw [computeWanted_unfold] at h
  cases hreq : requiredLoop (policyLoop numberOfShoots seedObjectMeta regs ([], [])).1 required
      (policyLoop numberOfShoots seedObjectMeta regs ([], [])).2 with
  | error err => simp [hreq] at h
  | ok w =>
    simp only [hreq] at h
    obtain ⟨h1, _⟩ := requiredLoop_ok _ _ _ _ hreq
    obtain ⟨h3, h4⟩ := matchingLoop_ok _ _ _ _ _ h
    refine ⟨?_, ?_, ?_⟩
    · intro id hid
      exact (kindType_isSome_iff numberOfShoots seedObjectMeta regs id).mp (h1 id hid)
    · intro n hn
      exact h3 n ((beforeFilter_mem required installs regs numberOfShoots seedObjectMeta w hreq
        n).mpr hn)
    · intro n
      rw [h4, beforeFilter_mem required installs regs numberOfShoots seedObjectMeta w hreq n]
      simp

/-- What a failed run of the resolver reports. -/
theorem computeWanted_error (required : StringSet) (installs : List ControllerInstallation)
    (regs : GoMap controllerRegistration) (numberOfShoots : Int) (seedObjectMeta : ObjectMeta)
    (e : GoError)
    (h : computeWantedControllerRegistrationNames required installs regs numberOfShoots
      seedObjectMeta = .error e) :
    (∃ id ∈ required, (¬ ∃ n cr, (n, cr) ∈ regs ∧ declares cr id) ∧
      e = (.errorf "need to install an extension controller for %q but no appropriate ControllerRegistration found"
        [.str id])) ∨
    ((∀ id ∈ required, ∃ n cr, (n, cr) ∈ regs ∧ declares cr id) ∧
      ((∃ n, candidate required installs regs numberOfShoots seedObjectMeta n ∧
          regs.get? n = none ∧
          e = (.errorf "ControllerRegistration with name %s not found" [.str n])) ∨
        ∃ n, candidate required installs regs numberOfShoots seedObjectMeta n ∧
          ∃ cr, regs.get? n = some cr ∧
            seedSelectorMatches cr.obj.Spec.Deployment seedObjectMeta.Labels = .error e)) := by
  rw [computeWanted_unfold] at h
  cases hreq : requiredLoop (policyLoop numberOfShoots seedObjectMeta regs ([], [])).1 required
      (policyLoop numberOfShoots seedObjectMeta regs ([], [])).2 with
  | error err =>
    simp only [hreq, Except.error.injEq] at h
    subst h
    obtain ⟨id, h1, h2, h3⟩ := requiredLoop_error _ _ _ _ hreq
    refine Or.inl ⟨id, h1, ?_, h3⟩
    intro hex
    have := (kindType_isSome_iff numberOfShoots seedObjectMeta regs id).mpr hex
    simp [h2] at this
  | ok w =>
    simp only [hreq] at h
    obtain ⟨h1, _⟩ := requiredLoop_ok _ _ _ _ hreq
    refine Or.inr ⟨?_, ?_⟩
    · intro id hid
      exact (kindType_isSome_iff numberOfShoots seedObjectMeta regs id).mp (h1 id hid)
    · rcases matchingLoop_error _ _ _ _ _ h with ⟨n, h3, h4⟩ | ⟨n, h3, h4⟩
      · exact Or.inl ⟨n, (beforeFilter_mem required installs regs numberOfShoots seedObjectMeta
          w hreq n).mp h3, h4⟩
      · exact Or.inr ⟨n, (beforeFilter_mem required installs regs numberOfShoots seedObjectMeta
          w hreq n).mp h3, h4⟩

theorem GoMap.mem_set {V : Type} (m : GoMap V) (k : String) (v : V) (e : String × V)
    (h : e ∈ m.set k v) : e ∈ m ∨ e = (k, v) := by
  induction m with
  | nil =>
    simp only [GoMap.set, List.mem_singleton] at h
    exact Or.inr h
  | cons e1 rest ih =>
    obtain ⟨k1, w⟩ := e1
    by_cases h1 : k1 = k
    · simp only [GoMap.set, h1, if_true, List.mem_cons] at h
      rcases h with h | h
      · exact Or.inr h
      · exact Or.inl (List.mem_cons_of_mem _ h)
    · simp only [GoMap.set, h1, if_false, List.mem_cons] at h
      rcases h with h | h
      · exact Or.inl (h ▸ List.mem_cons_self _ _)
      · rcases ih h with h2 | h2
        · exact Or.inl (List.mem_cons_of_mem _ h2)
        · exact Or.inr h2

/-- The entry `computeControllerRegistrationMaps` stores for a registration. -/
theorem computeMaps_entries (l : List ControllerRegistration) (n : String)
    (e : controllerRegistration) (h : (n, e) ∈ computeControllerRegistrationMaps l) :
    e.deployAlways = hasPolicy e.obj ControllerDeploymentPolicyAlways ∧
      e.deployAlwaysExceptNoShoots =
        hasPolicy e.obj ControllerDeploymentPolicyAlwaysExceptNoShoots := by
  have key : ∀ (l : List ControllerRegistration) (acc : GoMap controllerRegistration),
      (∀ p ∈ acc, p.2.deployAlways = hasPolicy p.2.obj ControllerDeploymentPolicyAlways ∧
        p.2.deployAlwaysExceptNoShoots =
          hasPolicy p.2.obj ControllerDeploymentPolicyAlwaysExceptNoShoots) →
      ∀ p ∈ l.foldl
        (fun out cr => GoMap.set out cr.ObjectMeta.Name
          { obj := cr
            deployAlways := hasPolicy cr ControllerDeploymentPolicyAlways
            deployAlwaysExceptNoShoots :=
              hasPolicy cr ControllerDeploymentPolicyAlwaysExceptNoShoots }) acc,
        p.2.deployAlways = hasPolicy p.2.obj ControllerDeploymentPolicyAlways ∧
          p.2.deployAlwaysExceptNoShoots =
            hasPolicy p.2.obj ControllerDeploymentPolicyAlwaysExceptNoShoots := by
    intro l
    induction l with
    | nil => intro acc hacc p hp; exact hacc p hp
    | cons cr rest ih =>
      intro acc hacc p hp
      rw [List.foldl_cons] at hp
      refine ih _ ?_ p hp
      intro q hq
      rcases GoMap.mem_set _ _ _ _ hq with h1 | h1
      · exact hacc q h1
      · subst h1
        exact ⟨rfl, rfl⟩
  exact key l [] (by simp) (n, e) h

theorem computeMaps_WF (l : List ControllerRegistration) :
    (computeControllerRegistrationMaps l).WF := by
  have key : ∀ (l : List ControllerRegistration) (acc : GoMap controllerRegistration),
      acc.WF →
      (l.foldl
        (fun out cr => GoMap.set out cr.ObjectMeta.Name
          { obj := cr
            deployAlways := hasPolicy cr ControllerDeploymentPolicyAlways
            deployAlwaysExceptNoShoots :=
              hasPolicy cr ControllerDeploymentPolicyAlwaysExceptNoShoots }) acc).WF := by
    intro l
    induction l with
    | nil => intro acc hacc; exact hacc
    | cons cr rest ih =>
      intro acc hacc
      rw [List.foldl_cons]
      exact ih _ (GoMap.WF_set acc hacc _ _)
  exact key l [] (by simp [GoMap.WF, GoMap.keys])

theorem GoMap.WF_of_perm {V : Type} (m m1 : GoMap V) (hperm : List.Perm m m1) (h : m1.WF) :
    m.WF := by
  unfold GoMap.WF GoMap.keys at *
  exact (List.Perm.nodup_iff (hperm.map Prod.fst)).mpr h

theorem hasPolicy_iff (cr : ControllerRegistration) (p : String) :
    hasPolicy cr p = true ↔ ∃ d, cr.Spec.Deployment = some d ∧ d.Policy = some p := by
  unfold hasPolicy
  cases hd : cr.Spec.Deployment with
  | none => simp
  | some d =>
    cases hp : d.Policy with
    | none => simp [hp]
    | some q => simp [hp]

/-! ## The registration resolver -/

/-- C1: whenever `computeWantedControllerRegistrationNames` returns without error, a name `n` is
in the returned set if and only if `n` is a key of the registration map, the seed selector of its
registration matches the labels of the seed, and one of these holds: (a) the registration is
marked deploy-always and the seed has no deletion timestamp; (b) it is marked
deploy-always-except-no-shoots and `numberOfShoots > 0`; (c) it declares a resource whose Kind/Type
identity is in the required set; (d) some installation of the list references this seed, is
required, and references `n`. -/
theorem computeWanted_mem_iff (required : StringSet) (installs : List ControllerInstallation)
    (regs : GoMap controllerRegistration) (numberOfShoots : Int) (seedObjectMeta : ObjectMeta)
    (s : StringSet) (n : String) (hwf : regs.WF)
    (h : computeWantedControllerRegistrationNames required installs regs numberOfShoots
      seedObjectMeta = .ok s) :
    s.Has n = true ↔
      ∃ cr, regs.get? n = some cr ∧
        seedSelectorMatches cr.obj.Spec.Deployment seedObjectMeta.Labels = .ok true ∧
        ((cr.deployAlways = true ∧ seedObjectMeta.DeletionTimestamp = none) ∨
          (cr.deployAlwaysExceptNoShoots = true ∧ numberOfShoots > 0) ∨
          (∃ res ∈ cr.obj.Spec.Resources, required.Has (Id res.Kind res.Type_) = true) ∨
          (∃ inst ∈ installs, inst.Spec.SeedRef.Name = seedObjectMeta.Name ∧
            IsControllerInstallationRequired inst = true ∧
            inst.Spec.RegistrationRef.Name = n)) := by
  obtain ⟨_, _, h3⟩ := computeWanted_ok required installs regs numberOfShoots seedObjectMeta s h
  rw [StringSet_Has_iff, h3]
  constructor
  · rintro ⟨hc, cr, hget, hm⟩
    refine ⟨cr, hget, hm, ?_⟩
    rcases hc with ⟨cr1, h1, h2⟩ | ⟨id, hid, cr1, h1, res, hres, hres2⟩ | hc
    · have := GoMap.get?_of_mem regs hwf n cr1 h1
      rw [hget] at this
      cases this
      rcases h2 with h2 | h2
      · exact Or.inl h2
      · exact Or.inr (Or.inl h2)
    · have := GoMap.get?_of_mem regs hwf n cr1 h1
      rw [hget] at this
      cases this
      refine Or.inr (Or.inr (Or.inl ⟨res, hres, ?_⟩))
      rw [StringSet_Has_iff, hres2]
      exact hid
    · exact Or.inr (Or.inr (Or.inr hc))
  · rintro ⟨cr, hget, hm, hc⟩
    refine ⟨?_, cr, hget, hm⟩
    have hmem := GoMap.mem_of_get? regs n cr hget
    rcases hc with hc | hc | ⟨res, hres, hres2⟩ | hc
    · exact Or.inl ⟨cr, hmem, Or.inl hc⟩
    · exact Or.inl ⟨cr, hmem, Or.inr hc⟩
    · exact Or.inr (Or.inl ⟨_, (StringSet_Has_iff _ _).mp hres2, cr, hmem, res, hres, rfl⟩)
    · exact Or.inr (Or.inr hc)

theorem computeWanted_mem_iff_witness :
    (computeControllerRegistrationMaps [regAlways, regAlwaysUS, regShoots, regDNS]).WF ∧
    computeWantedControllerRegistrationNames ["DNSRecord/route53"]
      [installationOn "i1" "shoots" true]
      (computeControllerRegistrationMaps [regAlways, regAlwaysUS, regShoots, regDNS]) 0 seedEU =
      .ok ["always", "dns", "shoots"] ∧
    (StringSet.Has ["always", "dns", "shoots"] "dns" = true ↔
      ∃ cr, (computeControllerRegistrationMaps [regAlways, regAlwaysUS, regShoots, regDNS]).get?
          "dns" = some cr ∧
        seedSelectorMatches cr.obj.Spec.Deployment seedEU.Labels = .ok true ∧
        ((cr.deployAlways = true ∧ seedEU.DeletionTimestamp = none) ∨
          (cr.deployAlwaysExceptNoShoots = true ∧ (0 : Int) > 0) ∨
          (∃ res ∈ cr.obj.Spec.Resources,
            StringSet.Has ["DNSRecord/route53"] (Id res.Kind res.Type_) = true) ∨
          (∃ inst ∈ [installationOn "i1" "shoots" true], inst.Spec.SeedRef.Name = seedEU.Name ∧
            IsControllerInstallationRequired inst = true ∧
            inst.Spec.RegistrationRef.Name = "dns"))) :=
  ⟨by decide, by decide,
    computeWanted_mem_iff ["DNSRecord/route53"] [installationOn "i1" "shoots" true]
      (computeControllerRegistrationMaps [regAlways, regAlwaysUS, regShoots, regDNS]) 0 seedEU
      ["always", "dns", "shoots"] "dns" (by decide) (by decide)⟩

/-- C2: if some required identity is declared by no registration of the map,
`computeWantedControllerRegistrationNames` returns an error (and no set), and the error is the
missing-extension-controller error whose argument is a required identity that no registration
declares. -/
theorem computeWanted_missing_extension (required : StringSet)
    (installs : List ControllerInstallation) (regs : GoMap controllerRegistration)
    (numberOfShoots : Int) (seedObjectMeta : ObjectMeta)
    (hmissing : ∃ id ∈ required, ¬ ∃ n cr, (n, cr) ∈ regs ∧ declares cr id) :
    ∃ id ∈ required, (¬ ∃ n cr, (n, cr) ∈ regs ∧ declares cr id) ∧
      computeWantedControllerRegistrationNames required installs regs numberOfShoots
        seedObjectMeta =
      .error (.errorf
        "need to install an extension controller for %q but no appropriate ControllerRegistration found"
        [.str id]) := by
  obtain ⟨id0, hid0, hno⟩ := hmissing
  cases hres : computeWantedControllerRegistrationNames required installs regs numberOfShoots
      seedObjectMeta with
  | ok s =>
    obtain ⟨h1, _⟩ := computeWanted_ok required installs regs numberOfShoots seedObjectMeta s hres
    exact absurd (h1 id0 hid0) hno
  | error e =>
    rcases computeWanted_error required installs regs numberOfShoots seedObjectMeta e hres with
      ⟨id, hid, hnone, he⟩ | ⟨hall, _⟩
    · exact ⟨id, hid, hnone, by rw [he]⟩
    · exact absurd (hall id0 hid0) hno

theorem computeWanted_missing_extension_witness :
    ∃ id ∈ (["BackupEntry/aws"] : StringSet),
      (¬ ∃ n cr, (n, cr) ∈ ([] : GoMap controllerRegistration) ∧ declares cr id) ∧
      computeWantedControllerRegistrationNames ["BackupEntry/aws"] [] [] 3 seedEU =
      .error (.errorf
        "need to install an extension controller for %q but no appropriate ControllerRegistration found"
        [.str id]) :=
  computeWanted_missing_extension ["BackupEntry/aws"] [] [] 3 seedEU
    ⟨"BackupEntry/aws", by simp, by simp⟩

/-- C3, as stated, fails: on the seed `seed-eu` the only registration that declares the required
identity `BackupEntry/aws` is restricted to seeds labelled `region=us`; the resolver succeeds and
returns the empty set, which holds no registration for the required identity. -/
theorem coverage_counterexample :
    computeWantedControllerRegistrationNames ["BackupEntry/aws"] []
      (computeControllerRegistrationMaps [regBackupUS]) 0 seedEU = .ok [] ∧
    ¬ ∃ n cr, StringSet.Has [] n = true ∧
      (computeControllerRegistrationMaps [regBackupUS]).get? n = some cr ∧
      declares cr "BackupEntry/aws" := by
  refine ⟨by decide, ?_⟩
  rintro ⟨n, cr, h, _⟩
  simp [StringSet.Has] at h

/-- C3, amended: on every input on which `computeWantedControllerRegistrationNames` succeeds, for
every required identity at least one registration of the map declares that identity, and every
registration that declares it and whose seed selector matches the labels of the seed is in the
returned set. -/
theorem coverage_of_matching (required : StringSet) (installs : List ControllerInstallation)
    (regs : GoMap controllerRegistration) (numberOfShoots : Int) (seedObjectMeta : ObjectMeta)
    (s : StringSet) (id : String) (hwf : regs.WF)
    (h : computeWantedControllerRegistrationNames required installs regs numberOfShoots
      seedObjectMeta = .ok s)
    (hid : required.Has id = true) :
    (∃ n cr, regs.get? n = some cr ∧ declares cr id) ∧
      ∀ n cr, regs.get? n = some cr → declares cr id →
        seedSelectorMatches cr.obj.Spec.Deployment seedObjectMeta.Labels = .ok true →
        s.Has n = true := by
  obtain ⟨h1, _, h3⟩ := computeWanted_ok required installs regs numberOfShoots seedObjectMeta s h
  have hid2 : id ∈ required := (StringSet_Has_iff _ _).mp hid
  refine ⟨?_, ?_⟩
  · obtain ⟨n, cr, hmem, hd⟩ := h1 id hid2
    exact ⟨n, cr, GoMap.get?_of_mem regs hwf n cr hmem, hd⟩
  · intro n cr hget hd hm
    rw [StringSet_Has_iff, h3]
    exact ⟨Or.inr (Or.inl ⟨id, hid2, cr, GoMap.mem_of_get? regs n cr hget, hd⟩), cr, hget, hm⟩

theorem coverage_of_matching_witness :
    (computeControllerRegistrationMaps [regBackupUS, regShoots]).WF ∧
    computeWantedControllerRegistrationNames ["BackupEntry/aws"] []
      (computeControllerRegistrationMaps [regBackupUS, regShoots]) 0 seedEU = .ok ["shoots"] ∧
    StringSet.Has ["BackupEntry/aws"] "BackupEntry/aws" = true ∧
    ((∃ n cr, (computeControllerRegistrationMaps [regBackupUS, regShoots]).get? n = some cr ∧
        declares cr "BackupEntry/aws") ∧
      ∀ n cr, (computeControllerRegistrationMaps [regBackupUS, regShoots]).get? n = some cr →
        declares cr "BackupEntry/aws" →
        seedSelectorMatches cr.obj.Spec.Deployment seedEU.Labels = .ok true →
        StringSet.Has ["shoots"] n = true) :=
  ⟨by decide, by decide, by decide,
    coverage_of_matching ["BackupEntry/aws"] []
      (computeControllerRegistrationMaps [regBackupUS, regShoots]) 0 seedEU ["shoots"]
      "BackupEntry/aws" (by decide) (by decide) (by decide)⟩

/-- C4, as stated, fails: the seed `seed-eu` has no deletion timestamp and the registration
`always-us` has policy Always, yet the resolver succeeds with the empty set, because the seed
selector of `always-us` admits seeds labelled `region=us` only. -/
theorem always_policy_counterexample :
    seedEU.DeletionTimestamp = none ∧
    (computeControllerRegistrationMaps [regAlwaysUS]).get? "always-us" =
      some { obj := regAlwaysUS, deployAlways := true, deployAlwaysExceptNoShoots := false } ∧
    (∃ d, regAlwaysUS.Spec.Deployment = some d ∧
      d.Policy = some ControllerDeploymentPolicyAlways) ∧
    computeWantedControllerRegistrationNames [] []
      (computeControllerRegistrationMaps [regAlwaysUS]) 0 seedEU = .ok [] ∧
    StringSet.Has [] "always-us" = false := by
  refine ⟨by decide, by decide, ⟨_, rfl, rfl⟩, by decide, by decide⟩

/-- C4, amended: for every seed without a deletion timestamp, every registration of the map
built by `computeControllerRegistrationMaps` whose deployment policy is Always and whose seed
selector matches the labels of the seed is a member of the set returned by a successful
`computeWantedControllerRegistrationNames`, whatever the required identity set contains. -/
theorem always_policy_wanted (l : List ControllerRegistration)
    (regs : GoMap controllerRegistration) (required : StringSet)
    (installs : List ControllerInstallation) (numberOfShoots : Int) (seedObjectMeta : ObjectMeta)
    (s : StringSet) (n : String) (e : controllerRegistration)
    (hmap : List.Perm regs (computeControllerRegistrationMaps l))
    (hseed : seedObjectMeta.DeletionTimestamp = none)
    (hget : regs.get? n = some e)
    (hpol : ∃ d, e.obj.Spec.Deployment = some d ∧
      d.Policy = some ControllerDeploymentPolicyAlways)
    (hsel : seedSelectorMatches e.obj.Spec.Deployment seedObjectMeta.Labels = .ok true)
    (h : computeWantedControllerRegistrationNames required installs regs numberOfShoots
      seedObjectMeta = .ok s) :
    s.Has n = true := by
  obtain ⟨_, _, h3⟩ := computeWanted_ok required installs regs numberOfShoots seedObjectMeta s h
  have hmem := GoMap.mem_of_get? regs n e hget
  have hflags := computeMaps_entries l n e (hmap.mem_iff.mp hmem)
  have halways : e.deployAlways = true := by
    rw [hflags.1]
    exact (hasPolicy_iff _ _).mpr hpol
  rw [StringSet_Has_iff, h3]
  exact ⟨Or.inl ⟨e, hmem, Or.inl ⟨halways, hseed⟩⟩, e, hget, hsel⟩

theorem always_policy_wanted_witness :
    computeWantedControllerRegistrationNames ["DNSRecord/route53"] []
      (computeControllerRegistrationMaps [regAlways, regAlwaysUS, regDNS]) 0 seedEU =
      .ok ["always", "dns"] ∧
    StringSet.Has ["always", "dns"] "always" = true :=
  ⟨by decide,
    always_policy_wanted [regAlways, regAlwaysUS, regDNS]
      (computeControllerRegistrationMaps [regAlways, regAlwaysUS, regDNS]) ["DNSRecord/route53"]
      [] 0 seedEU ["always", "dns"] "always"
      { obj := regAlways, deployAlways := true, deployAlwaysExceptNoShoots := false }
      (List.Perm.refl _) (by decide) (by decide) ⟨_, rfl, rfl⟩ (by decide) (by decide)⟩

/-- C5, as stated, fails in both directions: with no shoot on the seed the registration `shoots`
(policy AlwaysExceptNoShoots) is wanted because it declares the required `BackupEntry/aws`; with
two shoots the registration `shoots-us` (same policy) is not wanted because its seed selector
excludes the seed. -/
theorem always_except_no_shoots_counterexample :
    (computeWantedControllerRegistrationNames ["BackupEntry/aws"] []
        (computeControllerRegistrationMaps [regShoots]) 0 seedEU = .ok ["shoots"] ∧
      StringSet.Has ["shoots"] "shoots" = true ∧ ¬ ((0 : Int) > 0)) ∧
    (computeWantedControllerRegistrationNames [] []
        (computeControllerRegistrationMaps [regShootsUS]) 2 seedEU = .ok [] ∧
      StringSet.Has [] "shoots-us" = false ∧ (2 : Int) > 0) := by
  refine ⟨⟨by decide, by decide, by decide⟩, by decide, by decide, by decide⟩

/-- C5, amended: for every registration of the map built by `computeControllerRegistrationMaps`
whose deployment policy is AlwaysExceptNoShoots, whose seed selector matches the labels of the
seed, which declares no required identity and which no required installation of the seed
references, the registration is in the set returned by a successful
`computeWantedControllerRegistrationNames` if and only if the shoot count is greater than zero. -/
theorem always_except_no_shoots_iff (l : List ControllerRegistration)
    (regs : GoMap controllerRegistration) (required : StringSet)
    (installs : List ControllerInstallation) (numberOfShoots : Int) (seedObjectMeta : ObjectMeta)
    (s : StringSet) (n : String) (e : controllerRegistration)
    (hmap : List.Perm regs (computeControllerRegistrationMaps l))
    (hget : regs.get? n = some e)
    (hpol : ∃ d, e.obj.Spec.Deployment = some d ∧
      d.Policy = some ControllerDeploymentPolicyAlwaysExceptNoShoots)
    (hsel : seedSelectorMatches e.obj.Spec.Deployment seedObjectMeta.Labels = .ok true)
    (hnodecl : ∀ id, required.Has id = true → ¬ declares e id)
    (hnoinst : ¬ requiredInstallationOf installs seedObjectMeta.Name n)
    (h : computeWantedControllerRegistrationNames required installs regs numberOfShoots
      seedObjectMeta = .ok s) :
    s.Has n = true ↔ numberOfShoots > 0 := by
  obtain ⟨_, _, h3⟩ := computeWanted_ok required installs regs numberOfShoots seedObjectMeta s h
  have hwf : regs.WF := GoMap.WF_of_perm regs _ hmap (computeMaps_WF l)
  have hmem := GoMap.mem_of_get? regs n e hget
  have hflags := computeMaps_entries l n e (hmap.mem_iff.mp hmem)
  have hshoots : e.deployAlwaysExceptNoShoots = true := by
    rw [hflags.2]
    exact (hasPolicy_iff _ _).mpr hpol
  have halways : e.deployAlways = false := by
    rw [hflags.1]
    obtain ⟨d, hd, hp⟩ := hpol
    simp [hasPolicy, hd, hp, ControllerDeploymentPolicyAlways,
      ControllerDeploymentPolicyAlwaysExceptNoShoots]
  rw [StringSet_Has_iff, h3]
  constructor
  · rintro ⟨hc, _⟩
    rcases hc with ⟨cr1, h1, h2⟩ | ⟨id, hid, cr1, h1, h2⟩ | hc
    · have := GoMap.get?_of_mem regs hwf n cr1 h1
      rw [hget] at this
      cases this
      rcases h2 with h2 | h2
      · rw [halways] at h2
        exact absurd h2.1 (by decide)
      · exact h2.2
    · have := GoMap.get?_of_mem regs hwf n cr1 h1
      rw [hget] at this
      cases this
      exact absurd h2 (hnodecl id ((StringSet_Has_iff _ _).mpr hid))
    · exact absurd hc hnoinst
  · intro hpos
    exact ⟨Or.inl ⟨e, hmem, Or.inr ⟨hshoots, hpos⟩⟩, e, hget, hsel⟩

theorem always_except_no_shoots_iff_witness :
    computeWantedControllerRegistrationNames ["DNSRecord/route53"] []
      (computeControllerRegistrationMaps [regShoots, regDNS]) 2 seedEU = .ok ["shoots", "dns"] ∧
    (StringSet.Has ["shoots", "dns"] "shoots" = true ↔ (2 : Int) > 0) :=
  ⟨by decide,
    always_except_no_shoots_iff [regShoots, regDNS]
      (computeControllerRegistrationMaps [regShoots, regDNS]) ["DNSRecord/route53"] [] 2 seedEU
      ["shoots", "dns"] "shoots"
      { obj := regShoots, deployAlways := false, deployAlwaysExceptNoShoots := true }
      (List.Perm.refl _) (by decide) ⟨_, rfl, rfl⟩ (by decide)
      (by
        intro id hid
        have hid2 : id = "DNSRecord/route53" := by simpa [StringSet.Has] using hid
        subst hid2
        simp [declares, regShoots, Id])
      (by simp [requiredInstallationOf]) (by decide)⟩

/-- C6: for every seed that has a deletion timestamp and every registration of the map built by
`computeControllerRegistrationMaps` with policy Always that declares no required identity and
that no required installation of the seed references, the registration is absent from the set
returned by `computeWantedControllerRegistrationNames`. -/
theorem always_policy_deleting_seed (l : List ControllerRegistration)
    (regs : GoMap controllerRegistration) (required : StringSet)
    (installs : List ControllerInstallation) (numberOfShoots : Int) (seedObjectMeta : ObjectMeta)
    (s : StringSet) (n : String) (e : controllerRegistration) (t : Time)
    (hmap : List.Perm regs (computeControllerRegistrationMaps l))
    (hseed : seedObjectMeta.DeletionTimestamp = some t)
    (hget : regs.get? n = some e)
    (hpol : ∃ d, e.obj.Spec.Deployment = some d ∧
      d.Policy = some ControllerDeploymentPolicyAlways)
    (hnodecl : ∀ id, required.Has id = true → ¬ declares e id)
    (hnoinst : ¬ requiredInstallationOf installs seedObjectMeta.Name n)
    (h : computeWantedControllerRegistrationNames required installs regs numberOfShoots
      seedObjectMeta = .ok s) :
    s.Has n = false := by
  obtain ⟨_, _, h3⟩ := computeWanted_ok required installs regs numberOfShoots seedObjectMeta s h
  have hwf : regs.WF := GoMap.WF_of_perm regs _ hmap (computeMaps_WF l)
  have hmem := GoMap.mem_of_get? regs n e hget
  have hflags := computeMaps_entries l n e (hmap.mem_iff.mp hmem)
  have hshoots : e.deployAlwaysExceptNoShoots = false := by
    rw [hflags.2]
    obtain ⟨d, hd, hp⟩ := hpol
    simp [hasPolicy, hd, hp, ControllerDeploymentPolicyAlways,
      ControllerDeploymentPolicyAlwaysExceptNoShoots]
  rw [← Bool.not_eq_true, StringSet_Has_iff, h3]
  rintro ⟨hc, _⟩
  rcases hc with ⟨cr1, h1, h2⟩ | ⟨id, hid, cr1, h1, h2⟩ | hc
  · have := GoMap.get?_of_mem regs hwf n cr1 h1
    rw [hget] at this
    cases this
    rcases h2 with h2 | h2
    · rw [hseed] at h2
      exact absurd h2.2 (by simp)
    · rw [hshoots] at h2
      exact absurd h2.1 (by decide)
  · have := GoMap.get?_of_mem regs hwf n cr1 h1
    rw [hget] at this
    cases this
    exact absurd h2 (hnodecl id ((StringSet_Has_iff _ _).mpr hid))
  · exact absurd hc hnoinst

theorem always_policy_deleting_seed_witness :
    computeWantedControllerRegistrationNames ["DNSRecord/route53"] []
      (computeControllerRegistrationMaps [regAlways, regDNS]) 2 seedEUDeleting = .ok ["dns"] ∧
    StringSet.Has ["dns"] "always" = false :=
  ⟨by decide,
    always_policy_deleting_seed [regAlways, regDNS]
      (computeControllerRegistrationMaps [regAlways, regDNS]) ["DNSRecord/route53"] [] 2
      seedEUDeleting ["dns"] "always"
      { obj := regAlways, deployAlways := true, deployAlwaysExceptNoShoots := false } 1
      (List.Perm.refl _) (by decide) (by decide) ⟨_, rfl, rfl⟩
      (by
        intro id hid
        have hid2 : id = "DNSRecord/route53" := by simpa [StringSet.Has] using hid
        subst hid2
        simp [declares, regAlways])
      (by simp [requiredInstallationOf]) (by decide)⟩

/-! ## Carryover of required installations -/

theorem registrationNameToInstallationLoop_keys (regs : GoMap controllerRegistration)
    (seedName : String) (installs : List ControllerInstallation)
    (acc m : GoMap ControllerInstallation)
    (hacc : ∀ p ∈ acc, p.2.Spec.RegistrationRef.Name = p.1)
    (h : registrationNameToInstallationLoop regs seedName installs acc = .ok m) :
    ∀ p ∈ m, p.2.Spec.RegistrationRef.Name = p.1 := by
  induction installs generalizing acc with
  | nil =>
    simp only [registrationNameToInstallationLoop, Except.ok.injEq] at h
    subst h
    exact hacc
  | cons inst rest ih =>
    by_cases hs : inst.Spec.SeedRef.Name = seedName
    · cases hget : regs.get? inst.Spec.RegistrationRef.Name with
      | none => simp [registrationNameToInstallationLoop, hs, hget] at h
      | some cr =>
        simp only [registrationNameToInstallationLoop, hs, ne_eq, not_true_eq_false, if_false,
          hget] at h
        refine ih _ ?_ h
        intro q hq
        rcases GoMap.mem_set _ _ _ _ hq with h1 | h1
        · exact hacc q h1
        · subst h1
          rfl
    · simp only [registrationNameToInstallationLoop, hs, ne_eq, not_false_eq_true, if_true] at h
      exact ih _ hacc h

theorem deleteUnneededInstallations_deleted {σ : Type} (c : Client σ) (wanted : StringSet)
    (m : GoMap ControllerInstallation) (st : σ) (issued : List ControllerInstallation)
    (inst : ControllerInstallation)
    (h : inst ∈ (deleteUnneededInstallations c wanted m st issued).deleted) :
    inst ∈ issued ∨ ∃ name, (name, inst) ∈ m ∧ wanted.Has name = false := by
  induction m generalizing st issued with
  | nil =>
    simp only [deleteUnneededInstallations] at h
    exact Or.inl h
  | cons e rest ih =>
    obtain ⟨name, installation⟩ := e
    cases hw : wanted.Has name with
    | true =>
      simp only [deleteUnneededInstallations, hw, Bool.not_true, Bool.false_eq_true,
        if_false] at h
      rcases ih _ _ h with h1 | ⟨name1, h1, h2⟩
      · exact Or.inl h1
      · exact Or.inr ⟨name1, List.mem_cons_of_mem _ h1, h2⟩
    | false =>
      simp only [deleteUnneededInstallations, hw, Bool.not_false, if_true] at h
      have hissued : inst ∈ issued ++ [installation] →
          inst ∈ issued ∨ ∃ name1, (name1, inst) ∈ (name, installation) :: rest ∧
            wanted.Has name1 = false := by
        intro h1
        rcases List.mem_append.mp h1 with h2 | h2
        · exact Or.inl h2
        · simp only [List.mem_singleton] at h2
          subst h2
          exact Or.inr ⟨name, List.mem_cons_self _ _, hw⟩
      cases hdel : IgnoreNotFound (c.Delete st installation).1 with
      | some err =>
        simp only [hdel] at h
        exact hissued h
      | none =>
        simp only [hdel] at h
        rcases ih _ _ h with h1 | ⟨name1, h1, h2⟩
        · exact hissued h1
        · exact Or.inr ⟨name1, List.mem_cons_of_mem _ h1, h2⟩

/-- C7, as stated, fails: the installation `backup-us-x7k2p` on `seed-eu` is flagged required, the
resolver and the registration-to-installation map succeed, the Wanted Set is empty (so the deploy
phase has nothing to do), and the delete phase issues a delete for that installation, because the
seed selector of its registration excludes the seed. -/
theorem carryover_counterexample :
    IsControllerInstallationRequired (installationOn "backup-us-x7k2p" "backup-us" true) = true ∧
    computeWantedControllerRegistrationNames []
      [installationOn "backup-us-x7k2p" "backup-us" true]
      (computeControllerRegistrationMaps [regBackupUS]) 0 seedEU = .ok [] ∧
    computeRegistrationNameToInstallationMap [installationOn "backup-us-x7k2p" "backup-us" true]
      (computeControllerRegistrationMaps [regBackupUS]) seedEU.Name =
      .ok [("backup-us", installationOn "backup-us-x7k2p" "backup-us" true)] ∧
    (deleteUnneededInstallations storeClient []
      [("backup-us", installationOn "backup-us-x7k2p" "backup-us" true)]
      [installationOn "backup-us-x7k2p" "backup-us" true] []).deleted =
      [installationOn "backup-us-x7k2p" "backup-us" true] := by
  refine ⟨by decide, by decide, by decide, by decide⟩

/-- C7, amended: when the resolver and `computeRegistrationNameToInstallationMap` succeed, for
every installation of the seed that is flagged required and whose registration has a seed selector
matching the labels of the seed, `deleteUnneededInstallations` applied to the computed Wanted Set
issues no delete for that installation, whatever the required identity set and whatever the
client answers. -/
theorem carryover_of_matching {σ : Type} (c : Client σ) (st : σ) (required : StringSet)
    (installs : List ControllerInstallation) (regs : GoMap controllerRegistration)
    (numberOfShoots : Int) (seedObjectMeta : ObjectMeta) (wanted : StringSet)
    (m : GoMap ControllerInstallation) (inst : ControllerInstallation)
    (cr : controllerRegistration)
    (hwanted : computeWantedControllerRegistrationNames required installs regs numberOfShoots
      seedObjectMeta = .ok wanted)
    (hmapping : computeRegistrationNameToInstallationMap installs regs seedObjectMeta.Name =
      .ok m)
    (hin : inst ∈ installs) (hseed : inst.Spec.SeedRef.Name = seedObjectMeta.Name)
    (hreq : IsControllerInstallationRequired inst = true)
    (hreg : regs.get? inst.Spec.RegistrationRef.Name = some cr)
    (hsel : seedSelectorMatches cr.obj.Spec.Deployment seedObjectMeta.Labels = .ok true) :
    inst ∉ (deleteUnneededInstallations c wanted m st []).deleted := by
  intro hdel
  obtain ⟨_, _, h3⟩ :=
    computeWanted_ok required installs regs numberOfShoots seedObjectMeta wanted hwanted
  rcases deleteUnneededInstallations_deleted c wanted m st [] inst hdel with h1 | ⟨name, h1, h2⟩
  · simp at h1
  · have hname := registrationNameToInstallationLoop_keys regs seedObjectMeta.Name installs [] m
      (by simp) hmapping (name, inst) h1
    simp only at hname
    have hw : wanted.Has name = true := by
      rw [StringSet_Has_iff, h3, ← hname]
      exact ⟨Or.inr (Or.inr ⟨inst, hin, hseed, hreq, rfl⟩), cr, hreg, hsel⟩
    rw [hw] at h2
    exact absurd h2 (by decide)

theorem carryover_of_matching_witness :
    computeWantedControllerRegistrationNames []
      [installationOn "dns-4hq9z" "dns" true, installationOn "always-us-b2m5t" "always-us" false]
      (computeControllerRegistrationMaps [regDNS, regAlwaysUS]) 0 seedEU = .ok ["dns"] ∧
    installationOn "dns-4hq9z" "dns" true ∉
      (deleteUnneededInstallations storeClient ["dns"]
        [("dns", installationOn "dns-4hq9z" "dns" true),
          ("always-us", installationOn "always-us-b2m5t" "always-us" false)]
        [installationOn "dns-4hq9z" "dns" true,
          installationOn "always-us-b2m5t" "always-us" false] []).deleted :=
  ⟨by decide,
    carryover_of_matching storeClient
      [installationOn "dns-4hq9z" "dns" true, installationOn "always-us-b2m5t" "always-us" false]
      []
      [installationOn "dns-4hq9z" "dns" true, installationOn "always-us-b2m5t" "always-us" false]
      (computeControllerRegistrationMaps [regDNS, regAlwaysUS]) 0 seedEU ["dns"]
      [("dns", installationOn "dns-4hq9z" "dns" true),
        ("always-us", installationOn "always-us-b2m5t" "always-us" false)]
      (installationOn "dns-4hq9z" "dns" true)
      { obj := regDNS, deployAlways := false, deployAlwaysExceptNoShoots := false }
      (by decide) (by decide) (by decide) (by decide) (by decide) (by decide) (by decide)⟩

/-! ## The seed-eligibility filter -/

theorem seedSelectorMatches_error (deployment : Option ControllerRegistrationDeployment)
    (seedLabels : GoMap String) (e : GoError) :
    seedSelectorMatches deployment seedLabels = .error e ↔
      ∃ err, LabelSelectorAsSelector (some (seedSelectorOf deployment)) = .error err ∧
        e = .errorf "label selector conversion failed: %v for seedSelector: %w"
          [.selector (seedSelectorOf deployment), .cause err] := by
  simp only [seedSelectorMatches]
  cases h : LabelSelectorAsSelector (some (seedSelectorOf deployment)) with
  | error err =>
    simp only [Except.error.injEq, exists_eq_left']
    exact eq_comm
  | ok sel => simp

theorem seedSelectorMatches_empty (deployment : Option ControllerRegistrationDeployment)
    (seedLabels : GoMap String) (h : seedSelectorOf deployment = {}) :
    seedSelectorMatches deployment seedLabels = .ok true := by
  unfold seedSelectorMatches
  rw [h]
  rfl

/-- C8: when `controllerRegistrationNamesWithMatchingSeedLabelSelector` succeeds, its result is
exactly the set of candidate names whose registration has a seed selector matching the labels of
the seed; a registration with no deployment section or no seed selector matches every label set;
and a candidate whose selector excludes the labels of the seed is absent from the result. -/
theorem matching_names_exact (namesInQuestion : List String)
    (regs : GoMap controllerRegistration) (seedLabels : GoMap String) (s : StringSet)
    (h : controllerRegistrationNamesWithMatchingSeedLabelSelector namesInQuestion regs
      seedLabels = .ok s) :
    (∀ n, s.Has n = true ↔ n ∈ namesInQuestion ∧ ∃ cr, regs.get? n = some cr ∧
      seedSelectorMatches cr.obj.Spec.Deployment seedLabels = .ok true) ∧
    (∀ labels, seedSelectorMatches none labels = .ok true) ∧
    (∀ d labels, d.SeedSelector = none → seedSelectorMatches (some d) labels = .ok true) ∧
    (∀ n cr, regs.get? n = some cr →
      seedSelectorMatches cr.obj.Spec.Deployment seedLabels = .ok false → s.Has n = false) := by
  obtain ⟨_, h2⟩ := matchingLoop_ok regs seedLabels namesInQuestion [] s h
  have hiff : ∀ n, s.Has n = true ↔ n ∈ namesInQuestion ∧ ∃ cr, regs.get? n = some cr ∧
      seedSelectorMatches cr.obj.Spec.Deployment seedLabels = .ok true := by
    intro n
    rw [StringSet_Has_iff, h2]
    simp
  refine ⟨hiff, ?_, ?_, ?_⟩
  · intro labels
    exact seedSelectorMatches_empty none labels rfl
  · intro d labels hd
    exact seedSelectorMatches_empty (some d) labels (by simp [seedSelectorOf, hd])
  · intro n cr hget hm
    rw [← Bool.not_eq_true, hiff]
    rintro ⟨_, cr1, h3, h4⟩
    rw [hget] at h3
    cases h3
    rw [hm] at h4
    cases h4

theorem matching_names_exact_witness :
    controllerRegistrationNamesWithMatchingSeedLabelSelector ["always", "always-us", "dns"]
      (computeControllerRegistrationMaps [regAlways, regAlwaysUS, regDNS]) seedEU.Labels =
      .ok ["always", "dns"] ∧
    (∀ n, StringSet.Has ["always", "dns"] n = true ↔ n ∈ ["always", "always-us", "dns"] ∧
      ∃ cr, (computeControllerRegistrationMaps [regAlways, regAlwaysUS, regDNS]).get? n =
          some cr ∧
        seedSelectorMatches cr.obj.Spec.Deployment seedEU.Labels = .ok true) :=
  ⟨by decide,
    (matching_names_exact ["always", "always-us", "dns"]
      (computeControllerRegistrationMaps [regAlways, regAlwaysUS, regDNS]) seedEU.Labels
      ["always", "dns"] (by decide)).1⟩

/-- C9, as stated, fails: two registrations `c1` and `c2` carry the same malformed seed selector;
the filter fails on the candidate `c1` and on the candidate `c2` with one and the same error,
whose arguments are the selector and the conversion failure. The error does not name the
registration. -/
theorem malformed_selector_counterexample :
    controllerRegistrationNamesWithMatchingSeedLabelSelector ["c1"]
      (computeControllerRegistrationMaps [regMalformed "c1", regMalformed "c2"]) seedEU.Labels =
      .error (.errorf "label selector conversion failed: %v for seedSelector: %w"
        [.selector selectorMalformed, .cause (.invalidOperator "Bogus")]) ∧
    controllerRegistrationNamesWithMatchingSeedLabelSelector ["c2"]
      (computeControllerRegistrationMaps [regMalformed "c1", regMalformed "c2"]) seedEU.Labels =
      .error (.errorf "label selector conversion failed: %v for seedSelector: %w"
        [.selector selectorMalformed, .cause (.invalidOperator "Bogus")]) := by
  refine ⟨by decide, by decide⟩

/-- C9, amended: for every candidate list containing a registration whose seed selector cannot
be converted, `controllerRegistrationNamesWithMatchingSeedLabelSelector` returns an error and no
set; the error is either the not-found error naming a candidate that is no key of the
registration map, or the conversion error of a candidate with a malformed selector, which carries
that selector and the conversion failure. -/
theorem malformed_selector_error (namesInQuestion : List String)
    (regs : GoMap controllerRegistration) (seedLabels : GoMap String) (n : String)
    (cr : controllerRegistration) (err : SelectorError)
    (hn : n ∈ namesInQuestion) (hget : regs.get? n = some cr)
    (hbad : LabelSelectorAsSelector (some (seedSelectorOf cr.obj.Spec.Deployment)) =
      .error err) :
    ∃ e, controllerRegistrationNamesWithMatchingSeedLabelSelector namesInQuestion regs
        seedLabels = .error e ∧
      ((∃ m ∈ namesInQuestion, regs.get? m = none ∧
          e = .errorf "ControllerRegistration with name %s not found" [.str m]) ∨
        ∃ m ∈ namesInQuestion, ∃ cr1 err1, regs.get? m = some cr1 ∧
          LabelSelectorAsSelector (some (seedSelectorOf cr1.obj.Spec.Deployment)) =
            .error err1 ∧
          e = .errorf "label selector conversion failed: %v for seedSelector: %w"
            [.selector (seedSelectorOf cr1.obj.Spec.Deployment), .cause err1]) := by
  cases hres : controllerRegistrationNamesWithMatchingSeedLabelSelector namesInQuestion regs
      seedLabels with
  | ok s =>
    obtain ⟨h1, _⟩ := matchingLoop_ok regs seedLabels namesInQuestion [] s hres
    obtain ⟨cr1, b, h2, h3⟩ := h1 n hn
    rw [hget] at h2
    cases h2
    have herr := (seedSelectorMatches_error cr.obj.Spec.Deployment seedLabels _).mpr
      ⟨err, hbad, rfl⟩
    rw [h3] at herr
    cases herr
  | error e =>
    refine ⟨e, rfl, ?_⟩
    rcases matchingLoop_error regs seedLabels namesInQuestion [] e hres with
      ⟨m, h1, h2, h3⟩ | ⟨m, h1, cr1, h2, h3⟩
    · exact Or.inl ⟨m, h1, h2, h3⟩
    · obtain ⟨err1, h4, h5⟩ := (seedSelectorMatches_error _ _ _).mp h3
      exact Or.inr ⟨m, h1, cr1, err1, h2, h4, h5⟩

theorem malformed_selector_error_witness :
    ∃ e, controllerRegistrationNamesWithMatchingSeedLabelSelector ["always", "c1"]
        (computeControllerRegistrationMaps [regAlways, regMalformed "c1"]) seedEU.Labels =
        .error e ∧
      ((∃ m ∈ ["always", "c1"],
          (computeControllerRegistrationMaps [regAlways, regMalformed "c1"]).get? m = none ∧
          e = .errorf "ControllerRegistration with name %s not found" [.str m]) ∨
        ∃ m ∈ ["always", "c1"], ∃ cr1 err1,
          (computeControllerRegistrationMaps [regAlways, regMalformed "c1"]).get? m = some cr1 ∧
          LabelSelectorAsSelector (some (seedSelectorOf cr1.obj.Spec.Deployment)) =
            .error err1 ∧
          e = .errorf "label selector conversion failed: %v for seedSelector: %w"
            [.selector (seedSelectorOf cr1.obj.Spec.Deployment), .cause err1]) :=
  malformed_selector_error ["always", "c1"]
    (computeControllerRegistrationMaps [regAlways, regMalformed "c1"]) seedEU.Labels "c1"
    { obj := regMalformed "c1", deployAlways := false, deployAlwaysExceptNoShoots := false }
    (.invalidOperator "Bogus") (by decide) (by decide) (by decide)

/-- C10: for every candidate list containing a name that is no key of the registration map,
`controllerRegistrationNamesWithMatchingSeedLabelSelector` returns an error and no set; and
`computeWantedControllerRegistrationNames` fails when a required installation of the seed
references a registration that is no key of the registration map. -/
theorem unknown_registration_error (namesInQuestion : List String)
    (regs : GoMap controllerRegistration) (seedLabels : GoMap String) (required : StringSet)
    (installs : List ControllerInstallation) (numberOfShoots : Int)
    (seedObjectMeta : ObjectMeta) :
    ((∃ n ∈ namesInQuestion, regs.get? n = none) →
      ∃ e, controllerRegistrationNamesWithMatchingSeedLabelSelector namesInQuestion regs
        seedLabels = .error e) ∧
    ((∃ inst ∈ installs, inst.Spec.SeedRef.Name = seedObjectMeta.Name ∧
        IsControllerInstallationRequired inst = true ∧
        regs.get? inst.Spec.RegistrationRef.Name = none) →
      ∃ e, computeWantedControllerRegistrationNames required installs regs numberOfShoots
        seedObjectMeta = .error e) := by
  refine ⟨?_, ?_⟩
  · rintro ⟨n, hn, hget⟩
    cases hres : controllerRegistrationNamesWithMatchingSeedLabelSelector namesInQuestion regs
        seedLabels with
    | ok s =>
      obtain ⟨h1, _⟩ := matchingLoop_ok regs seedLabels namesInQuestion [] s hres
      obtain ⟨cr1, b, h2, _⟩ := h1 n hn
      rw [hget] at h2
      cases h2
    | error e => exact ⟨e, rfl⟩
  · rintro ⟨inst, hin, hseed, hreq, hget⟩
    cases hres : computeWantedControllerRegistrationNames required installs regs numberOfShoots
        seedObjectMeta with
    | ok s =>
      obtain ⟨_, h2, _⟩ :=
        computeWanted_ok required installs regs numberOfShoots seedObjectMeta s hres
      obtain ⟨cr1, b, h3, _⟩ :=
        h2 inst.Spec.RegistrationRef.Name (Or.inr (Or.inr ⟨inst, hin, hseed, hreq, rfl⟩))
      rw [hget] at h3
      cases h3
    | error e => exact ⟨e, rfl⟩

theorem unknown_registration_error_witness :
    (∃ e, controllerRegistrationNamesWithMatchingSeedLabelSelector ["always", "gone"]
      (computeControllerRegistrationMaps [regAlways]) seedEU.Labels = .error e) ∧
    (∃ e, computeWantedControllerRegistrationNames [] [installationOn "gone-8wq2c" "gone" true]
      (computeControllerRegistrationMaps [regAlways]) 0 seedEU = .error e) :=
  ⟨(unknown_registration_error ["always", "gone"] (computeControllerRegistrationMaps [regAlways])
      seedEU.Labels [] [installationOn "gone-8wq2c" "gone" true] 0 seedEU).1
      ⟨"gone", by decide, by decide⟩,
    (unknown_registration_error ["always", "gone"] (computeControllerRegistrationMaps [regAlways])
      seedEU.Labels [] [installationOn "gone-8wq2c" "gone" true] 0 seedEU).2
      ⟨installationOn "gone-8wq2c" "gone" true, by decide, by decide, by decide, by decide⟩⟩

/-! ## The requirement aggregator -/

theorem seedNameDiffers_false (p : Option String) (seedName : String) :
    seedNameDiffers p seedName = false ↔ p = some seedName := by
  cases p with
  | none => simp [seedNameDiffers]
  | some name => simp [seedNameDiffers]

theorem backupBuckets_fold_ids (l : List BackupBucket) (seedName : String)
    (acc : StringSet × GoMap BackupBucket) (id : String) :
    id ∈ (l.foldl
      (fun (acc : StringSet × GoMap BackupBucket) backupBucket =>
        let buckets := acc.2.set backupBucket.ObjectMeta.Name backupBucket
        if seedNameDiffers backupBucket.Spec.SeedName seedName then (acc.1, buckets)
        else
          (acc.1.Insert [Id BackupBucketResource backupBucket.Spec.Provider.Type_], buckets))
      acc).1 ↔
      id ∈ acc.1 ∨ ∃ b ∈ l, b.Spec.SeedName = some seedName ∧
        id = Id BackupBucketResource b.Spec.Provider.Type_ := by
  induction l generalizing acc with
  | nil => simp
  | cons b rest ih =>
    rw [List.foldl_cons, ih]
    simp only [List.mem_cons, exists_eq_or_imp]
    cases hb : seedNameDiffers b.Spec.SeedName seedName with
    | true =>
      have hne : ¬ b.Spec.SeedName = some seedName := by
        intro h
        rw [(seedNameDiffers_false _ _).mpr h] at hb
        exact absurd hb (by decide)
      simp [hne]
    | false =>
      have heq := (seedNameDiffers_false _ _).mp hb
      simp only [heq, true_and, Bool.false_eq_true, if_false, StringSet_mem_Insert,
        List.mem_singleton]
      exact or_assoc

theorem backupBuckets_fold_table (l : List BackupBucket) (seedName : String)
    (acc : StringSet × GoMap BackupBucket) (n : String) :
    (l.foldl
      (fun (acc : StringSet × GoMap BackupBucket) backupBucket =>
        let buckets := acc.2.set backupBucket.ObjectMeta.Name backupBucket
        if seedNameDiffers backupBucket.Spec.SeedName seedName then (acc.1, buckets)
        else
          (acc.1.Insert [Id BackupBucketResource backupBucket.Spec.Provider.Type_], buckets))
      acc).2.get? n =
      match lastSuch (fun b => decide (b.ObjectMeta.Name = n)) l with
      | some b => some b
      | none => acc.2.get? n := by
  induction l generalizing acc with
  | nil => simp [lastSuch]
  | cons b rest ih =>
    rw [List.foldl_cons, ih]
    simp only [lastSuch]
    cases hlast : lastSuch (fun b => decide (b.ObjectMeta.Name = n)) rest with
    | some y => simp
    | none =>
      have hset : (acc.2.set b.ObjectMeta.Name b).get? n =
          if b.ObjectMeta.Name = n then some b else acc.2.get? n := GoMap.get?_set _ _ _ _
      by_cases hn : b.ObjectMeta.Name = n
      · cases hb : seedNameDiffers b.Spec.SeedName seedName <;>
          simp [hn, GoMap.get?_set]
      · cases hb : seedNameDiffers b.Spec.SeedName seedName <;> simp [hset, hn]

theorem lastSuch_mem {α : Type} (p : α → Bool) (l : List α) (x : α)
    (h : lastSuch p l = some x) : x ∈ l ∧ p x = true := by
  induction l with
  | nil => simp [lastSuch] at h
  | cons a rest ih =>
    simp only [lastSuch] at h
    cases hlast : lastSuch p rest with
    | some y =>
      simp only [hlast, Option.some.injEq] at h
      subst h
      exact ⟨List.mem_cons_of_mem _ (ih hlast).1, (ih hlast).2⟩
    | none =>
      simp only [hlast] at h
      by_cases hp : p a = true
      · simp only [hp, if_true, Option.some.injEq] at h
        subst h
        exact ⟨List.mem_cons_self _ _, hp⟩
      · simp [hp] at h

theorem lastSuch_none {α : Type} (p : α → Bool) (l : List α) :
    lastSuch p l = none ↔ ∀ x ∈ l, p x = false := by
  induction l with
  | nil => simp [lastSuch]
  | cons a rest ih =>
    simp only [lastSuch, List.mem_cons, forall_eq_or_imp]
    cases hlast : lastSuch p rest with
    | some y =>
      have := (lastSuch_mem p rest y hlast)
      simp only [false_iff, not_and, not_forall, reduceCtorEq]
      intro _
      exact ⟨y, this.1, by simp [this.2]⟩
    | none =>
      have hall := ih.mp hlast
      cases hp : p a
      · simpa using hall
      · simp

/-- C11: for every bucket list and seed name, an identity is in the set returned by
`computeKindTypesForBackupBuckets` if and only if it is the BackupBucket identity of the provider
type of some bucket of the list whose assigned seed is the target seed; buckets with no assigned
seed or another seed contribute nothing. -/
theorem backupBuckets_identities (backupBucketList : List BackupBucket) (seedName id : String) :
    (computeKindTypesForBackupBuckets backupBucketList seedName).1.Has id = true ↔
      ∃ b ∈ backupBucketList, b.Spec.SeedName = some seedName ∧
        id = Id BackupBucketResource b.Spec.Provider.Type_ := by
  rw [StringSet_Has_iff]
  unfold computeKindTypesForBackupBuckets
  rw [backupBuckets_fold_ids]
  simp [StringSet.NewString]

theorem lastSuch_of_unique (l : List BackupBucket) (b : BackupBucket)
    (hnames : (l.map (fun x => x.ObjectMeta.Name)).Nodup) (hb : b ∈ l) :
    lastSuch (fun x => decide (x.ObjectMeta.Name = b.ObjectMeta.Name)) l = some b := by
  induction l with
  | nil => simp at hb
  | cons a rest ih =>
    simp only [List.map_cons, List.nodup_cons, List.mem_map, not_exists, not_and] at hnames
    simp only [lastSuch]
    rcases List.mem_cons.mp hb with h1 | h1
    · subst h1
      have hnone : lastSuch (fun x => decide (x.ObjectMeta.Name = b.ObjectMeta.Name)) rest =
          none := by
        rw [lastSuch_none]
        intro x hx
        simpa using hnames.1 x hx
      simp [hnone]
    · rw [ih hnames.2 h1]

theorem backupEntries_fold_ids (l : List BackupEntry) (buckets : GoMap BackupBucket)
    (seedName : String) (acc : StringSet) (id : String) :
    id ∈ l.foldl
      (fun (wantedKindTypeCombinations : StringSet) backupEntry =>
        if seedNameDiffers backupEntry.Spec.SeedName seedName then wantedKindTypeCombinations
        else
          match buckets.get? backupEntry.Spec.BucketName with
          | none => wantedKindTypeCombinations
          | some bucket =>
            wantedKindTypeCombinations.Insert
              [Id BackupEntryResource bucket.Spec.Provider.Type_])
      acc ↔
      id ∈ acc ∨ ∃ e ∈ l, e.Spec.SeedName = some seedName ∧
        ∃ b, buckets.get? e.Spec.BucketName = some b ∧
          id = Id BackupEntryResource b.Spec.Provider.Type_ := by
  induction l generalizing acc with
  | nil => simp
  | cons e rest ih =>
    rw [List.foldl_cons, ih]
    simp only [List.mem_cons, exists_eq_or_imp]
    cases he : seedNameDiffers e.Spec.SeedName seedName with
    | true =>
      have hne : ¬ e.Spec.SeedName = some seedName := by
        intro h
        rw [(seedNameDiffers_false _ _).mpr h] at he
        exact absurd he (by decide)
      simp [hne]
    | false =>
      have heq := (seedNameDiffers_false _ _).mp he
      cases hget : buckets.get? e.Spec.BucketName with
      | none => simp [heq]
      | some bucket =>
        simp only [heq, true_and, Bool.false_eq_true, if_false, StringSet_mem_Insert,
          List.mem_singleton, Option.some.injEq, exists_eq_left']
        exact or_assoc

/-- C12: for every bucket list, entry list and seed name, an identity is in the set
`computeKindTypesForBackupEntries` returns for the lookup table of
`computeKindTypesForBackupBuckets` if and only if it is the BackupEntry identity of the provider
type of the bucket that some entry assigned to the target seed names, where the bucket is looked
up among all buckets of the list whatever seed they are assigned to (the last one of that name).
For a bucket list with unique names, as in a list read from the store, this is the set of the
BackupEntry identities of the buckets of the list named by an entry assigned to the target seed.
An entry whose bucket is absent contributes nothing and stops nothing. -/
theorem backupEntries_identities (backupBucketList : List BackupBucket)
    (backupEntryList : List BackupEntry) (seedName id : String) :
    ((computeKindTypesForBackupEntries backupEntryList
      (computeKindTypesForBackupBuckets backupBucketList seedName).2 seedName).Has id = true ↔
      ∃ e ∈ backupEntryList, e.Spec.SeedName = some seedName ∧
        ∃ b, lastSuch (fun x => decide (x.ObjectMeta.Name = e.Spec.BucketName))
            backupBucketList = some b ∧
          id = Id BackupEntryResource b.Spec.Provider.Type_) ∧
    ((backupBucketList.map (fun b => b.ObjectMeta.Name)).Nodup →
      ((computeKindTypesForBackupEntries backupEntryList
        (computeKindTypesForBackupBuckets backupBucketList seedName).2 seedName).Has id = true ↔
        ∃ e ∈ backupEntryList, e.Spec.SeedName = some seedName ∧
          ∃ b ∈ backupBucketList, b.ObjectMeta.Name = e.Spec.BucketName ∧
            id = Id BackupEntryResource b.Spec.Provider.Type_)) := by
  have htable : ∀ n, (computeKindTypesForBackupBuckets backupBucketList seedName).2.get? n =
      lastSuch (fun x => decide (x.ObjectMeta.Name = n)) backupBucketList := by
    intro n
    unfold computeKindTypesForBackupBuckets
    rw [backupBuckets_fold_table]
    cases lastSuch (fun x => decide (x.ObjectMeta.Name = n)) backupBucketList <;>
      simp [GoMap.get?]
  have hgeneral : (computeKindTypesForBackupEntries backupEntryList
      (computeKindTypesForBackupBuckets backupBucketList seedName).2 seedName).Has id = true ↔
      ∃ e ∈ backupEntryList, e.Spec.SeedName = some seedName ∧
        ∃ b, lastSuch (fun x => decide (x.ObjectMeta.Name = e.Spec.BucketName))
            backupBucketList = some b ∧
          id = Id BackupEntryResource b.Spec.Provider.Type_ := by
    rw [StringSet_Has_iff]
    unfold computeKindTypesForBackupEntries
    rw [backupEntries_fold_ids]
    simp only [StringSet.NewString, List.not_mem_nil, false_or, htable]
  refine ⟨hgeneral, ?_⟩
  intro hnames
  rw [hgeneral]
  constructor
  · rintro ⟨e, he, hs, b, hlast, hid⟩
    have := lastSuch_mem _ _ _ hlast
    exact ⟨e, he, hs, b, this.1, by simpa using this.2, hid⟩
  · rintro ⟨e, he, hs, b, hb, hn, hid⟩
    refine ⟨e, he, hs, b, ?_, hid⟩
    rw [← hn]
    exact lastSuch_of_unique backupBucketList b hnames hb

theorem backupEntries_identities_witness :
    computeKindTypesForBackupEntries
      [entryOf "e1" "b1" (some "seed-eu"), entryOf "e2" "missing" (some "seed-eu"),
        entryOf "e3" "b2" (some "seed-eu"), entryOf "e4" "b3" (some "seed-us")]
      (computeKindTypesForBackupBuckets
        [bucketOf "b1" "aws" (some "seed-us"), bucketOf "b2" "gcp" none,
          bucketOf "b3" "azure" (some "seed-eu")] "seed-eu").2 "seed-eu" =
      ["BackupEntry/aws", "BackupEntry/gcp"] ∧
    (StringSet.Has
      (computeKindTypesForBackupEntries
        [entryOf "e1" "b1" (some "seed-eu"), entryOf "e2" "missing" (some "seed-eu"),
          entryOf "e3" "b2" (some "seed-eu"), entryOf "e4" "b3" (some "seed-us")]
        (computeKindTypesForBackupBuckets
          [bucketOf "b1" "aws" (some "seed-us"), bucketOf "b2" "gcp" none,
            bucketOf "b3" "azure" (some "seed-eu")] "seed-eu").2 "seed-eu")
      "BackupEntry/gcp" = true ↔
      ∃ e ∈ [entryOf "e1" "b1" (some "seed-eu"), entryOf "e2" "missing" (some "seed-eu"),
          entryOf "e3" "b2" (some "seed-eu"), entryOf "e4" "b3" (some "seed-us")],
        e.Spec.SeedName = some "seed-eu" ∧
        ∃ b ∈ [bucketOf "b1" "aws" (some "seed-us"), bucketOf "b2" "gcp" none,
            bucketOf "b3" "azure" (some "seed-eu")],
          b.ObjectMeta.Name = e.Spec.BucketName ∧
          "BackupEntry/gcp" = Id BackupEntryResource b.Spec.Provider.Type_) :=
  ⟨by decide,
    (backupEntries_identities
      [bucketOf "b1" "aws" (some "seed-us"), bucketOf "b2" "gcp" none,
        bucketOf "b3" "azure" (some "seed-eu")]
      [entryOf "e1" "b1" (some "seed-eu"), entryOf "e2" "missing" (some "seed-eu"),
        entryOf "e3" "b2" (some "seed-eu"), entryOf "e4" "b3" (some "seed-us")]
      "seed-eu" "BackupEntry/gcp").2 (by decide)⟩

/-- C13, as stated, fails: with the feature gate `UseDNSRecords` disabled, the seed `seed-eu`
(not marked for deletion, DNS provider `route53`) yields the identity `DNSProvider/route53`, not
the DNS-record identity `DNSRecord/route53`. -/
theorem seed_identity_counterexample :
    seedObjDNS.ObjectMeta.DeletionTimestamp = none ∧
    seedObjDNS.Spec.DNS.Provider = some { Type_ := "route53" } ∧
    computeKindTypesForSeed false seedObjDNS = ["DNSProvider/route53"] ∧
    computeKindTypesForSeed false seedObjDNS ≠ [Id DNSRecordResource "route53"] := by
  refine ⟨by decide, by decide, by decide, by decide⟩

/-- C13, amended: for every seed, `computeKindTypesForSeed` returns the empty set when the seed
is marked for deletion or declares no DNS provider; otherwise it returns exactly one identity for
the DNS provider type of the seed, of the DNSRecord kind when the feature gate `UseDNSRecords` is
enabled and of the DNSProvider kind when it is disabled. -/
theorem seed_identity (useDNSRecords : Bool) (seed : Seed) :
    ((seed.ObjectMeta.DeletionTimestamp ≠ none ∨ seed.Spec.DNS.Provider = none) →
      computeKindTypesForSeed useDNSRecords seed = []) ∧
    (∀ provider, seed.ObjectMeta.DeletionTimestamp = none →
      seed.Spec.DNS.Provider = some provider →
      computeKindTypesForSeed useDNSRecords seed =
        [Id (if useDNSRecords then DNSRecordResource else DNSProviderKind) provider.Type_]) := by
  refine ⟨?_, ?_⟩
  · rintro (h | h)
    · simp [computeKindTypesForSeed, h, StringSet.NewString]
    · by_cases hd : seed.ObjectMeta.DeletionTimestamp = none
      · simp [computeKindTypesForSeed, hd, h, StringSet.NewString]
      · simp [computeKindTypesForSeed, hd, StringSet.NewString]
  · intro provider hd hp
    cases useDNSRecords <;>
      simp [computeKindTypesForSeed, hd, hp, StringSet.NewString, StringSet.Insert,
        StringSet.Insert1]

theorem seed_identity_witness :
    computeKindTypesForSeed true { ObjectMeta := seedEUDeleting, Spec := seedObjDNS.Spec } = [] ∧
    computeKindTypesForSeed true seedObjDNS = ["DNSRecord/route53"] :=
  ⟨(seed_identity true { ObjectMeta := seedEUDeleting, Spec := seedObjDNS.Spec }).1
      (Or.inl (by decide)),
    (seed_identity true seedObjDNS).2 { Type_ := "route53" } (by decide) (by decide)⟩

theorem union_fold_mem (f : Shoot → StringSet) (l : List Shoot) (acc : StringSet)
    (id : String) :
    id ∈ l.foldl (fun (w : StringSet) shoot => w.Union (f shoot)) acc ↔
      id ∈ acc ∨ ∃ shoot ∈ l, id ∈ f shoot := by
  induction l generalizing acc with
  | nil => simp
  | cons a rest ih =>
    rw [List.foldl_cons, ih]
    simp only [StringSet.Union, StringSet_mem_Insert, List.mem_cons, exists_eq_or_imp]
    exact or_assoc

theorem shootsOfSeed_mem (shootList : List Shoot) (seed : Seed) (shoot : Shoot) :
    shoot ∈ shootsOfSeed shootList seed ↔
      shoot ∈ shootList ∧ (shoot.Spec.SeedName = some seed.ObjectMeta.Name ∨
        shoot.Status.SeedName = some seed.ObjectMeta.Name) := by
  unfold shootsOfSeed
  rw [List.mem_filter]
  have h : (!(seedNameDiffers shoot.Spec.SeedName seed.ObjectMeta.Name &&
      seedNameDiffers shoot.Status.SeedName seed.ObjectMeta.Name)) = true ↔
      (shoot.Spec.SeedName = some seed.ObjectMeta.Name ∨
        shoot.Status.SeedName = some seed.ObjectMeta.Name) := by
    rw [← seedNameDiffers_false, ← seedNameDiffers_false]
    cases seedNameDiffers shoot.Spec.SeedName seed.ObjectMeta.Name <;>
      cases seedNameDiffers shoot.Status.SeedName seed.ObjectMeta.Name <;> simp
  rw [h]

/-- What `computeKindTypesForShoots` returns, for every order of arrival of the results. -/
theorem shoots_result_mem (fns : ShootFunctions) (schedule : List Shoot → List Shoot)
    (shootList : List Shoot) (seed : Seed)
    (controllerRegistrationList : List ControllerRegistration) (internalDomain : Option Domain)
    (defaultDomains : List Domain) (useDNSRecords : Bool) (id : String)
    (hschedule : ∀ l, List.Perm (schedule l) l) :
    id ∈ computeKindTypesForShoots fns schedule shootList seed controllerRegistrationList
        internalDomain defaultDomains useDNSRecords ↔
      ∃ shoot ∈ shootList,
        (shoot.Spec.SeedName = some seed.ObjectMeta.Name ∨
          shoot.Status.SeedName = some seed.ObjectMeta.Name) ∧
        id ∈ shootResult fns seed controllerRegistrationList internalDomain defaultDomains
          useDNSRecords shoot := by
  unfold computeKindTypesForShoots
  rw [union_fold_mem]
  simp only [StringSet.NewString, List.not_mem_nil, false_or]
  constructor
  · rintro ⟨shoot, h1, h2⟩
    have h3 := (shootsOfSeed_mem shootList seed shoot).mp ((hschedule _).mem_iff.mp h1)
    exact ⟨shoot, h3.1, h3.2, h2⟩
  · rintro ⟨shoot, h1, h2, h3⟩
    exact ⟨shoot, (hschedule _).mem_iff.mpr ((shootsOfSeed_mem shootList seed shoot).mpr
      ⟨h1, h2⟩), h3⟩

/-- C14: for every shoot list and seed, and for every order in which the per-shoot results
arrive and are merged, an identity is in the set returned by `computeKindTypesForShoots` if and
only if the per-shoot requirement function returns it for some shoot of the list whose
spec-assigned seed or status-assigned seed is the target seed.  Shoots assigned to neither
contribute nothing, and the order of the merge does not appear in the result. -/
theorem shoots_identities (fns : ShootFunctions) (schedule : List Shoot → List Shoot)
    (shootList : List Shoot) (seed : Seed)
    (controllerRegistrationList : List ControllerRegistration) (internalDomain : Option Domain)
    (defaultDomains : List Domain) (useDNSRecords : Bool) (id : String)
    (hschedule : ∀ l, List.Perm (schedule l) l) :
    (computeKindTypesForShoots fns schedule shootList seed controllerRegistrationList
        internalDomain defaultDomains useDNSRecords).Has id = true ↔
      ∃ shoot ∈ shootList,
        (shoot.Spec.SeedName = some seed.ObjectMeta.Name ∨
          shoot.Status.SeedName = some seed.ObjectMeta.Name) ∧
        (fns.ComputeRequiredExtensions shoot seed controllerRegistrationList internalDomain
          (fns.ConstructExternalDomain shoot defaultDomains).1 useDNSRecords).Has id = true := by
  rw [StringSet_Has_iff, shoots_result_mem fns schedule shootList seed
    controllerRegistrationList internalDomain defaultDomains useDNSRecords id hschedule]
  simp only [shootResult, StringSet_Has_iff]

theorem shoots_identities_witness :
    computeKindTypesForShoots exampleShootFunctions List.reverse
      [shootOf "s1" "aws" (some "seed-eu") none, shootOf "s2" "gcp" (some "seed-us") none,
        shootOf "s3" "azure" (some "seed-us") (some "seed-eu")]
      seedObjEU [] none [] false =
      ["Infrastructure/azure", "DNSRecord/route53", "Infrastructure/aws"] ∧
    (StringSet.Has
      (computeKindTypesForShoots exampleShootFunctions List.reverse
        [shootOf "s1" "aws" (some "seed-eu") none, shootOf "s2" "gcp" (some "seed-us") none,
          shootOf "s3" "azure" (some "seed-us") (some "seed-eu")]
        seedObjEU [] none [] false) "Infrastructure/gcp" = true ↔
      ∃ shoot ∈ [shootOf "s1" "aws" (some "seed-eu") none,
          shootOf "s2" "gcp" (some "seed-us") none,
          shootOf "s3" "azure" (some "seed-us") (some "seed-eu")],
        (shoot.Spec.SeedName = some seedObjEU.ObjectMeta.Name ∨
          shoot.Status.SeedName = some seedObjEU.ObjectMeta.Name) ∧
        (exampleShootFunctions.ComputeRequiredExtensions shoot seedObjEU [] none
          (exampleShootFunctions.ConstructExternalDomain shoot []).1 false).Has
            "Infrastructure/gcp" = true) :=
  ⟨by decide,
    shoots_identities exampleShootFunctions List.reverse
      [shootOf "s1" "aws" (some "seed-eu") none, shootOf "s2" "gcp" (some "seed-us") none,
        shootOf "s3" "azure" (some "seed-us") (some "seed-eu")]
      seedObjEU [] none [] false "Infrastructure/gcp" (fun l => List.reverse_perm l)⟩

/-- C15, as stated, fails: the external domain of the shoot `broken` on `seed-eu` cannot be
determined (`ConstructExternalDomain` returns an error), and the shoot still contributes the
identity `Infrastructure/gcp` to the result of `computeKindTypesForShoots`. -/
theorem unresolved_domain_counterexample :
    (shootOf "broken" "gcp" (some "seed-eu") none).Spec.SeedName =
      some seedObjEU.ObjectMeta.Name ∧
    (exampleShootFunctions.ConstructExternalDomain
      (shootOf "broken" "gcp" (some "seed-eu") none) []).2 =
      some (.errorf "cannot determine external domain of shoot %s" [.str "broken"]) ∧
    computeKindTypesForShoots exampleShootFunctions id
      [shootOf "broken" "gcp" (some "seed-eu") none] seedObjEU [] none [] false =
      ["Infrastructure/gcp"] := by
  refine ⟨by decide, by decide, by decide⟩

/-- C15, amended: for every shoot assigned to the target seed whose external domain cannot be
determined (`ConstructExternalDomain` returns an error), the required extensions of that shoot
are still computed, from the domain returned alongside the error, and every identity so computed
is in the result of `computeKindTypesForShoots`; the requirements of the other shoots of the seed
are still returned. -/
theorem unresolved_domain_still_computed (fns : ShootFunctions)
    (schedule : List Shoot → List Shoot) (shootList : List Shoot) (seed : Seed)
    (controllerRegistrationList : List ControllerRegistration) (internalDomain : Option Domain)
    (defaultDomains : List Domain) (useDNSRecords : Bool) (shoot : Shoot) (err : GoError)
    (hschedule : ∀ l, List.Perm (schedule l) l)
    (hshoot : shoot ∈ shootList)
    (hseed : shoot.Spec.SeedName = some seed.ObjectMeta.Name ∨
      shoot.Status.SeedName = some seed.ObjectMeta.Name)
    (_herr : (fns.ConstructExternalDomain shoot defaultDomains).2 = some err) :
    (∀ id, (fns.ComputeRequiredExtensions shoot seed controllerRegistrationList internalDomain
        (fns.ConstructExternalDomain shoot defaultDomains).1 useDNSRecords).Has id = true →
      (computeKindTypesForShoots fns schedule shootList seed controllerRegistrationList
        internalDomain defaultDomains useDNSRecords).Has id = true) ∧
    (∀ other ∈ shootList,
      (other.Spec.SeedName = some seed.ObjectMeta.Name ∨
        other.Status.SeedName = some seed.ObjectMeta.Name) →
      ∀ id, (shootResult fns seed controllerRegistrationList internalDomain defaultDomains
          useDNSRecords other).Has id = true →
        (computeKindTypesForShoots fns schedule shootList seed controllerRegistrationList
          internalDomain defaultDomains useDNSRecords).Has id = true) := by
  have hmem := fun id => shoots_result_mem fns schedule shootList seed
    controllerRegistrationList internalDomain defaultDomains useDNSRecords id hschedule
  refine ⟨?_, ?_⟩
  · intro id hid
    rw [StringSet_Has_iff, hmem]
    exact ⟨shoot, hshoot, hseed, (StringSet_Has_iff _ _).mp hid⟩
  · intro other hother hs id hid
    rw [StringSet_Has_iff, hmem]
    exact ⟨other, hother, hs, (StringSet_Has_iff _ _).mp hid⟩

theorem unresolved_domain_still_computed_witness :
    computeKindTypesForShoots exampleShootFunctions id
      [shootOf "broken" "gcp" (some "seed-eu") none, shootOf "s1" "aws" (some "seed-eu") none]
      seedObjEU [] none [] false =
      ["Infrastructure/gcp", "Infrastructure/aws", "DNSRecord/route53"] ∧
    (∀ i, (exampleShootFunctions.ComputeRequiredExtensions
        (shootOf "broken" "gcp" (some "seed-eu") none) seedObjEU [] none
        (exampleShootFunctions.ConstructExternalDomain
          (shootOf "broken" "gcp" (some "seed-eu") none) []).1 false).Has i = true →
      (computeKindTypesForShoots exampleShootFunctions id
        [shootOf "broken" "gcp" (some "seed-eu") none, shootOf "s1" "aws" (some "seed-eu") none]
        seedObjEU [] none [] false).Has i = true) :=
  ⟨by decide,
    (unresolved_domain_still_computed exampleShootFunctions id
      [shootOf "broken" "gcp" (some "seed-eu") none, shootOf "s1" "aws" (some "seed-eu") none]
      seedObjEU [] none [] false (shootOf "broken" "gcp" (some "seed-eu") none)
      (.errorf "cannot determine external domain of shoot %s" [.str "broken"])
      (fun l => List.Perm.refl l) (by decide) (Or.inl (by decide)) (by decide)).1⟩

/-! ## The delete phase -/

theorem deleteUnneededInstallations_run {σ : Type} (c : Client σ) (wanted : StringSet)
    (m : GoMap ControllerInstallation) (st : σ) (issued : List ControllerInstallation)
    (hok : ∀ st inst, IgnoreNotFound (c.Delete st inst).1 = none) :
    (deleteUnneededInstallations c wanted m st issued).err = none ∧
      (deleteUnneededInstallations c wanted m st issued).deleted =
        issued ++ (m.filter (fun p => !wanted.Has p.1)).map Prod.snd := by
  induction m generalizing st issued with
  | nil => simp [deleteUnneededInstallations]
  | cons e rest ih =>
    obtain ⟨name, installation⟩ := e
    cases hw : wanted.Has name with
    | true =>
      simp only [deleteUnneededInstallations, hw, Bool.not_true, Bool.false_eq_true, if_false]
      rw [List.filter_cons_of_neg (by simp [hw])]
      exact ih st issued
    | false =>
      simp only [deleteUnneededInstallations, hw, Bool.not_false, if_true, hok]
      rw [List.filter_cons_of_pos (by simp [hw])]
      have := ih (c.Delete st installation).2 (issued ++ [installation])
      simpa using this

/-- C16: for every Wanted Set and registration-name-to-installation map, when each delete call
returns success or not-found, `deleteUnneededInstallations` returns no error and issues a delete
for exactly the installations of the map whose registration name is not in the Wanted Set, each
once, in the order of the iteration; no delete is issued for an entry whose registration name is
wanted. -/
theorem delete_phase_exact {σ : Type} (c : Client σ) (st : σ) (wanted : StringSet)
    (m : GoMap ControllerInstallation)
    (hok : ∀ st inst, (c.Delete st inst).1 = none ∨
      ∃ message, (c.Delete st inst).1 = some (.api StatusReasonNotFound message)) :
    (deleteUnneededInstallations c wanted m st []).err = none ∧
    (deleteUnneededInstallations c wanted m st []).deleted =
      (m.filter (fun p => !wanted.Has p.1)).map Prod.snd ∧
    (∀ inst ∈ (deleteUnneededInstallations c wanted m st []).deleted,
      ∃ name, (name, inst) ∈ m ∧ wanted.Has name = false) := by
  have hok2 : ∀ st inst, IgnoreNotFound (c.Delete st inst).1 = none := by
    intro st inst
    rcases hok st inst with h | ⟨message, h⟩
    · rw [h]
      rfl
    · rw [h]
      simp [IgnoreNotFound]
  obtain ⟨h1, h2⟩ := deleteUnneededInstallations_run c wanted m st [] hok2
  refine ⟨h1, by simpa using h2, ?_⟩
  intro inst hinst
  rcases deleteUnneededInstallations_deleted c wanted m st [] inst hinst with h | h
  · simp at h
  · exact h

theorem delete_phase_exact_witness :
    (deleteUnneededInstallations storeClient ["A"]
      [("A", installationOn "A-x2k9d" "A" false), ("B", installationOn "B-7hj3q" "B" false)]
      [installationOn "A-x2k9d" "A" false, installationOn "B-7hj3q" "B" false] []).err = none ∧
    (deleteUnneededInstallations storeClient ["A"]
      [("A", installationOn "A-x2k9d" "A" false), ("B", installationOn "B-7hj3q" "B" false)]
      [installationOn "A-x2k9d" "A" false, installationOn "B-7hj3q" "B" false] []).deleted =
      [installationOn "B-7hj3q" "B" false] :=
  ⟨(delete_phase_exact storeClient
      [installationOn "A-x2k9d" "A" false, installationOn "B-7hj3q" "B" false] ["A"]
      [("A", installationOn "A-x2k9d" "A" false), ("B", installationOn "B-7hj3q" "B" false)]
      (by
        intro st inst
        by_cases h : (st.any (fun i => i.ObjectMeta.Name == inst.ObjectMeta.Name)) = true
        · exact Or.inl (by simp only [storeClient, h, if_true])
        · exact Or.inr ⟨"controllerinstallation not found", by
            simp only [storeClient, h, if_false, Bool.false_eq_true]⟩)).1,
    by decide⟩

/-! ## The deploy phase -/

theorem deployLoop_missing {σ M : Type} (c : Client σ) (h : HashFunctions M) (seed : Seed)
    (regs : GoMap controllerRegistration) (m : GoMap ControllerInstallation)
    (a : String) (rest : List String) (st : σ) (calls : List IssuedCall)
    (hget : regs.get? a = none) :
    deployLoop c h seed regs m (a :: rest) st calls =
      { outcome := .panicked, state := st, calls := calls } := by
  simp only [deployLoop, hget]

theorem deployLoop_deleting {σ M : Type} (c : Client σ) (h : HashFunctions M) (seed : Seed)
    (regs : GoMap controllerRegistration) (m : GoMap ControllerInstallation)
    (a : String) (rest : List String) (st : σ) (calls : List IssuedCall)
    (cr : controllerRegistration) (hget : regs.get? a = some cr)
    (hdel : cr.obj.ObjectMeta.DeletionTimestamp ≠ none) :
    deployLoop c h seed regs m (a :: rest) st calls = deployLoop c h seed regs m rest st calls := by
  simp only [deployLoop, hget, hdel, ne_eq, not_false_eq_true, if_true]

theorem deployLoop_fetch_error {σ M : Type} (c : Client σ) (h : HashFunctions M) (seed : Seed)
    (regs : GoMap controllerRegistration) (m : GoMap ControllerInstallation)
    (a : String) (rest : List String) (st st₁ : σ) (calls : List IssuedCall)
    (cr : controllerRegistration) (err : GoError) (issued : List ClientCall)
    (hget : regs.get? a = some cr) (hdel : cr.obj.ObjectMeta.DeletionTimestamp = none)
    (hf : fetchControllerDeployment c st cr.obj = (.error err, st₁, issued)) :
    deployLoop c h seed regs m (a :: rest) st calls =
      { outcome := .returned (some (.wrapf
          "cannot deploy ControllerInstallation because the referenced ControllerDeployment cannot be retrieved: %w"
          [] err))
        state := st₁
        calls := calls ++ issued.map (IssuedCall.mk a) } := by
  simp only [deployLoop, hget, hdel, ne_eq, not_true_eq_false, if_false, hf]

theorem deployLoop_pending {σ M : Type} (c : Client σ) (h : HashFunctions M) (seed : Seed)
    (regs : GoMap controllerRegistration) (m : GoMap ControllerInstallation)
    (a : String) (rest : List String) (st st₁ : σ) (calls : List IssuedCall)
    (cr : controllerRegistration) (d : Option ControllerDeployment) (issued : List ClientCall)
    (hget : regs.get? a = some cr) (hdel : cr.obj.ObjectMeta.DeletionTimestamp = none)
    (hf : fetchControllerDeployment c st cr.obj = (.ok d, st₁, issued))
    (hpending : ((m.get? a).bind (fun i => i.ObjectMeta.DeletionTimestamp)).isSome = true) :
    deployLoop c h seed regs m (a :: rest) st calls =
      { outcome := .returned (some (.errorf
          "cannot deploy new ControllerInstallation for %q because the deletion of the old ControllerInstallation is still pending"
          [.str a]))
        state := st₁
        calls := calls ++ issued.map (IssuedCall.mk a) } := by
  simp only [deployLoop, hget, hdel, ne_eq, not_true_eq_false, if_false, hf, hpending, if_true]

theorem deployLoop_deploy_error {σ M : Type} (c : Client σ) (h : HashFunctions M) (seed : Seed)
    (regs : GoMap controllerRegistration) (m : GoMap ControllerInstallation)
    (a : String) (rest : List String) (st st₁ st₂ : σ) (calls : List IssuedCall)
    (cr : controllerRegistration) (d : Option ControllerDeployment)
    (issued issued₂ : List ClientCall) (err : GoError)
    (hget : regs.get? a = some cr) (hdel : cr.obj.ObjectMeta.DeletionTimestamp = none)
    (hf : fetchControllerDeployment c st cr.obj = (.ok d, st₁, issued))
    (hpending : ((m.get? a).bind (fun i => i.ObjectMeta.DeletionTimestamp)).isSome = false)
    (hd : deployNeededInstallation c h st₁ seed d cr.obj (m.get? a) = (some err, st₂, issued₂)) :
    deployLoop c h seed regs m (a :: rest) st calls =
      { outcome := .returned (some err)
        state := st₂
        calls := calls ++ issued.map (IssuedCall.mk a) ++ issued₂.map (IssuedCall.mk a) } := by
  simp only [deployLoop, hget, hdel, ne_eq, not_true_eq_false, if_false, hf, hpending,
    Bool.false_eq_true, hd]

theorem deployLoop_deploy_ok {σ M : Type} (c : Client σ) (h : HashFunctions M) (seed : Seed)
    (regs : GoMap controllerRegistration) (m : GoMap ControllerInstallation)
    (a : String) (rest : List String) (st st₁ st₂ : σ) (calls : List IssuedCall)
    (cr : controllerRegistration) (d : Option ControllerDeployment)
    (issued issued₂ : List ClientCall)
    (hget : regs.get? a = some cr) (hdel : cr.obj.ObjectMeta.DeletionTimestamp = none)
    (hf : fetchControllerDeployment c st cr.obj = (.ok d, st₁, issued))
    (hpending : ((m.get? a).bind (fun i => i.ObjectMeta.DeletionTimestamp)).isSome = false)
    (hd : deployNeededInstallation c h st₁ seed d cr.obj (m.get? a) = (none, st₂, issued₂)) :
    deployLoop c h seed regs m (a :: rest) st calls =
      deployLoop c h seed regs m rest st₂
        (calls ++ issued.map (IssuedCall.mk a) ++ issued₂.map (IssuedCall.mk a)) := by
  simp only [deployLoop, hget, hdel, ne_eq, not_true_eq_false, if_false, hf, hpending,
    Bool.false_eq_true, hd]

theorem fetchControllerDeployment_calls {σ : Type} (c : Client σ) (st : σ)
    (cr : ControllerRegistration) :
    ∀ call ∈ (fetchControllerDeployment c st cr).2.2, ∃ d, call = .getControllerDeployment d := by
  unfold fetchControllerDeployment
  cases hdep : cr.Spec.Deployment with
  | none => simp
  | some deployment =>
    cases hrefs : deployment.DeploymentRefs with
    | nil => simp [hrefs]
    | cons ref refs =>
      rcases hg : c.GetControllerDeployment st ref.Name with ⟨r, st1⟩
      cases r <;> simp [hrefs, hg]

/-- An invariant of the issued calls: a property that holds for the calls of every fetch and of
every `deployNeededInstallation` the loop can run holds for every call of the run. -/
theorem deployLoop_calls_invariant {σ M : Type} (c : Client σ) (h : HashFunctions M) (seed : Seed)
    (regs : GoMap controllerRegistration) (m : GoMap ControllerInstallation)
    (Q : IssuedCall → Prop)
    (hfetch : ∀ a cr st, regs.get? a = some cr → cr.obj.ObjectMeta.DeletionTimestamp = none →
      ∀ call ∈ (fetchControllerDeployment c st cr.obj).2.2, Q ⟨a, call⟩)
    (hdeploy : ∀ a cr st d, regs.get? a = some cr → cr.obj.ObjectMeta.DeletionTimestamp = none →
      ((m.get? a).bind (fun i => i.ObjectMeta.DeletionTimestamp)).isSome = false →
      ∀ call ∈ (deployNeededInstallation c h st seed d cr.obj (m.get? a)).2.2, Q ⟨a, call⟩)
    (wanted : List String) (st : σ) (calls : List IssuedCall) (hcalls : ∀ ic ∈ calls, Q ic) :
    ∀ ic ∈ (deployLoop c h seed regs m wanted st calls).calls, Q ic := by
  induction wanted generalizing st calls with
  | nil => simpa [deployLoop] using hcalls
  | cons a rest ih =>
    cases hget : regs.get? a with
    | none =>
      rw [deployLoop_missing c h seed regs m a rest st calls hget]
      exact hcalls
    | some cr =>
      by_cases hdel : cr.obj.ObjectMeta.DeletionTimestamp = none
      · rcases hf : fetchControllerDeployment c st cr.obj with ⟨fr, st₁, issued⟩
        have hissued : ∀ ic ∈ calls ++ issued.map (IssuedCall.mk a), Q ic := by
          intro ic hic
          rcases List.mem_append.mp hic with h1 | h1
          · exact hcalls ic h1
          · obtain ⟨call, hcall, rfl⟩ := List.mem_map.mp h1
            have := hfetch a cr st hget hdel call
            rw [hf] at this
            exact this hcall
        cases fr with
        | error err =>
          rw [deployLoop_fetch_error c h seed regs m a rest st st₁ calls cr err issued hget hdel
            hf]
          exact hissued
        | ok d =>
          cases hp : ((m.get? a).bind (fun i => i.ObjectMeta.DeletionTimestamp)).isSome with
          | true =>
            rw [deployLoop_pending c h seed regs m a rest st st₁ calls cr d issued hget hdel hf
              hp]
            exact hissued
          | false =>
            rcases hd : deployNeededInstallation c h st₁ seed d cr.obj (m.get? a) with
              ⟨derr, st₂, issued₂⟩
            have hissued₂ : ∀ ic ∈ calls ++ issued.map (IssuedCall.mk a) ++
                issued₂.map (IssuedCall.mk a), Q ic := by
              intro ic hic
              rcases List.mem_append.mp hic with h1 | h1
              · exact hissued ic h1
              · obtain ⟨call, hcall, rfl⟩ := List.mem_map.mp h1
                have := hdeploy a cr st₁ d hget hdel hp call
                rw [hd] at this
                exact this hcall
            cases derr with
            | some err =>
              rw [deployLoop_deploy_error c h seed regs m a rest st st₁ st₂ calls cr d issued
                issued₂ err hget hdel hf hp hd]
              exact hissued₂
            | none =>
              rw [deployLoop_deploy_ok c h seed regs m a rest st st₁ st₂ calls cr d issued
                issued₂ hget hdel hf hp hd]
              exact ih st₂ _ hissued₂
      · rw [deployLoop_deleting c h seed regs m a rest st calls cr hget hdel]
        exact ih st calls hcalls

/-- The loop over a concatenation: the second part runs from where the first part ended, if
that part returned without error. -/
theorem deployLoop_append {σ M : Type} (c : Client σ) (h : HashFunctions M) (seed : Seed)
    (regs : GoMap controllerRegistration) (m : GoMap ControllerInstallation)
    (pre rest : List String) (st : σ) (calls : List IssuedCall) :
    deployLoop c h seed regs m (pre ++ rest) st calls =
      match (deployLoop c h seed regs m pre st calls).outcome with
      | .returned none =>
        deployLoop c h seed regs m rest (deployLoop c h seed regs m pre st calls).state
          (deployLoop c h seed regs m pre st calls).calls
      | _ => deployLoop c h seed regs m pre st calls := by
  induction pre generalizing st calls with
  | nil => simp [deployLoop]
  | cons a pre ih =>
    rw [List.cons_append]
    cases hget : regs.get? a with
    | none =>
      rw [deployLoop_missing c h seed regs m a _ st calls hget,
        deployLoop_missing c h seed regs m a _ st calls hget]
    | some cr =>
      by_cases hdel : cr.obj.ObjectMeta.DeletionTimestamp = none
      · rcases hf : fetchControllerDeployment c st cr.obj with ⟨fr, st₁, issued⟩
        cases fr with
        | error err =>
          rw [deployLoop_fetch_error c h seed regs m a _ st st₁ calls cr err issued hget hdel hf,
            deployLoop_fetch_error c h seed regs m a _ st st₁ calls cr err issued hget hdel hf]
        | ok d =>
          cases hp : ((m.get? a).bind (fun i => i.ObjectMeta.DeletionTimestamp)).isSome with
          | true =>
            rw [deployLoop_pending c h seed regs m a _ st st₁ calls cr d issued hget hdel hf hp,
              deployLoop_pending c h seed regs m a _ st st₁ calls cr d issued hget hdel hf hp]
          | false =>
            rcases hd : deployNeededInstallation c h st₁ seed d cr.obj (m.get? a) with
              ⟨derr, st₂, issued₂⟩
            cases derr with
            | some err =>
              rw [deployLoop_deploy_error c h seed regs m a _ st st₁ st₂ calls cr d issued
                  issued₂ err hget hdel hf hp hd,
                deployLoop_deploy_error c h seed regs m a _ st st₁ st₂ calls cr d issued
                  issued₂ err hget hdel hf hp hd]
            | none =>
              rw [deployLoop_deploy_ok c h seed regs m a _ st st₁ st₂ calls cr d issued
                  issued₂ hget hdel hf hp hd,
                deployLoop_deploy_ok c h seed regs m a _ st st₁ st₂ calls cr d issued
                  issued₂ hget hdel hf hp hd]
              exact ih st₂ _
      · rw [deployLoop_deleting c h seed regs m a _ st calls cr hget hdel,
          deployLoop_deleting c h seed regs m a _ st calls cr hget hdel]
        exact ih st calls

/-- C17, as stated, fails: the registrations `always` and `dns` are both wanted, neither is
marked for deletion, and the existing installation of each has a deletion timestamp; the deploy
phase stops at `always`, so the error it returns names `always`, not `dns`. -/
theorem deletion_race_counterexample :
    (computeControllerRegistrationMaps [regAlways, regDNS]).get? "dns" =
      some { obj := regDNS, deployAlways := false, deployAlwaysExceptNoShoots := false } ∧
    regDNS.ObjectMeta.DeletionTimestamp = none ∧
    GoMap.get? [("always", deletingInstallationOn "always-k3v8n" "always"),
      ("dns", deletingInstallationOn "dns-4hq9z" "dns")] "dns" =
      some (deletingInstallationOn "dns-4hq9z" "dns") ∧
    (deletingInstallationOn "dns-4hq9z" "dns").ObjectMeta.DeletionTimestamp = some 7 ∧
    (deployNeededInstallations storeClient exampleHash
      [deletingInstallationOn "always-k3v8n" "always", deletingInstallationOn "dns-4hq9z" "dns"]
      seedObjEU ["always", "dns"] (computeControllerRegistrationMaps [regAlways, regDNS])
      [("always", deletingInstallationOn "always-k3v8n" "always"),
        ("dns", deletingInstallationOn "dns-4hq9z" "dns")]).outcome =
      .returned (some (.errorf
        "cannot deploy new ControllerInstallation for %q because the deletion of the old ControllerInstallation is still pending"
        [.str "always"])) := by
  refine ⟨by decide, by decide, by decide, by decide, by decide⟩

/-- C17, amended: for every wanted registration that is not itself marked for deletion and whose
existing installation on the seed has a deletion timestamp, `deployNeededInstallations` issues
neither a create nor a patch in the iteration of that registration (at most the fetch of its
ControllerDeployment) and does not return success; when the wanted registrations processed
before it end without error and its ControllerDeployment, if it references one, can be fetched,
the returned error is the deletion-still-pending error naming the registration. -/
theorem deletion_race_blocked {σ M : Type} (c : Client σ) (h : HashFunctions M) (st : σ)
    (seed : Seed) (regs : GoMap controllerRegistration) (m : GoMap ControllerInstallation)
    (pre post : List String) (name : String) (cr : controllerRegistration)
    (inst : ControllerInstallation) (t : Time)
    (hreg : regs.get? name = some cr)
    (hnotdel : cr.obj.ObjectMeta.DeletionTimestamp = none)
    (hinst : m.get? name = some inst)
    (hdel : inst.ObjectMeta.DeletionTimestamp = some t) :
    (∀ ic ∈ (deployNeededInstallations c h st seed (pre ++ name :: post) regs m).calls,
      ic.registrationName = name → ∃ d, ic.call = .getControllerDeployment d) ∧
    (deployNeededInstallations c h st seed (pre ++ name :: post) regs m).outcome ≠
      .returned none ∧
    ((deployNeededInstallations c h st seed pre regs m).outcome = .returned none →
      (∃ d, (fetchControllerDeployment c
        (deployNeededInstallations c h st seed pre regs m).state cr.obj).1 = .ok d) →
      (deployNeededInstallations c h st seed (pre ++ name :: post) regs m).outcome =
        .returned (some (.errorf
          "cannot deploy new ControllerInstallation for %q because the deletion of the old ControllerInstallation is still pending"
          [.str name]))) := by
  have hpending : ((m.get? name).bind (fun i => i.ObjectMeta.DeletionTimestamp)).isSome =
      true := by
    simp [hinst, hdel]
  have hstep : ∀ (st₀ : σ) (calls₀ : List IssuedCall),
      (deployLoop c h seed regs m (name :: post) st₀ calls₀).outcome ≠ .returned none ∧
      ((∃ d, (fetchControllerDeployment c st₀ cr.obj).1 = .ok d) →
        (deployLoop c h seed regs m (name :: post) st₀ calls₀).outcome =
          .returned (some (.errorf
            "cannot deploy new ControllerInstallation for %q because the deletion of the old ControllerInstallation is still pending"
            [.str name]))) := by
    intro st₀ calls₀
    rcases hf : fetchControllerDeployment c st₀ cr.obj with ⟨fr, st₁, issued⟩
    cases fr with
    | error err =>
      rw [deployLoop_fetch_error c h seed regs m name post st₀ st₁ calls₀ cr err issued hreg
        hnotdel hf]
      exact ⟨by simp, by simp⟩
    | ok d =>
      rw [deployLoop_pending c h seed regs m name post st₀ st₁ calls₀ cr d issued hreg hnotdel
        hf hpending]
      exact ⟨by simp, fun _ => rfl⟩
  unfold deployNeededInstallations StringSet.UnsortedList
  refine ⟨?_, ?_, ?_⟩
  · apply deployLoop_calls_invariant c h seed regs m
      (fun ic => ic.registrationName = name → ∃ d, ic.call = .getControllerDeployment d)
    · intro a cr₁ st₀ _ _ call hcall _
      exact fetchControllerDeployment_calls c st₀ cr₁.obj call hcall
    · intro a cr₁ st₀ d _ _ hp call _ ha
      simp only at ha
      rw [ha, hpending] at hp
      exact absurd hp (by decide)
    · simp
  · rw [deployLoop_append]
    cases hout : (deployLoop c h seed regs m pre st []).outcome with
    | panicked => simp [hout]
    | returned err =>
      cases err with
      | some e => simp [hout]
      | none => exact (hstep _ _).1
  · intro hpre hfetch
    rw [deployLoop_append, hpre]
    exact (hstep _ _).2 hfetch

theorem deletion_race_blocked_witness :
    (deployNeededInstallations storeClient exampleHash
      [deletingInstallationOn "dns-4hq9z" "dns"] seedObjEU ["always", "dns"]
      (computeControllerRegistrationMaps [regAlways, regDNS])
      [("dns", deletingInstallationOn "dns-4hq9z" "dns")]).calls.map
        (fun ic => ic.registrationName) = ["always"] ∧
    (deployNeededInstallations storeClient exampleHash
      [deletingInstallationOn "dns-4hq9z" "dns"] seedObjEU ["always", "dns"]
      (computeControllerRegistrationMaps [regAlways, regDNS])
      [("dns", deletingInstallationOn "dns-4hq9z" "dns")]).outcome =
      .returned (some (.errorf
        "cannot deploy new ControllerInstallation for %q because the deletion of the old ControllerInstallation is still pending"
        [.str "dns"])) :=
  ⟨by decide,
    (deletion_race_blocked storeClient exampleHash [deletingInstallationOn "dns-4hq9z" "dns"]
      seedObjEU (computeControllerRegistrationMaps [regAlways, regDNS])
      [("dns", deletingInstallationOn "dns-4hq9z" "dns")] ["always"] [] "dns"
      { obj := regDNS, deployAlways := false, deployAlwaysExceptNoShoots := false }
      (deletingInstallationOn "dns-4hq9z" "dns") 7
      (by decide) (by decide) (by decide) (by decide)).2.2 (by decide) ⟨none, by decide⟩⟩

/-- C18: for every wanted registration that is itself marked for deletion,
`deployNeededInstallations` runs exactly as it does without that registration in the wanted
names (same outcome, same state of the store, same calls), and no call at all is issued in the
iteration of that registration: no create, no patch, no fetch of its deployment, and no error
on its account. -/
theorem deleting_registration_skipped {σ M : Type} (c : Client σ) (h : HashFunctions M) (st : σ)
    (seed : Seed) (regs : GoMap controllerRegistration) (m : GoMap ControllerInstallation)
    (pre post : List String) (name : String) (cr : controllerRegistration) (t : Time)
    (hreg : regs.get? name = some cr)
    (hdel : cr.obj.ObjectMeta.DeletionTimestamp = some t) :
    deployNeededInstallations c h st seed (pre ++ name :: post) regs m =
      deployNeededInstallations c h st seed (pre ++ post) regs m ∧
    ∀ ic ∈ (deployNeededInstallations c h st seed (pre ++ name :: post) regs m).calls,
      ic.registrationName ≠ name := by
  have hne : cr.obj.ObjectMeta.DeletionTimestamp ≠ none := by simp [hdel]
  unfold deployNeededInstallations StringSet.UnsortedList
  refine ⟨?_, ?_⟩
  · rw [deployLoop_append, deployLoop_append c h seed regs m pre post]
    cases hout : (deployLoop c h seed regs m pre st []).outcome with
    | panicked => rfl
    | returned err =>
      cases err with
      | some e => rfl
      | none =>
        simp only
        exact deployLoop_deleting c h seed regs m name post _ _ cr hreg hne
  · apply deployLoop_calls_invariant c h seed regs m (fun ic => ic.registrationName ≠ name)
    · intro a cr₁ st₀ hget hnone call _ ha
      simp only at ha
      rw [ha, hreg] at hget
      cases hget
      exact hne hnone
    · intro a cr₁ st₀ d hget hnone _ call _ ha
      simp only at ha
      rw [ha, hreg] at hget
      cases hget
      exact hne hnone
    · simp

theorem deleting_registration_skipped_witness :
    (deployNeededInstallations storeClient exampleHash [] seedObjEU ["always", "old", "dns"]
      (computeControllerRegistrationMaps [regAlways, regOld, regDNS]) []).calls.map
        (fun ic => ic.registrationName) = ["always", "dns"] ∧
    (deployNeededInstallations storeClient exampleHash [] seedObjEU ["always", "old", "dns"]
        (computeControllerRegistrationMaps [regAlways, regOld, regDNS]) [] =
      deployNeededInstallations storeClient exampleHash [] seedObjEU ["always", "dns"]
        (computeControllerRegistrationMaps [regAlways, regOld, regDNS]) [] ∧
    ∀ ic ∈ (deployNeededInstallations storeClient exampleHash [] seedObjEU
        ["always", "old", "dns"]
        (computeControllerRegistrationMaps [regAlways, regOld, regDNS]) []).calls,
      ic.registrationName ≠ "old") :=
  ⟨by decide,
    deleting_registration_skipped storeClient exampleHash [] seedObjEU
      (computeControllerRegistrationMaps [regAlways, regOld, regDNS]) [] ["always"] ["dns"] "old"
      { obj := regOld, deployAlways := false, deployAlwaysExceptNoShoots := false } 5
      (by decide) (by decide)⟩

/-! ## The registration-to-installation map -/

theorem registrationNameToInstallationLoop_last (regs : GoMap controllerRegistration)
    (seedName : String) (installs : List ControllerInstallation)
    (acc : GoMap ControllerInstallation)
    (hall : ∀ inst ∈ installs, inst.Spec.SeedRef.Name = seedName →
      (regs.get? inst.Spec.RegistrationRef.Name).isSome = true) :
    ∃ m, registrationNameToInstallationLoop regs seedName installs acc = .ok m ∧
      ∀ n, m.get? n =
        match lastSuch (fun i => decide (i.Spec.SeedRef.Name = seedName ∧
            i.Spec.RegistrationRef.Name = n)) installs with
        | some i => some i
        | none => acc.get? n := by
  induction installs generalizing acc with
  | nil => exact ⟨acc, rfl, by simp [lastSuch]⟩
  | cons inst rest ih =>
    have hrest : ∀ i ∈ rest, i.Spec.SeedRef.Name = seedName →
        (regs.get? i.Spec.RegistrationRef.Name).isSome = true :=
      fun i hi => hall i (List.mem_cons_of_mem _ hi)
    by_cases hs : inst.Spec.SeedRef.Name = seedName
    · have hsome := hall inst (List.mem_cons_self _ _) hs
      cases hget : regs.get? inst.Spec.RegistrationRef.Name with
      | none => simp [hget] at hsome
      | some cr =>
        obtain ⟨m, hm, hlook⟩ := ih (acc.set inst.Spec.RegistrationRef.Name inst) hrest
        refine ⟨m, ?_, ?_⟩
        · simp only [registrationNameToInstallationLoop, hs, ne_eq, not_true_eq_false, if_false,
            hget]
          exact hm
        · intro n
          rw [hlook n]
          simp only [lastSuch]
          cases hlast : lastSuch (fun i => decide (i.Spec.SeedRef.Name = seedName ∧
              i.Spec.RegistrationRef.Name = n)) rest with
          | some y => simp
          | none =>
            rw [GoMap.get?_set]
            by_cases hn : inst.Spec.RegistrationRef.Name = n
            · simp [hs, hn]
            · simp [hs, hn]
    · obtain ⟨m, hm, hlook⟩ := ih acc hrest
      refine ⟨m, ?_, ?_⟩
      · simp only [registrationNameToInstallationLoop, hs, ne_eq, not_false_eq_true, if_true]
        exact hm
      · intro n
        rw [hlook n]
        simp only [lastSuch]
        cases hlast : lastSuch (fun i => decide (i.Spec.SeedRef.Name = seedName ∧
            i.Spec.RegistrationRef.Name = n)) rest with
        | some y => simp
        | none => simp [hs]

/-- C20, as stated, fails: the list holds two installations that reference the seed `seed-eu`
and the registration `dns`, and `computeRegistrationNameToInstallationMap` returns a map, in
which `dns` is mapped to the second of them. -/
theorem duplicate_installation_counterexample :
    computeRegistrationNameToInstallationMap
      [installationOn "dns-4hq9z" "dns" false, installationOn "dns-p6c2w" "dns" false]
      (computeControllerRegistrationMaps [regDNS]) "seed-eu" =
      .ok [("dns", installationOn "dns-p6c2w" "dns" false)] := by
  decide

/-- C20, amended: an installation list with two or more installations that reference the same
seed and the same registration does not make `computeRegistrationNameToInstallationMap` fail:
whenever every installation of the target seed references a key of the registration map, it
returns a map, and the map holds for each registration name the last installation of the list
that references the target seed and that registration. -/
theorem duplicate_installation_last_wins (installs : List ControllerInstallation)
    (regs : GoMap controllerRegistration) (seedName : String)
    (hall : ∀ inst ∈ installs, inst.Spec.SeedRef.Name = seedName →
      (regs.get? inst.Spec.RegistrationRef.Name).isSome = true) :
    ∃ m, computeRegistrationNameToInstallationMap installs regs seedName = .ok m ∧
      ∀ n, m.get? n =
        lastSuch (fun i => decide (i.Spec.SeedRef.Name = seedName ∧
          i.Spec.RegistrationRef.Name = n)) installs := by
  obtain ⟨m, hm, hlook⟩ := registrationNameToInstallationLoop_last regs seedName installs [] hall
  refine ⟨m, hm, ?_⟩
  intro n
  rw [hlook n]
  cases lastSuch (fun i => decide (i.Spec.SeedRef.Name = seedName ∧
      i.Spec.RegistrationRef.Name = n)) installs <;> simp [GoMap.get?]

theorem duplicate_installation_last_wins_witness :
    ∃ m, computeRegistrationNameToInstallationMap
        [installationOn "dns-4hq9z" "dns" false, installationOn "always-k3v8n" "always" true,
          installationOn "dns-p6c2w" "dns" false]
        (computeControllerRegistrationMaps [regDNS, regAlways]) "seed-eu" = .ok m ∧
      ∀ n, m.get? n =
        lastSuch (fun i => decide (i.Spec.SeedRef.Name = "seed-eu" ∧
          i.Spec.RegistrationRef.Name = n))
          [installationOn "dns-4hq9z" "dns" false, installationOn "always-k3v8n" "always" true,
            installationOn "dns-p6c2w" "dns" false] :=
  duplicate_installation_last_wins
    [installationOn "dns-4hq9z" "dns" false, installationOn "always-k3v8n" "always" true,
      installationOn "dns-p6c2w" "dns" false]
    (computeControllerRegistrationMaps [regDNS, regAlways]) "seed-eu" (by decide)

theorem duplicate_lookup (installs : List ControllerInstallation)
    (regs : GoMap controllerRegistration) (seedName : String)
    (hall : ∀ inst ∈ installs, inst.Spec.SeedRef.Name = seedName →
      (regs.get? inst.Spec.RegistrationRef.Name).isSome = true) :
    ∃ m, computeRegistrationNameToInstallationMap installs regs seedName = .ok m ∧
      ∀ n, m.get? n =
        lastSuch (fun i => decide (i.Spec.SeedRef.Name = seedName ∧
          i.Spec.RegistrationRef.Name = n)) installs := by
  obtain ⟨m, hm, hlook⟩ := registrationNameToInstallationLoop_last regs seedName installs [] hall
  refine ⟨m, hm, ?_⟩
  intro n
  rw [hlook n]
  cases lastSuch (fun i => decide (i.Spec.SeedRef.Name = seedName ∧
      i.Spec.RegistrationRef.Name = n)) installs <;> simp [GoMap.get?]

theorem registrationNameToInstallationLoop_ok (regs : GoMap controllerRegistration)
    (seedName : String) (installs : List ControllerInstallation)
    (acc m : GoMap ControllerInstallation)
    (h : registrationNameToInstallationLoop regs seedName installs acc = .ok m) :
    ∀ inst ∈ installs, inst.Spec.SeedRef.Name = seedName →
      (regs.get? inst.Spec.RegistrationRef.Name).isSome = true := by
  induction installs generalizing acc with
  | nil => simp
  | cons i rest ih =>
    intro inst hinst hs
    by_cases hi : i.Spec.SeedRef.Name = seedName
    · cases hget : regs.get? i.Spec.RegistrationRef.Name with
      | none => simp [registrationNameToInstallationLoop, hi, hget] at h
      | some cr =>
        simp only [registrationNameToInstallationLoop, hi, ne_eq, not_true_eq_false, if_false,
          hget] at h
        rcases List.mem_cons.mp hinst with h1 | h1
        · subst h1
          simp [hget]
        · exact ih _ h inst h1 hs
    · simp only [registrationNameToInstallationLoop, hi, ne_eq, not_false_eq_true, if_true] at h
      rcases List.mem_cons.mp hinst with h1 | h1
      · subst h1
        exact absurd hs hi
      · exact ih _ h inst h1 hs

/-- C21: `computeRegistrationNameToInstallationMap` fails if and only if some installation that
references the target seed references a registration name that is no key of the registration
map.  On success the keys of the returned map are exactly the registration names referenced by
the installations of the target seed, and every key is mapped to an installation of the list that
references the target seed and that registration; installations of other seeds neither appear
nor cause an error. -/
theorem registration_map_exact (installs : List ControllerInstallation)
    (regs : GoMap controllerRegistration) (seedName : String) :
    ((∃ e, computeRegistrationNameToInstallationMap installs regs seedName = .error e) ↔
      ∃ inst ∈ installs, inst.Spec.SeedRef.Name = seedName ∧
        regs.get? inst.Spec.RegistrationRef.Name = none) ∧
    (∀ m, computeRegistrationNameToInstallationMap installs regs seedName = .ok m →
      (∀ n, n ∈ m.keys ↔ ∃ inst ∈ installs, inst.Spec.SeedRef.Name = seedName ∧
        inst.Spec.RegistrationRef.Name = n) ∧
      (∀ n inst, m.get? n = some inst → inst ∈ installs ∧
        inst.Spec.SeedRef.Name = seedName ∧ inst.Spec.RegistrationRef.Name = n)) := by
  have hsucc : ∀ m, computeRegistrationNameToInstallationMap installs regs seedName = .ok m →
      ∀ n, m.get? n = lastSuch (fun i => decide (i.Spec.SeedRef.Name = seedName ∧
        i.Spec.RegistrationRef.Name = n)) installs := by
    intro m hm
    have hall := registrationNameToInstallationLoop_ok regs seedName installs [] m hm
    obtain ⟨m1, hm1, hlook⟩ := duplicate_lookup installs regs seedName hall
    rw [hm] at hm1
    cases hm1
    exact hlook
  refine ⟨?_, ?_⟩
  · constructor
    · rintro ⟨e, he⟩
      by_contra hno
      have hall : ∀ inst ∈ installs, inst.Spec.SeedRef.Name = seedName →
          (regs.get? inst.Spec.RegistrationRef.Name).isSome = true := by
        intro inst hinst hs
        cases hget : regs.get? inst.Spec.RegistrationRef.Name with
        | none => exact absurd ⟨inst, hinst, hs, hget⟩ hno
        | some cr => rfl
      obtain ⟨m1, hm1, _⟩ := duplicate_lookup installs regs seedName hall
      rw [he] at hm1
      cases hm1
    · rintro ⟨inst, hinst, hs, hget⟩
      cases hres : computeRegistrationNameToInstallationMap installs regs seedName with
      | error e => exact ⟨e, rfl⟩
      | ok m =>
        have := registrationNameToInstallationLoop_ok regs seedName installs [] m hres inst
          hinst hs
        simp [hget] at this
  · intro m hm
    have hlook := hsucc m hm
    refine ⟨?_, ?_⟩
    · intro n
      have hkey : n ∈ m.keys ↔ m.get? n ≠ none := by
        rw [ne_eq, GoMap.get?_eq_none_iff, not_not]
      rw [hkey, hlook n, ne_eq, lastSuch_none]
      simp only [not_forall, Bool.not_eq_false, decide_eq_true_eq, exists_prop]
    · intro n inst hget
      rw [hlook n] at hget
      have := lastSuch_mem _ _ _ hget
      exact ⟨this.1, by simpa using this.2⟩

theorem registration_map_exact_witness :
    computeRegistrationNameToInstallationMap
      [installationOn "dns-4hq9z" "dns" false,
        { installationOn "gone-8wq2c" "gone" true with
          Spec := { SeedRef := { Name := "seed-us" }, RegistrationRef := { Name := "gone" } } },
        installationOn "always-k3v8n" "always" true]
      (computeControllerRegistrationMaps [regDNS, regAlways]) "seed-eu" =
      .ok [("dns", installationOn "dns-4hq9z" "dns" false),
        ("always", installationOn "always-k3v8n" "always" true)] ∧
    (∀ n, n ∈ GoMap.keys [("dns", installationOn "dns-4hq9z" "dns" false),
        ("always", installationOn "always-k3v8n" "always" true)] ↔
      ∃ inst ∈ [installationOn "dns-4hq9z" "dns" false,
          { installationOn "gone-8wq2c" "gone" true with
            Spec := { SeedRef := { Name := "seed-us" }, RegistrationRef := { Name := "gone" } } },
          installationOn "always-k3v8n" "always" true],
        inst.Spec.SeedRef.Name = "seed-eu" ∧ inst.Spec.RegistrationRef.Name = n) :=
  ⟨by decide,
    ((registration_map_exact
      [installationOn "dns-4hq9z" "dns" false,
        { installationOn "gone-8wq2c" "gone" true with
          Spec := { SeedRef := { Name := "seed-us" }, RegistrationRef := { Name := "gone" } } },
        installationOn "always-k3v8n" "always" true]
      (computeControllerRegistrationMaps [regDNS, regAlways]) "seed-eu").2 _ (by decide)).1⟩

/-! ## Helpers of other packages -/

/-- C25, as stated, fails: a subject of kind `User` whose name is the wildcard does not match,
whatever the user info. -/
theorem wildcard_subject_counterexample :
    ({ Kind := "User", Name := WildcardAll } : Subject).Name = WildcardAll ∧
    UserGroupMatches { Kind := "User", Name := WildcardAll }
      { Username := "alice", Groups := ["system:masters"] } = false := by
  refine ⟨rfl, by decide⟩

/-- C25, amended: `UserGroupMatches` returns false for every subject whose kind is not Group;
it returns true for every Group subject whose name is the wildcard, whatever the user info; and
for a non-wildcard Group subject it returns true exactly when the name of the subject is one of
the groups of the user. -/
theorem userGroupMatches_spec (subject : Subject) (userInfo : UserInfo) :
    (subject.Kind ≠ rbacv1GroupKind → UserGroupMatches subject userInfo = false) ∧
    (subject.Kind = rbacv1GroupKind → subject.Name = WildcardAll →
      UserGroupMatches subject userInfo = true) ∧
    (subject.Kind = rbacv1GroupKind → subject.Name ≠ WildcardAll →
      (UserGroupMatches subject userInfo = true ↔ subject.Name ∈ userInfo.Groups)) := by
  refine ⟨?_, ?_, ?_⟩
  · intro hk
    simp [UserGroupMatches, hk]
  · intro hk hn
    simp [UserGroupMatches, hk, hn]
  · intro hk hn
    simp only [UserGroupMatches, hk, ne_eq, not_true_eq_false, if_false, hn, List.any_eq_true,
      decide_eq_true_eq]
    constructor
    · rintro ⟨g, hg, rfl⟩
      exact hg
    · intro hg
      exact ⟨subject.Name, hg, rfl⟩

theorem userGroupMatches_spec_witness :
    UserGroupMatches { Kind := "Group", Name := "*" } { Username := "alice" } = true ∧
    (UserGroupMatches { Kind := "Group", Name := "admins" }
        { Username := "alice", Groups := ["devs", "admins"] } = true ↔
      "admins" ∈ ["devs", "admins"]) :=
  ⟨(userGroupMatches_spec { Kind := "Group", Name := "*" } { Username := "alice" }).2.1
      (by decide) (by decide),
    (userGroupMatches_spec { Kind := "Group", Name := "admins" }
      { Username := "alice", Groups := ["devs", "admins"] }).2.2 (by decide) (by decide)⟩

/-- C26 fails on the code: after the default lists, the additional list `custom.io`, `other.io`
(kind Deployment) gets a set of its own, and the additional list `custom.io`, `apps` then puts
`apps/Deployment` into that set instead of merging the two sets.  The set of `apps/Deployment`
no longer contains `extensions/Deployment`, a member of the same default list. -/
theorem equivalences_not_merged :
    [({ Group := "extensions", Kind := "Deployment" } : GroupKind),
      { Group := "apps", Kind := "Deployment" }] ∈ defaultEquivalences ∧
    (NewEquivalences
      [[{ Group := "custom.io", Kind := "Deployment" },
          { Group := "other.io", Kind := "Deployment" }],
        [{ Group := "custom.io", Kind := "Deployment" },
          { Group := "apps", Kind := "Deployment" }]]).GetEquivalencesFor
      { Group := "apps", Kind := "Deployment" } =
      some [{ Group := "custom.io", Kind := "Deployment" },
        { Group := "other.io", Kind := "Deployment" }, { Group := "apps", Kind := "Deployment" }] ∧
    ({ Group := "extensions", Kind := "Deployment" } : GroupKind) ∉
      [({ Group := "custom.io", Kind := "Deployment" } : GroupKind),
        { Group := "other.io", Kind := "Deployment" }, { Group := "apps", Kind := "Deployment" }] := by
  refine ⟨by decide, by decide, by decide⟩

theorem splitChar_of_not_mem (sep : Char) (l : List Char) (h : sep ∉ l) :
    splitChar sep l = [l] := by
  induction l with
  | nil => rfl
  | cons c cs ih =>
    simp only [List.mem_cons, not_or] at h
    have hc : ¬ c = sep := fun e => h.1 e.symm
    simp [splitChar, ih h.2, hc]

theorem splitChar_ne_nil (sep : Char) (l : List Char) : splitChar sep l ≠ [] := by
  cases l with
  | nil => simp [splitChar]
  | cons c cs =>
    simp only [splitChar]
    split
    · simp
    · split <;> simp

theorem splitChar_append (sep : Char) (a b : List Char) (h : sep ∉ a) :
    splitChar sep (a ++ sep :: b) = a :: splitChar sep b := by
  induction a with
  | nil =>
    simp only [List.nil_append, splitChar]
    cases hb : splitChar sep b with
    | nil => exact absurd hb (splitChar_ne_nil sep b)
    | cons p ps => simp
  | cons c cs ih =>
    simp only [List.mem_cons, not_or] at h
    have hc : ¬ c = sep := fun e => h.1 e.symm
    simp [splitChar, ih h.2, hc]

theorem trimPrefix_append (p s : String) : TrimPrefix (p ++ s) p = s := by
  unfold TrimPrefix
  have h1 : p.data.isPrefixOf (p ++ s).data = true := by
    rw [List.isPrefixOf_iff_prefix, String.data_append]
    exact List.prefix_append _ _
  rw [h1]
  simp [String.data_append]

/-- C28: for every namespace and name that contain no `:`, `MetadataFromClusterRoleBindingName`
applied to `ClusterRoleBindingName namespace name` returns the namespace and the name, also when
the namespace is empty. -/
theorem clusterRoleBindingName_roundtrip (ns name : String)
    (hns : ':' ∉ ns.data) (hname : ':' ∉ name.data) :
    MetadataFromClusterRoleBindingName (ClusterRoleBindingName ns name) = (ns, name) := by
  unfold MetadataFromClusterRoleBindingName ClusterRoleBindingName
  simp only [trimPrefix_append]
  by_cases h : ns = ""
  · subst h
    simp only [ne_eq, not_true_eq_false, if_false, clusterRoleBindingNameDelimiter]
    rw [splitChar_of_not_mem ':' name.data hname]
  · have hd : (String.singleton ':').data = [':'] := rfl
    simp only [ne_eq, h, not_false_eq_true, if_true, clusterRoleBindingNameDelimiter,
      String.data_append, hd, List.append_assoc, List.singleton_append]
    rw [splitChar_append ':' ns.data name.data hns, splitChar_of_not_mem ':' name.data hname]

theorem clusterRoleBindingName_roundtrip_witness :
    MetadataFromClusterRoleBindingName (ClusterRoleBindingName "garden" "my-seed") =
      ("garden", "my-seed") ∧
    MetadataFromClusterRoleBindingName (ClusterRoleBindingName "" "my-seed") =
      ("", "my-seed") :=
  ⟨clusterRoleBindingName_roundtrip "garden" "my-seed" (by decide) (by decide),
    clusterRoleBindingName_roundtrip "" "my-seed" (by decide) (by decide)⟩

/-! ## The deploy phase, continued -/

/-- The six ways one iteration of the deploy loop can go. -/
theorem deployLoop_cases {σ M : Type} (c : Client σ) (h : HashFunctions M) (seed : Seed)
    (regs : GoMap controllerRegistration) (m : GoMap ControllerInstallation)
    (a : String) (rest : List String) (st : σ) (calls : List IssuedCall) :
    (regs.get? a = none ∧
      deployLoop c h seed regs m (a :: rest) st calls =
        { outcome := .panicked, state := st, calls := calls }) ∨
    (∃ cr, regs.get? a = some cr ∧ cr.obj.ObjectMeta.DeletionTimestamp ≠ none ∧
      deployLoop c h seed regs m (a :: rest) st calls =
        deployLoop c h seed regs m rest st calls) ∨
    (∃ cr err st₁ issued, regs.get? a = some cr ∧
      cr.obj.ObjectMeta.DeletionTimestamp = none ∧
      fetchControllerDeployment c st cr.obj = (.error err, st₁, issued) ∧
      deployLoop c h seed regs m (a :: rest) st calls =
        { outcome := .returned (some (.wrapf
            "cannot deploy ControllerInstallation because the referenced ControllerDeployment cannot be retrieved: %w"
            [] err))
          state := st₁
          calls := calls ++ issued.map (IssuedCall.mk a) }) ∨
    (∃ cr d st₁ issued, regs.get? a = some cr ∧
      cr.obj.ObjectMeta.DeletionTimestamp = none ∧
      fetchControllerDeployment c st cr.obj = (.ok d, st₁, issued) ∧
      ((m.get? a).bind (fun i => i.ObjectMeta.DeletionTimestamp)).isSome = true ∧
      deployLoop c h seed regs m (a :: rest) st calls =
        { outcome := .returned (some (.errorf
            "cannot deploy new ControllerInstallation for %q because the deletion of the old ControllerInstallation is still pending"
            [.str a]))
          state := st₁
          calls := calls ++ issued.map (IssuedCall.mk a) }) ∨
    (∃ cr d st₁ issued err st₂ issued₂, regs.get? a = some cr ∧
      cr.obj.ObjectMeta.DeletionTimestamp = none ∧
      fetchControllerDeployment c st cr.obj = (.ok d, st₁, issued) ∧
      ((m.get? a).bind (fun i => i.ObjectMeta.DeletionTimestamp)).isSome = false ∧
      deployNeededInstallation c h st₁ seed d cr.obj (m.get? a) = (some err, st₂, issued₂) ∧
      deployLoop c h seed regs m (a :: rest) st calls =
        { outcome := .returned (some err)
          state := st₂
          calls := calls ++ issued.map (IssuedCall.mk a) ++ issued₂.map (IssuedCall.mk a) }) ∨
    (∃ cr d st₁ issued st₂ issued₂, regs.get? a = some cr ∧
      cr.obj.ObjectMeta.DeletionTimestamp = none ∧
      fetchControllerDeployment c st cr.obj = (.ok d, st₁, issued) ∧
      ((m.get? a).bind (fun i => i.ObjectMeta.DeletionTimestamp)).isSome = false ∧
      deployNeededInstallation c h st₁ seed d cr.obj (m.get? a) = (none, st₂, issued₂) ∧
      deployLoop c h seed regs m (a :: rest) st calls =
        deployLoop c h seed regs m rest st₂
          (calls ++ issued.map (IssuedCall.mk a) ++ issued₂.map (IssuedCall.mk a))) := by
  cases hget : regs.get? a with
  | none => exact Or.inl ⟨rfl, deployLoop_missing c h seed regs m a rest st calls hget⟩
  | some cr =>
    by_cases hdel : cr.obj.ObjectMeta.DeletionTimestamp = none
    · rcases hf : fetchControllerDeployment c st cr.obj with ⟨fr, st₁, issued⟩
      cases fr with
      | error err =>
        exact Or.inr (Or.inr (Or.inl ⟨cr, err, st₁, issued, rfl, hdel, hf,
          deployLoop_fetch_error c h seed regs m a rest st st₁ calls cr err issued hget hdel hf⟩))
      | ok d =>
        cases hp : ((m.get? a).bind (fun i => i.ObjectMeta.DeletionTimestamp)).isSome with
        | true =>
          exact Or.inr (Or.inr (Or.inr (Or.inl ⟨cr, d, st₁, issued, rfl, hdel, hf, rfl,
            deployLoop_pending c h seed regs m a rest st st₁ calls cr d issued hget hdel hf
              hp⟩)))
        | false =>
          rcases hd : deployNeededInstallation c h st₁ seed d cr.obj (m.get? a) with
            ⟨derr, st₂, issued₂⟩
          cases derr with
          | some err =>
            exact Or.inr (Or.inr (Or.inr (Or.inr (Or.inl ⟨cr, d, st₁, issued, err, st₂,
              issued₂, rfl, hdel, hf, rfl, hd,
              deployLoop_deploy_error c h seed regs m a rest st st₁ st₂ calls cr d issued
                issued₂ err hget hdel hf hp hd⟩))))
          | none =>
            exact Or.inr (Or.inr (Or.inr (Or.inr (Or.inr ⟨cr, d, st₁, issued, st₂, issued₂,
              rfl, hdel, hf, rfl, hd,
              deployLoop_deploy_ok c h seed regs m a rest st st₁ st₂ calls cr d issued
                issued₂ hget hdel hf hp hd⟩))))
    · exact Or.inr (Or.inl ⟨cr, rfl, hdel,
        deployLoop_deleting c h seed regs m a rest st calls cr hget hdel⟩)

theorem deployLoop_no_panic {σ M : Type} (c : Client σ) (h : HashFunctions M) (seed : Seed)
    (regs : GoMap controllerRegistration) (m : GoMap ControllerInstallation)
    (wanted : List String) (st : σ) (calls : List IssuedCall)
    (hkeys : ∀ w ∈ wanted, ∃ cr, regs.get? w = some cr) :
    (deployLoop c h seed regs m wanted st calls).outcome ≠ .panicked := by
  induction wanted generalizing st calls with
  | nil => simp [deployLoop]
  | cons a rest ih =>
    have hrest : ∀ w ∈ rest, ∃ cr, regs.get? w = some cr :=
      fun w hw => hkeys w (List.mem_cons_of_mem _ hw)
    rcases deployLoop_cases c h seed regs m a rest st calls with
      ⟨hget, _⟩ | ⟨cr, _, _, heq⟩ | ⟨cr, err, st₁, issued, _, _, _, heq⟩ |
      ⟨cr, d, st₁, issued, _, _, _, _, heq⟩ |
      ⟨cr, d, st₁, issued, err, st₂, issued₂, _, _, _, _, _, heq⟩ |
      ⟨cr, d, st₁, issued, st₂, issued₂, _, _, _, _, _, heq⟩
    · obtain ⟨cr, hcr⟩ := hkeys a (List.mem_cons_self _ _)
      rw [hcr] at hget
      cases hget
    · rw [heq]
      exact ih st calls hrest
    · rw [heq]
      simp
    · rw [heq]
      simp
    · rw [heq]
      simp
    · rw [heq]
      exact ih _ _ hrest

/-- C29: every name in the Wanted Set returned by a successful
`computeWantedControllerRegistrationNames` is a key of the registration map, so that
`deployNeededInstallations`, run on that Wanted Set with that registration map, never
dereferences a missing registration: it does not panic. -/
theorem wanted_names_registered {σ M : Type} (c : Client σ) (h : HashFunctions M) (st : σ)
    (seed : Seed) (required : StringSet) (installs : List ControllerInstallation)
    (regs : GoMap controllerRegistration) (numberOfShoots : Int) (seedObjectMeta : ObjectMeta)
    (m : GoMap ControllerInstallation) (wanted : StringSet)
    (hwanted : computeWantedControllerRegistrationNames required installs regs numberOfShoots
      seedObjectMeta = .ok wanted) :
    (∀ n, wanted.Has n = true → ∃ cr, regs.get? n = some cr) ∧
    (deployNeededInstallations c h st seed wanted regs m).outcome ≠ .panicked := by
  obtain ⟨_, _, h3⟩ :=
    computeWanted_ok required installs regs numberOfShoots seedObjectMeta wanted hwanted
  have hkeys : ∀ n, n ∈ wanted → ∃ cr, regs.get? n = some cr := by
    intro n hn
    obtain ⟨_, cr, hcr, _⟩ := (h3 n).mp hn
    exact ⟨cr, hcr⟩
  refine ⟨fun n hn => hkeys n ((StringSet_Has_iff _ _).mp hn), ?_⟩
  unfold deployNeededInstallations StringSet.UnsortedList
  exact deployLoop_no_panic c h seed regs m wanted st [] hkeys

theorem wanted_names_registered_witness :
    computeWantedControllerRegistrationNames ["DNSRecord/route53"]
      [installationOn "dns-4hq9z" "dns" true]
      (computeControllerRegistrationMaps [regAlways, regDNS]) 0 seedEU = .ok ["always", "dns"] ∧
    (deployNeededInstallations storeClient exampleHash [installationOn "dns-4hq9z" "dns" true]
      seedObjEU ["always", "dns"] (computeControllerRegistrationMaps [regAlways, regDNS])
      [("dns", installationOn "dns-4hq9z" "dns" true)]).outcome ≠ .panicked :=
  ⟨by decide,
    (wanted_names_registered storeClient exampleHash [installationOn "dns-4hq9z" "dns" true]
      seedObjEU ["DNSRecord/route53"] [installationOn "dns-4hq9z" "dns" true]
      (computeControllerRegistrationMaps [regAlways, regDNS]) 0 seedEU
      [("dns", installationOn "dns-4hq9z" "dns" true)] ["always", "dns"] (by decide)).2⟩

/-! ## The reconcile cycle -/

theorem reconcilePhases_wanted_error {σ M : Type} (c : Client σ) (h : HashFunctions M) (st : σ)
    (seed : Seed) (required : StringSet) (regs : GoMap controllerRegistration)
    (installs : List ControllerInstallation) (numberOfShoots : Int) (err : GoError)
    (hw : computeWantedControllerRegistrationNames required installs regs numberOfShoots
      seed.ObjectMeta = .error err) :
    reconcilePhases c h st seed required regs installs numberOfShoots =
      { outcome := .returned (some err), state := st, calls := [], deleted := [] } := by
  simp only [reconcilePhases, hw]

theorem reconcilePhases_map_error {σ M : Type} (c : Client σ) (h : HashFunctions M) (st : σ)
    (seed : Seed) (required : StringSet) (regs : GoMap controllerRegistration)
    (installs : List ControllerInstallation) (numberOfShoots : Int) (wanted : StringSet)
    (err : GoError)
    (hw : computeWantedControllerRegistrationNames required installs regs numberOfShoots
      seed.ObjectMeta = .ok wanted)
    (hm : computeRegistrationNameToInstallationMap installs regs seed.ObjectMeta.Name =
      .error err) :
    reconcilePhases c h st seed required regs installs numberOfShoots =
      { outcome := .returned (some err), state := st, calls := [], deleted := [] } := by
  simp only [reconcilePhases, hw, hm]

theorem reconcilePhases_deploy_failed {σ M : Type} (c : Client σ) (h : HashFunctions M) (st : σ)
    (seed : Seed) (required : StringSet) (regs : GoMap controllerRegistration)
    (installs : List ControllerInstallation) (numberOfShoots : Int) (wanted : StringSet)
    (m : GoMap ControllerInstallation)
    (hw : computeWantedControllerRegistrationNames required installs regs numberOfShoots
      seed.ObjectMeta = .ok wanted)
    (hm : computeRegistrationNameToInstallationMap installs regs seed.ObjectMeta.Name = .ok m)
    (hd : (deployNeededInstallations c h st seed wanted regs m).outcome ≠ .returned none) :
    reconcilePhases c h st seed required regs installs numberOfShoots =
      { outcome := (deployNeededInstallations c h st seed wanted regs m).outcome
        state := (deployNeededInstallations c h st seed wanted regs m).state
        calls := (deployNeededInstallations c h st seed wanted regs m).calls
        deleted := [] } := by
  cases hout : (deployNeededInstallations c h st seed wanted regs m).outcome with
  | panicked => simp only [reconcilePhases, hw, hm, hout]
  | returned e =>
    cases e with
    | none => exact absurd hout hd
    | some err => simp only [reconcilePhases, hw, hm, hout]

theorem reconcilePhases_deploy_ok {σ M : Type} (c : Client σ) (h : HashFunctions M) (st : σ)
    (seed : Seed) (required : StringSet) (regs : GoMap controllerRegistration)
    (installs : List ControllerInstallation) (numberOfShoots : Int) (wanted : StringSet)
    (m : GoMap ControllerInstallation)
    (hw : computeWantedControllerRegistrationNames required installs regs numberOfShoots
      seed.ObjectMeta = .ok wanted)
    (hm : computeRegistrationNameToInstallationMap installs regs seed.ObjectMeta.Name = .ok m)
    (hd : (deployNeededInstallations c h st seed wanted regs m).outcome = .returned none) :
    reconcilePhases c h st seed required regs installs numberOfShoots =
      { outcome := .returned (deleteUnneededInstallations c wanted m
          (deployNeededInstallations c h st seed wanted regs m).state []).err
        state := (deleteUnneededInstallations c wanted m
          (deployNeededInstallations c h st seed wanted regs m).state []).state
        calls := (deployNeededInstallations c h st seed wanted regs m).calls
        deleted := (deleteUnneededInstallations c wanted m
          (deployNeededInstallations c h st seed wanted regs m).state []).deleted } := by
  simp only [reconcilePhases, hw, hm, hd]

/-- C30: within one `Reconcile` invocation the delete phase runs only after the whole deploy
phase succeeded: if computing the Wanted Set, building the registration-to-installation map or
`deployNeededInstallations` returns an error, `Reconcile` returns that error and issues no
installation delete. -/
theorem reconcile_no_delete_on_error {σ M : Type} (c : Client σ) (h : HashFunctions M)
    (fns : ShootFunctions) (schedule : List Shoot → List Shoot) (useDNSRecords : Bool) (st : σ)
    (seed : Seed) (controllerRegistrationList : List ControllerRegistration)
    (controllerInstallationList : List ControllerInstallation)
    (backupBucketList : List BackupBucket) (backupEntryList : List BackupEntry)
    (shootList : List Shoot) (internalDomain : Option Domain) (defaultDomains : List Domain) :
    (∀ err, computeWantedControllerRegistrationNames
        (wantedKindTypeCombinations fns schedule useDNSRecords seed controllerRegistrationList
          backupBucketList backupEntryList shootList internalDomain defaultDomains)
        controllerInstallationList (computeControllerRegistrationMaps controllerRegistrationList)
        shootList.length seed.ObjectMeta = .error err →
      (Reconcile c h fns schedule useDNSRecords st seed controllerRegistrationList
        controllerInstallationList backupBucketList backupEntryList shootList internalDomain
        defaultDomains).outcome = .returned (some err) ∧
      (Reconcile c h fns schedule useDNSRecords st seed controllerRegistrationList
        controllerInstallationList backupBucketList backupEntryList shootList internalDomain
        defaultDomains).deleted = []) ∧
    (∀ wanted err, computeWantedControllerRegistrationNames
        (wantedKindTypeCombinations fns schedule useDNSRecords seed controllerRegistrationList
          backupBucketList backupEntryList shootList internalDomain defaultDomains)
        controllerInstallationList (computeControllerRegistrationMaps controllerRegistrationList)
        shootList.length seed.ObjectMeta = .ok wanted →
      computeRegistrationNameToInstallationMap controllerInstallationList
        (computeControllerRegistrationMaps controllerRegistrationList) seed.ObjectMeta.Name =
        .error err →
      (Reconcile c h fns schedule useDNSRecords st seed controllerRegistrationList
        controllerInstallationList backupBucketList backupEntryList shootList internalDomain
        defaultDomains).outcome = .returned (some err) ∧
      (Reconcile c h fns schedule useDNSRecords st seed controllerRegistrationList
        controllerInstallationList backupBucketList backupEntryList shootList internalDomain
        defaultDomains).deleted = []) ∧
    (∀ wanted m err, computeWantedControllerRegistrationNames
        (wantedKindTypeCombinations fns schedule useDNSRecords seed controllerRegistrationList
          backupBucketList backupEntryList shootList internalDomain defaultDomains)
        controllerInstallationList (computeControllerRegistrationMaps controllerRegistrationList)
        shootList.length seed.ObjectMeta = .ok wanted →
      computeRegistrationNameToInstallationMap controllerInstallationList
        (computeControllerRegistrationMaps controllerRegistrationList) seed.ObjectMeta.Name =
        .ok m →
      (deployNeededInstallations c h st seed wanted
        (computeControllerRegistrationMaps controllerRegistrationList) m).outcome =
        .returned (some err) →
      (Reconcile c h fns schedule useDNSRecords st seed controllerRegistrationList
        controllerInstallationList backupBucketList backupEntryList shootList internalDomain
        defaultDomains).outcome = .returned (some err) ∧
      (Reconcile c h fns schedule useDNSRecords st seed controllerRegistrationList
        controllerInstallationList backupBucketList backupEntryList shootList internalDomain
        defaultDomains).deleted = []) := by
  refine ⟨?_, ?_, ?_⟩
  · intro err hw
    unfold Reconcile
    rw [reconcilePhases_wanted_error c h st seed _ _ _ _ err hw]
    exact ⟨rfl, rfl⟩
  · intro wanted err hw hm
    unfold Reconcile
    rw [reconcilePhases_map_error c h st seed _ _ _ _ wanted err hw hm]
    exact ⟨rfl, rfl⟩
  · intro wanted m err hw hm hd
    unfold Reconcile
    rw [reconcilePhases_deploy_failed c h st seed _ _ _ _ wanted m hw hm (by simp [hd])]
    exact ⟨hd, rfl⟩

theorem reconcile_no_delete_on_error_witness :
    (Reconcile storeClient exampleHash exampleShootFunctions id true
      [deletingInstallationOn "dns-4hq9z" "dns", installationOn "always-us-b2m5t" "always-us" false]
      seedObjDNS [regDNS, regAlwaysUS]
      [deletingInstallationOn "dns-4hq9z" "dns", installationOn "always-us-b2m5t" "always-us" false]
      [] [] [] none []).outcome =
      .returned (some (.errorf
        "cannot deploy new ControllerInstallation for %q because the deletion of the old ControllerInstallation is still pending"
        [.str "dns"])) ∧
    (Reconcile storeClient exampleHash exampleShootFunctions id true
      [deletingInstallationOn "dns-4hq9z" "dns", installationOn "always-us-b2m5t" "always-us" false]
      seedObjDNS [regDNS, regAlwaysUS]
      [deletingInstallationOn "dns-4hq9z" "dns", installationOn "always-us-b2m5t" "always-us" false]
      [] [] [] none []).deleted = [] :=
  (reconcile_no_delete_on_error storeClient exampleHash exampleShootFunctions id true
    [deletingInstallationOn "dns-4hq9z" "dns", installationOn "always-us-b2m5t" "always-us" false]
    seedObjDNS [regDNS, regAlwaysUS]
    [deletingInstallationOn "dns-4hq9z" "dns", installationOn "always-us-b2m5t" "always-us" false]
    [] [] [] none []).2.2 ["dns"]
    [("dns", deletingInstallationOn "dns-4hq9z" "dns"),
      ("always-us", installationOn "always-us-b2m5t" "always-us" false)]
    (.errorf
      "cannot deploy new ControllerInstallation for %q because the deletion of the old ControllerInstallation is still pending"
      [.str "dns"])
    (by decide) (by decide) (by decide)

theorem deployLoop_tags {σ M : Type} (c : Client σ) (h : HashFunctions M) (seed : Seed)
    (regs : GoMap controllerRegistration) (m : GoMap ControllerInstallation)
    (wanted : List String) (st : σ) (calls : List IssuedCall) :
    ∀ ic ∈ (deployLoop c h seed regs m wanted st calls).calls,
      ic ∈ calls ∨ ic.registrationName ∈ wanted := by
  induction wanted generalizing st calls with
  | nil =>
    intro ic hic
    exact Or.inl (by simpa [deployLoop] using hic)
  | cons a rest ih =>
    have htag : ∀ (issued : List ClientCall) (ic : IssuedCall),
        ic ∈ issued.map (IssuedCall.mk a) → ic.registrationName ∈ a :: rest := by
      intro issued ic hic
      obtain ⟨call, _, rfl⟩ := List.mem_map.mp hic
      exact List.mem_cons_self _ _
    intro ic hic
    rcases deployLoop_cases c h seed regs m a rest st calls with
      ⟨_, heq⟩ | ⟨cr, _, _, heq⟩ | ⟨cr, err, st₁, issued, _, _, _, heq⟩ |
      ⟨cr, d, st₁, issued, _, _, _, _, heq⟩ |
      ⟨cr, d, st₁, issued, err, st₂, issued₂, _, _, _, _, _, heq⟩ |
      ⟨cr, d, st₁, issued, st₂, issued₂, _, _, _, _, _, heq⟩
    · rw [heq] at hic
      exact Or.inl hic
    · rw [heq] at hic
      rcases ih st calls ic hic with h1 | h1
      · exact Or.inl h1
      · exact Or.inr (List.mem_cons_of_mem _ h1)
    · rw [heq] at hic
      rcases List.mem_append.mp hic with h1 | h1
      · exact Or.inl h1
      · exact Or.inr (htag issued ic h1)
    · rw [heq] at hic
      rcases List.mem_append.mp hic with h1 | h1
      · exact Or.inl h1
      · exact Or.inr (htag issued ic h1)
    · rw [heq] at hic
      simp only [List.mem_append] at hic
      rcases hic with (h1 | h1) | h1
      · exact Or.inl h1
      · exact Or.inr (htag issued ic h1)
      · exact Or.inr (htag issued₂ ic h1)
    · rw [heq] at hic
      rcases ih _ _ ic hic with h1 | h1
      · simp only [List.mem_append] at h1
        rcases h1 with (h1 | h1) | h1
        · exact Or.inl h1
        · exact Or.inr (htag issued ic h1)
        · exact Or.inr (htag issued₂ ic h1)
      · exact Or.inr (List.mem_cons_of_mem _ h1)

theorem deployLoop_calls_mono {σ M : Type} (c : Client σ) (h : HashFunctions M) (seed : Seed)
    (regs : GoMap controllerRegistration) (m : GoMap ControllerInstallation)
    (wanted : List String) (st : σ) (calls : List IssuedCall) :
    ∀ ic ∈ calls, ic ∈ (deployLoop c h seed regs m wanted st calls).calls := by
  induction wanted generalizing st calls with
  | nil =>
    intro ic hic
    simpa [deployLoop] using hic
  | cons a rest ih =>
    intro ic hic
    rcases deployLoop_cases c h seed regs m a rest st calls with
      ⟨_, heq⟩ | ⟨cr, _, _, heq⟩ | ⟨cr, err, st₁, issued, _, _, _, heq⟩ |
      ⟨cr, d, st₁, issued, _, _, _, _, heq⟩ |
      ⟨cr, d, st₁, issued, err, st₂, issued₂, _, _, _, _, _, heq⟩ |
      ⟨cr, d, st₁, issued, st₂, issued₂, _, _, _, _, _, heq⟩
    · rw [heq]
      exact hic
    · rw [heq]
      exact ih st calls ic hic
    · rw [heq]
      exact List.mem_append_left _ hic
    · rw [heq]
      exact List.mem_append_left _ hic
    · rw [heq]
      exact List.mem_append_left _ (List.mem_append_left _ hic)
    · rw [heq]
      exact ih _ _ ic (List.mem_append_left _ (List.mem_append_left _ hic))

theorem getAndCreateOrMergePatch_write {σ : Type} (c : Client σ) (st : σ)
    (obj : ControllerInstallation)
    (f : ControllerInstallation → ControllerInstallation × Option GoError)
    (hnone : (GetAndCreateOrMergePatch c st obj f).1 = none) :
    ∃ call ∈ (GetAndCreateOrMergePatch c st obj f).2.2,
      call.isCreate = true ∨ call.isPatch = true := by
  unfold GetAndCreateOrMergePatch at *
  rcases hg : c.GetControllerInstallation st obj.ObjectMeta.Name with ⟨r, st₁⟩
  rw [hg] at hnone
  cases r with
  | error err =>
    by_cases hnf : IsNotFound err = true
    · rcases hf : f obj with ⟨obj₁, merr⟩
      cases merr with
      | some e => simp [hnf, hf] at hnone
      | none => simp [hnf, hf, ClientCall.isCreate]
    · simp [hnf] at hnone
  | ok current =>
    rcases hf : f current with ⟨obj₁, merr⟩
    cases merr with
    | some e => simp [hf] at hnone
    | none => simp [hf, ClientCall.isPatch]

theorem deployNeededInstallation_write {σ M : Type} (c : Client σ) (h : HashFunctions M)
    (st : σ) (seed : Seed) (d : Option ControllerDeployment) (reg : ControllerRegistration)
    (existing : Option ControllerInstallation)
    (hnone : (deployNeededInstallation c h st seed d reg existing).1 = none) :
    ∃ call ∈ (deployNeededInstallation c h st seed d reg existing).2.2,
      call.isCreate = true ∨ call.isPatch = true := by
  cases existing with
  | none => simp [deployNeededInstallation, ClientCall.isCreate]
  | some e =>
    simp only [deployNeededInstallation] at hnone ⊢
    exact getAndCreateOrMergePatch_write c st _ _ hnone

theorem deployLoop_success {σ M : Type} (c : Client σ) (h : HashFunctions M) (seed : Seed)
    (regs : GoMap controllerRegistration) (m : GoMap ControllerInstallation)
    (wanted : List String) (st : σ) (calls : List IssuedCall)
    (hsucc : (deployLoop c h seed regs m wanted st calls).outcome = .returned none) :
    ∀ w ∈ wanted, ∃ cr, regs.get? w = some cr ∧
      (cr.obj.ObjectMeta.DeletionTimestamp ≠ none ∨
        ∃ st₁ d, (deployNeededInstallation c h st₁ seed d cr.obj (m.get? w)).1 = none ∧
          ∃ call ∈ (deployNeededInstallation c h st₁ seed d cr.obj (m.get? w)).2.2,
            (call.isCreate = true ∨ call.isPatch = true) ∧
            IssuedCall.mk w call ∈ (deployLoop c h seed regs m wanted st calls).calls) := by
  induction wanted generalizing st calls with
  | nil => simp
  | cons a rest ih =>
    rcases deployLoop_cases c h seed regs m a rest st calls with
      ⟨_, heq⟩ | ⟨cr, hget, hdel, heq⟩ | ⟨cr, err, st₁, issued, _, _, _, heq⟩ |
      ⟨cr, d, st₁, issued, _, _, _, _, heq⟩ |
      ⟨cr, d, st₁, issued, err, st₂, issued₂, _, _, _, _, _, heq⟩ |
      ⟨cr, d, st₁, issued, st₂, issued₂, hget, _, _, _, hd, heq⟩
    · rw [heq] at hsucc
      simp at hsucc
    · rw [heq] at hsucc ⊢
      intro w hw
      rcases List.mem_cons.mp hw with h1 | h1
      · subst h1
        exact ⟨cr, hget, Or.inl hdel⟩
      · exact ih st calls hsucc w h1
    · rw [heq] at hsucc
      simp at hsucc
    · rw [heq] at hsucc
      simp at hsucc
    · rw [heq] at hsucc
      simp at hsucc
    · rw [heq] at hsucc ⊢
      intro w hw
      rcases List.mem_cons.mp hw with h1 | h1
      · subst h1
        have hnone : (deployNeededInstallation c h st₁ seed d cr.obj (m.get? w)).1 = none := by
          rw [hd]
        obtain ⟨call, hcall, hwrite⟩ := deployNeededInstallation_write c h st₁ seed d cr.obj
          (m.get? w) hnone
        refine ⟨cr, hget, Or.inr ⟨st₁, d, hnone, call, hcall, hwrite, ?_⟩⟩
        apply deployLoop_calls_mono
        rw [hd] at hcall
        exact List.mem_append_right _ (List.mem_map_of_mem _ hcall)
      · exact ih _ _ hsucc w h1

/-- C24: the deploy phase is fail-fast.  If processing a wanted registration fails,
`deployNeededInstallations` on the whole Wanted Set ends exactly as it does at that registration
(same error, same store, same calls): every call it issued belongs to a registration processed
so far, none to a later one.  The error returned is the fetch error of the referenced
ControllerDeployment (wrapped with `%w`), the deletion-still-pending error, or the error of the
create or patch.  It returns no error only if every wanted registration was either skipped as
deleting or deployed by a create or patch that succeeded. -/
theorem deploy_fail_fast {σ M : Type} (c : Client σ) (h : HashFunctions M) (st : σ)
    (seed : Seed) (regs : GoMap controllerRegistration) (m : GoMap ControllerInstallation)
    (pre post : List String) (name : String) :
    ((deployNeededInstallations c h st seed (pre ++ [name]) regs m).outcome ≠ .returned none →
      deployNeededInstallations c h st seed (pre ++ name :: post) regs m =
        deployNeededInstallations c h st seed (pre ++ [name]) regs m ∧
      ∀ ic ∈ (deployNeededInstallations c h st seed (pre ++ name :: post) regs m).calls,
        ic.registrationName ∈ pre ++ [name]) ∧
    (∀ cr, (deployNeededInstallations c h st seed pre regs m).outcome = .returned none →
      regs.get? name = some cr → cr.obj.ObjectMeta.DeletionTimestamp = none →
      (∀ err st₁ issued,
        fetchControllerDeployment c (deployNeededInstallations c h st seed pre regs m).state
          cr.obj = (.error err, st₁, issued) →
        (deployNeededInstallations c h st seed (pre ++ name :: post) regs m).outcome =
          .returned (some (.wrapf
            "cannot deploy ControllerInstallation because the referenced ControllerDeployment cannot be retrieved: %w"
            [] err))) ∧
      (∀ d st₁ issued,
        fetchControllerDeployment c (deployNeededInstallations c h st seed pre regs m).state
          cr.obj = (.ok d, st₁, issued) →
        ((m.get? name).bind (fun i => i.ObjectMeta.DeletionTimestamp)).isSome = true →
        (deployNeededInstallations c h st seed (pre ++ name :: post) regs m).outcome =
          .returned (some (.errorf
            "cannot deploy new ControllerInstallation for %q because the deletion of the old ControllerInstallation is still pending"
            [.str name]))) ∧
      (∀ d st₁ issued err st₂ issued₂,
        fetchControllerDeployment c (deployNeededInstallations c h st seed pre regs m).state
          cr.obj = (.ok d, st₁, issued) →
        ((m.get? name).bind (fun i => i.ObjectMeta.DeletionTimestamp)).isSome = false →
        deployNeededInstallation c h st₁ seed d cr.obj (m.get? name) =
          (some err, st₂, issued₂) →
        (deployNeededInstallations c h st seed (pre ++ name :: post) regs m).outcome =
          .returned (some err))) ∧
    ((deployNeededInstallations c h st seed (pre ++ name :: post) regs m).outcome =
        .returned none →
      ∀ w ∈ pre ++ name :: post, ∃ cr, regs.get? w = some cr ∧
        (cr.obj.ObjectMeta.DeletionTimestamp ≠ none ∨
          ∃ st₁ d, (deployNeededInstallation c h st₁ seed d cr.obj (m.get? w)).1 = none ∧
            ∃ call ∈ (deployNeededInstallation c h st₁ seed d cr.obj (m.get? w)).2.2,
              (call.isCreate = true ∨ call.isPatch = true) ∧
              IssuedCall.mk w call ∈
                (deployNeededInstallations c h st seed (pre ++ name :: post) regs m).calls)) := by
  unfold deployNeededInstallations StringSet.UnsortedList
  refine ⟨?_, ?_, ?_⟩
  · intro hfail
    have heq : deployLoop c h seed regs m (pre ++ name :: post) st [] =
        deployLoop c h seed regs m (pre ++ [name]) st [] := by
      have happ : pre ++ name :: post = (pre ++ [name]) ++ post := by simp
      rw [happ, deployLoop_append c h seed regs m (pre ++ [name]) post]
      cases hout : (deployLoop c h seed regs m (pre ++ [name]) st []).outcome with
      | panicked => rfl
      | returned e =>
        cases e with
        | none => exact absurd hout hfail
        | some err => rfl
    refine ⟨heq, ?_⟩
    rw [heq]
    intro ic hic
    rcases deployLoop_tags c h seed regs m (pre ++ [name]) st [] ic hic with h1 | h1
    · simp at h1
    · exact h1
  · intro cr hpre hreg hdel
    refine ⟨?_, ?_, ?_⟩
    · intro err st₁ issued hf
      rw [deployLoop_append, hpre]
      simp only
      rw [deployLoop_fetch_error c h seed regs m name post _ st₁ _ cr err issued hreg hdel hf]
    · intro d st₁ issued hf hp
      rw [deployLoop_append, hpre]
      simp only
      rw [deployLoop_pending c h seed regs m name post _ st₁ _ cr d issued hreg hdel hf hp]
    · intro d st₁ issued err st₂ issued₂ hf hp hd
      rw [deployLoop_append, hpre]
      simp only
      rw [deployLoop_deploy_error c h seed regs m name post _ st₁ st₂ _ cr d issued issued₂ err
        hreg hdel hf hp hd]
  · intro hsucc
    exact deployLoop_success c h seed regs m (pre ++ name :: post) st [] hsucc

theorem deploy_fail_fast_witness :
    (deployNeededInstallations clusterClient exampleHash {} seedObjEU ["dns", "ext", "always"]
      (computeControllerRegistrationMaps [regDNS, regExt, regAlways]) []).outcome =
      .returned (some (.wrapf
        "cannot deploy ControllerInstallation because the referenced ControllerDeployment cannot be retrieved: %w"
        [] (.api StatusReasonNotFound "controllerdeployment not found"))) ∧
    (deployNeededInstallations clusterClient exampleHash {} seedObjEU ["dns", "ext", "always"]
      (computeControllerRegistrationMaps [regDNS, regExt, regAlways]) []).calls.map
        (fun ic => ic.registrationName) = ["dns", "ext"] ∧
    (deployNeededInstallations clusterClient exampleHash {} seedObjEU ["dns", "ext", "always"]
        (computeControllerRegistrationMaps [regDNS, regExt, regAlways]) [] =
      deployNeededInstallations clusterClient exampleHash {} seedObjEU ["dns", "ext"]
        (computeControllerRegistrationMaps [regDNS, regExt, regAlways]) []) :=
  ⟨by decide, by decide,
    ((deploy_fail_fast clusterClient exampleHash {} seedObjEU
      (computeControllerRegistrationMaps [regDNS, regExt, regAlways]) [] ["dns"] ["always"]
      "ext").1 (by decide)).1⟩

/-- What `mutate` returns when the serialization succeeds. -/
theorem mutate_of_json {M : Type} (h : HashFunctions M) (seed : Seed)
    (d : Option ControllerDeployment) (reg : ControllerRegistration)
    (spec : ControllerInstallationSpec) (obj : ControllerInstallation)
    (hjson : ∀ input, ∃ out, convertObjToMap h input = .ok out) :
    (mutate h seed d reg spec obj).2 = none ∧
    (mutate h seed d reg spec obj).1.Spec = spec ∧
    (mutate h seed d reg spec obj).1.Status = obj.Status ∧
    (mutate h seed d reg spec obj).1.ObjectMeta.Name = obj.ObjectMeta.Name ∧
    (mutate h seed d reg spec obj).1.ObjectMeta.GenerateName = obj.ObjectMeta.GenerateName ∧
    (mutate h seed d reg spec obj).1.ObjectMeta.DeletionTimestamp =
      obj.ObjectMeta.DeletionTimestamp ∧
    (∃ seedMap, convertObjToMap h (.seedSpec seed.Spec) = .ok seedMap ∧
      (mutate h seed d reg spec obj).1.ObjectMeta.Labels.get? SeedSpecHash =
        some (first16 (h.HashForMap seedMap))) ∧
    (∃ regMap, convertObjToMap h (.registrationSpec reg.Spec) = .ok regMap ∧
      (mutate h seed d reg spec obj).1.ObjectMeta.Labels.get? RegistrationSpecHash =
        some (first16 (h.HashForMap regMap))) ∧
    (∀ dd, d = some dd →
      ∃ depMap, convertObjToMap h (.hashFields dd.Type_ dd.ProviderConfig) = .ok depMap ∧
        (mutate h seed d reg spec obj).1.ObjectMeta.Labels.get? ControllerDeploymentHash =
          some (first16 (h.HashForMap depMap))) := by
  have hk1 : ¬ SeedSpecHash = RegistrationSpecHash := by decide
  have hk2 : ¬ RegistrationSpecHash = SeedSpecHash := by decide
  have hk3 : ¬ ControllerDeploymentHash = SeedSpecHash := by decide
  have hk4 : ¬ ControllerDeploymentHash = RegistrationSpecHash := by decide
  obtain ⟨seedMap, hs⟩ := hjson (.seedSpec seed.Spec)
  obtain ⟨regMap, hr⟩ := hjson (.registrationSpec reg.Spec)
  cases d with
  | none => simp [mutate, hs, hr, SetMetaDataLabel, GoMap.get?_set, hk1, hk2]
  | some dd =>
    obtain ⟨depMap, hd⟩ := hjson (.hashFields dd.Type_ dd.ProviderConfig)
    simp [mutate, hs, hr, hd, SetMetaDataLabel, GoMap.get?_set, hk1, hk2, hk3, hk4]

/-- Every installation `deployNeededInstallation` writes is the result of `mutate`, with the
installation spec of the seed, the deployment and the registration. -/
theorem deployNeededInstallation_written {σ M : Type} (c : Client σ) (h : HashFunctions M)
    (st : σ) (seed : Seed) (d : Option ControllerDeployment) (reg : ControllerRegistration)
    (existing : Option ControllerInstallation) :
    ∀ call ∈ (deployNeededInstallation c h st seed d reg existing).2.2,
      ∀ obj, call.written = some obj →
        ∃ base, obj = (mutate h seed d reg (installationSpecOf seed d reg) base).1 := by
  intro call hcall obj hobj
  cases existing with
  | none =>
    simp only [deployNeededInstallation, List.mem_singleton] at hcall
    subst hcall
    simp only [ClientCall.written, Option.some.injEq] at hobj
    exact ⟨_, hobj.symm⟩
  | some e =>
    simp only [deployNeededInstallation, GetAndCreateOrMergePatch] at hcall
    rcases hg : c.GetControllerInstallation st e.ObjectMeta.Name with ⟨r, st₁⟩
    rw [hg] at hcall
    cases r with
    | error err =>
      by_cases hnf : IsNotFound err = true
      · simp only [hnf, if_true] at hcall
        split at hcall
        · simp only [List.mem_singleton] at hcall
          subst hcall
          simp [ClientCall.written] at hobj
        · rename_i obj₁ heq
          simp only [List.mem_cons, List.mem_singleton, List.not_mem_nil, or_false] at hcall
          rcases hcall with h1 | h1
          · subst h1
            simp [ClientCall.written] at hobj
          · subst h1
            simp only [ClientCall.written, Option.some.injEq] at hobj
            subst hobj
            exact ⟨_, by rw [installationSpecOf, heq]⟩
      · simp only [hnf, Bool.false_eq_true, if_false, List.mem_singleton] at hcall
        subst hcall
        simp [ClientCall.written] at hobj
    | ok current =>
      simp only at hcall
      split at hcall
      · simp only [List.mem_singleton] at hcall
        subst hcall
        simp [ClientCall.written] at hobj
      · rename_i obj₁ heq
        simp only [List.mem_cons, List.mem_singleton, List.not_mem_nil, or_false] at hcall
        rcases hcall with h1 | h1
        · subst h1
          simp [ClientCall.written] at hobj
        · subst h1
          simp only [ClientCall.written, Option.some.injEq] at hobj
          subst hobj
          exact ⟨_, by rw [installationSpecOf, heq]⟩

/-! ## The hash labels -/

/-- C19, as stated, fails: two runs of `deployNeededInstallation` with the same seed, the same
registration and no controller deployment write different deployment hash labels.  The run that
creates the installation writes none; the run that updates `staleInstallation` writes the label
that installation carried, because `mutate` sets the deployment label only when a deployment is
referenced and never removes it. -/
theorem stale_deployment_label_counterexample :
    (deployNeededInstallation storeClient exampleHash [] seedObjEU none regDNS none).2.2.map
      (fun call => call.written.map
        (fun obj => obj.ObjectMeta.Labels.get? ControllerDeploymentHash)) = [some none] ∧
    (deployNeededInstallation storeClient exampleHash [staleInstallation] seedObjEU none regDNS
      (some staleInstallation)).2.2.map
      (fun call => call.written.map
        (fun obj => obj.ObjectMeta.Labels.get? ControllerDeploymentHash)) =
      [none, some (some "deployment:helm:")] := by
  refine ⟨by decide, by decide⟩

/-- C19, amended: the seed-spec and registration-spec hash labels, and the deployment hash label
when a controller deployment is referenced, are functions of spec content only.  For any two
runs whose seed specs, registration specs and deployment type and provider configuration are
equal (names, resource versions, timestamps, other metadata, the installation spec and the
object mutated may all differ), `mutate` returns the same error value, and when it succeeds the
seed-spec and registration-spec labels of both objects, and the deployment label when a
deployment is referenced, are the same value: the first 16 characters of the hash of the
corresponding content.  When no deployment is referenced the deployment label is not touched:
each object keeps the one it carried, if any.  Every installation `deployNeededInstallation`
writes is a result of `mutate`. -/
theorem hash_labels_from_specs {σ M : Type} (c : Client σ) (h : HashFunctions M)
    (seed₁ seed₂ : Seed) (reg₁ reg₂ : ControllerRegistration)
    (dep₁ dep₂ : Option ControllerDeployment)
    (spec₁ spec₂ : ControllerInstallationSpec) (obj₁ obj₂ : ControllerInstallation)
    (hseed : seed₁.Spec = seed₂.Spec) (hreg : reg₁.Spec = reg₂.Spec)
    (hdep : dep₁.map (fun d => (d.Type_, d.ProviderConfig)) =
      dep₂.map (fun d => (d.Type_, d.ProviderConfig))) :
    (mutate h seed₁ dep₁ reg₁ spec₁ obj₁).2 = (mutate h seed₂ dep₂ reg₂ spec₂ obj₂).2 ∧
    ((mutate h seed₁ dep₁ reg₁ spec₁ obj₁).2 = none →
      ∃ seedMap regMap,
        convertObjToMap h (.seedSpec seed₁.Spec) = .ok seedMap ∧
        convertObjToMap h (.registrationSpec reg₁.Spec) = .ok regMap ∧
        (mutate h seed₁ dep₁ reg₁ spec₁ obj₁).1.ObjectMeta.Labels.get? SeedSpecHash =
          some (first16 (h.HashForMap seedMap)) ∧
        (mutate h seed₂ dep₂ reg₂ spec₂ obj₂).1.ObjectMeta.Labels.get? SeedSpecHash =
          some (first16 (h.HashForMap seedMap)) ∧
        (mutate h seed₁ dep₁ reg₁ spec₁ obj₁).1.ObjectMeta.Labels.get? RegistrationSpecHash =
          some (first16 (h.HashForMap regMap)) ∧
        (mutate h seed₂ dep₂ reg₂ spec₂ obj₂).1.ObjectMeta.Labels.get? RegistrationSpecHash =
          some (first16 (h.HashForMap regMap)) ∧
        ∀ d, dep₁ = some d →
          ∃ depMap, convertObjToMap h (.hashFields d.Type_ d.ProviderConfig) = .ok depMap ∧
            (mutate h seed₁ dep₁ reg₁ spec₁ obj₁).1.ObjectMeta.Labels.get?
              ControllerDeploymentHash = some (first16 (h.HashForMap depMap)) ∧
            (mutate h seed₂ dep₂ reg₂ spec₂ obj₂).1.ObjectMeta.Labels.get?
              ControllerDeploymentHash = some (first16 (h.HashForMap depMap))) ∧
    (dep₁ = none →
      (mutate h seed₁ dep₁ reg₁ spec₁ obj₁).1.ObjectMeta.Labels.get? ControllerDeploymentHash =
        obj₁.ObjectMeta.Labels.get? ControllerDeploymentHash ∧
      (mutate h seed₂ dep₂ reg₂ spec₂ obj₂).1.ObjectMeta.Labels.get? ControllerDeploymentHash =
        obj₂.ObjectMeta.Labels.get? ControllerDeploymentHash) ∧
    (∀ st existing, ∀ call ∈ (deployNeededInstallation c h st seed₁ dep₁ reg₁ existing).2.2,
      ∀ obj, call.written = some obj →
        ∃ base, obj = (mutate h seed₁ dep₁ reg₁ (installationSpecOf seed₁ dep₁ reg₁) base).1) := by
  have hk1 : ¬ SeedSpecHash = RegistrationSpecHash := by decide
  have hk2 : ¬ RegistrationSpecHash = SeedSpecHash := by decide
  have hk3 : ¬ ControllerDeploymentHash = SeedSpecHash := by decide
  have hk4 : ¬ ControllerDeploymentHash = RegistrationSpecHash := by decide
  have hk5 : ¬ SeedSpecHash = ControllerDeploymentHash := by decide
  have hk6 : ¬ RegistrationSpecHash = ControllerDeploymentHash := by decide
  refine ⟨?_, ?_, ?_, fun st existing =>
    deployNeededInstallation_written c h st seed₁ dep₁ reg₁ existing⟩
  · cases hs : convertObjToMap h (.seedSpec seed₂.Spec) with
    | error err => simp [mutate, hseed, hs]
    | ok seedMap =>
      cases hr : convertObjToMap h (.registrationSpec reg₂.Spec) with
      | error err => simp [mutate, hseed, hreg, hs, hr]
      | ok regMap =>
        cases dep₁ with
        | none =>
          cases dep₂ with
          | none => simp [mutate, hseed, hreg, hs, hr]
          | some d₂ => simp at hdep
        | some d₁ =>
          cases dep₂ with
          | none => simp at hdep
          | some d₂ =>
            simp only [Option.map_some', Option.some.injEq, Prod.mk.injEq] at hdep
            cases hd : convertObjToMap h (.hashFields d₂.Type_ d₂.ProviderConfig) with
            | error err => simp [mutate, hseed, hreg, hdep.1, hdep.2, hs, hr, hd]
            | ok depMap => simp [mutate, hseed, hreg, hdep.1, hdep.2, hs, hr, hd]
  · cases hs : convertObjToMap h (.seedSpec seed₂.Spec) with
    | error err => simp [mutate, hseed, hs]
    | ok seedMap =>
      cases hr : convertObjToMap h (.registrationSpec reg₂.Spec) with
      | error err => simp [mutate, hseed, hreg, hs, hr]
      | ok regMap =>
        cases dep₁ with
        | none =>
          cases dep₂ with
          | none =>
            simp [mutate, hseed, hreg, hs, hr, SetMetaDataLabel, GoMap.get?_set, hk1, hk2]
          | some d₂ => simp at hdep
        | some d₁ =>
          cases dep₂ with
          | none => simp at hdep
          | some d₂ =>
            simp only [Option.map_some', Option.some.injEq, Prod.mk.injEq] at hdep
            cases hd : convertObjToMap h (.hashFields d₂.Type_ d₂.ProviderConfig) with
            | error err => simp [mutate, hseed, hreg, hdep.1, hdep.2, hs, hr, hd]
            | ok depMap =>
              simp [mutate, hseed, hreg, hdep.1, hdep.2, hs, hr, hd, SetMetaDataLabel,
                GoMap.get?_set, hk1, hk2, hk3, hk4]
  · intro hnone
    subst hnone
    cases dep₂ with
    | some d₂ => simp at hdep
    | none =>
      cases hs : convertObjToMap h (.seedSpec seed₂.Spec) with
      | error err => simp [mutate, hseed, hs]
      | ok seedMap =>
        cases hr : convertObjToMap h (.registrationSpec reg₂.Spec) with
        | error err =>
          simp [mutate, hseed, hreg, hs, hr, SetMetaDataLabel, GoMap.get?_set, hk5]
        | ok regMap =>
          simp [mutate, hseed, hreg, hs, hr, SetMetaDataLabel, GoMap.get?_set, hk5, hk6]

theorem hash_labels_from_specs_witness :
    seedObjDNS.Spec =
      ({ ObjectMeta := { Name := "renamed", ResourceVersion := "42" }
         Spec := seedObjDNS.Spec } : Seed).Spec ∧
    (mutate exampleHash seedObjDNS (some extDeployment) regExt {} {}).1.ObjectMeta.Labels =
      [("seed-spec-hash", "seed:route53:000"), ("registration-spec-hash", "registration:Ext"),
        ("deployment-hash", "deployment:helm:")] ∧
    (mutate exampleHash seedObjDNS (some extDeployment) regExt {} {}).2 =
      (mutate exampleHash
        { ObjectMeta := { Name := "renamed", ResourceVersion := "42" }, Spec := seedObjDNS.Spec }
        (some { ObjectMeta := { Name := "ext-copy", ResourceVersion := "8" }
                Type_ := "helm", ProviderConfig := "chart" })
        { ObjectMeta := { Name := "ext-copy", ResourceVersion := "9" }, Spec := regExt.Spec }
        { SeedRef := { Name := "renamed" } }
        (installationOn "ext-4hq9z" "ext" true)).2 ∧
    (mutate exampleHash
      { ObjectMeta := { Name := "renamed", ResourceVersion := "42" }, Spec := seedObjDNS.Spec }
      (some { ObjectMeta := { Name := "ext-copy", ResourceVersion := "8" }
              Type_ := "helm", ProviderConfig := "chart" })
      { ObjectMeta := { Name := "ext-copy", ResourceVersion := "9" }, Spec := regExt.Spec }
      { SeedRef := { Name := "renamed" } }
      (installationOn "ext-4hq9z" "ext" true)).1.ObjectMeta.Labels =
      [("seed-spec-hash", "seed:route53:000"), ("registration-spec-hash", "registration:Ext"),
        ("deployment-hash", "deployment:helm:")] :=
  ⟨rfl, by decide,
    (hash_labels_from_specs storeClient exampleHash seedObjDNS
      { ObjectMeta := { Name := "renamed", ResourceVersion := "42" }, Spec := seedObjDNS.Spec }
      regExt
      { ObjectMeta := { Name := "ext-copy", ResourceVersion := "9" }, Spec := regExt.Spec }
      (some extDeployment)
      (some { ObjectMeta := { Name := "ext-copy", ResourceVersion := "8" }
              Type_ := "helm", ProviderConfig := "chart" })
      {} { SeedRef := { Name := "renamed" } } {}
      (installationOn "ext-4hq9z" "ext" true) rfl rfl rfl).1,
    by decide⟩

/-! ## Create and update -/

/-- C27, as stated, fails: when the serialization fails, `mutate` returns before it sets the
spec, the create path ignores that error, and `deployNeededInstallation` creates an
installation whose `SeedRef.Name` and `RegistrationRef.Name` are empty, and returns no error. -/
theorem create_without_spec_counterexample :
    deployNeededInstallation storeClient (failingHash (fun _ => true)) [] seedObjEU none regDNS
      none =
      (none,
        [{ ObjectMeta := { Name := "dns-00001", GenerateName := "dns-" } }],
        [.create { ObjectMeta := { GenerateName := "dns-" } }]) ∧
    ({ ObjectMeta := { GenerateName := "dns-" } } : ControllerInstallation).Spec.SeedRef.Name ≠
      seedObjEU.ObjectMeta.Name ∧
    ({ ObjectMeta := { GenerateName := "dns-" } } :
      ControllerInstallation).Spec.RegistrationRef.Name ≠ regDNS.ObjectMeta.Name := by
  refine ⟨by decide, by decide, by decide⟩

/-- C27, amended: create versus update, when the serialization succeeds.  Without an existing
installation, `deployNeededInstallation` issues exactly one call, the create of an installation
with an empty name, with `GenerateName` equal to the name of the registration followed by `-`,
and with the installation spec, which names the seed and the registration in `SeedRef.Name` and
`RegistrationRef.Name`; it returns the error of that create and leaves the store as the create
does.  With an existing installation that the store returns, it issues no create: it reads the
object bearing the name of the existing installation and patches it, with the same spec and the
same hash labels as the created object (the deployment label is set when a deployment is
referenced), and it returns the error of that patch and leaves the store as the patch does. -/
theorem create_versus_update {σ M : Type} (c : Client σ) (h : HashFunctions M) (st : σ)
    (seed : Seed) (d : Option ControllerDeployment) (reg : ControllerRegistration)
    (hjson : ∀ input, ∃ out, convertObjToMap h input = .ok out) :
    ∃ created,
      deployNeededInstallation c h st seed d reg none =
        ((c.Create st created).1, (c.Create st created).2, [.create created]) ∧
      created.ObjectMeta.Name = "" ∧
      created.ObjectMeta.GenerateName = reg.ObjectMeta.Name ++ "-" ∧
      created.Spec = installationSpecOf seed d reg ∧
      created.Spec.SeedRef.Name = seed.ObjectMeta.Name ∧
      created.Spec.RegistrationRef.Name = reg.ObjectMeta.Name ∧
      ∀ existing current st₁,
        c.GetControllerInstallation st existing.ObjectMeta.Name = (.ok current, st₁) →
        ∃ patched,
          deployNeededInstallation c h st seed d reg (some existing) =
            ((c.Patch st₁ patched current).1, (c.Patch st₁ patched current).2,
              [.getControllerInstallation existing.ObjectMeta.Name, .patch patched current]) ∧
          patched.ObjectMeta.Name = current.ObjectMeta.Name ∧
          patched.Status = current.Status ∧
          patched.Spec = created.Spec ∧
          patched.ObjectMeta.Labels.get? SeedSpecHash =
            created.ObjectMeta.Labels.get? SeedSpecHash ∧
          patched.ObjectMeta.Labels.get? RegistrationSpecHash =
            created.ObjectMeta.Labels.get? RegistrationSpecHash ∧
          (d ≠ none → patched.ObjectMeta.Labels.get? ControllerDeploymentHash =
            created.ObjectMeta.Labels.get? ControllerDeploymentHash) := by
  obtain ⟨_, hspec, _, hname, hgen, _, ⟨seedMap, hs, hl1⟩, ⟨regMap, hr, hl2⟩, hl3⟩ :=
    mutate_of_json h seed d reg (installationSpecOf seed d reg)
      { ObjectMeta := { GenerateName := reg.ObjectMeta.Name ++ "-" } } hjson
  refine ⟨(mutate h seed d reg (installationSpecOf seed d reg)
    { ObjectMeta := { GenerateName := reg.ObjectMeta.Name ++ "-" } }).1, rfl, hname, hgen,
    hspec, by rw [hspec]; rfl, by rw [hspec]; rfl, ?_⟩
  intro existing current st₁ hget
  obtain ⟨hnone, hspec2, hstatus2, hname2, _, _, ⟨seedMap2, hs2, hm1⟩, ⟨regMap2, hr2, hm2⟩, hm3⟩ :=
    mutate_of_json h seed d reg (installationSpecOf seed d reg) current hjson
  refine ⟨(mutate h seed d reg (installationSpecOf seed d reg) current).1, ?_, hname2, hstatus2,
    by rw [hspec2, hspec], ?_, ?_, ?_⟩
  · simp only [deployNeededInstallation, GetAndCreateOrMergePatch, hget]
    rcases hmut : mutate h seed d reg (installationSpecOf seed d reg) current with ⟨o, e⟩
    rw [hmut] at hnone
    simp only at hnone
    subst hnone
    simp only [installationSpecOf] at hmut
    simp only [hmut]
  · rw [hs] at hs2
    cases hs2
    rw [hm1, hl1]
  · rw [hr] at hr2
    cases hr2
    rw [hm2, hl2]
  · intro hd
    cases d with
    | none => exact absurd rfl hd
    | some dd =>
      obtain ⟨depMap, hdm, hx⟩ := hl3 dd rfl
      obtain ⟨depMap2, hdm2, hy⟩ := hm3 dd rfl
      rw [hdm] at hdm2
      cases hdm2
      rw [hx, hy]

theorem create_versus_update_witness :
    deployNeededInstallation storeClient exampleHash [] seedObjEU none regDNS none =
      (none,
        [{ ObjectMeta := { Name := "dns-00001", GenerateName := "dns-"
                           Labels := [("seed-spec-hash", "seed::0000000000"),
                             ("registration-spec-hash", "registration:DNS")] }
           Spec := { SeedRef := { Name := "seed-eu" }, RegistrationRef := { Name := "dns" } } }],
        [.create
          { ObjectMeta := { GenerateName := "dns-"
                            Labels := [("seed-spec-hash", "seed::0000000000"),
                              ("registration-spec-hash", "registration:DNS")] }
            Spec := { SeedRef := { Name := "seed-eu" }
                      RegistrationRef := { Name := "dns" } } }]) ∧
    ∃ created,
      deployNeededInstallation storeClient exampleHash [] seedObjEU none regDNS none =
        ((storeClient.Create [] created).1, (storeClient.Create [] created).2,
          [.create created]) ∧
      created.ObjectMeta.Name = "" ∧
      created.ObjectMeta.GenerateName = regDNS.ObjectMeta.Name ++ "-" :=
  ⟨by decide,
    (create_versus_update storeClient exampleHash [] seedObjEU none regDNS
      (by
        intro input
        cases input <;> exact ⟨_, rfl⟩)).imp
      (fun _ hc => ⟨hc.1, hc.2.1, hc.2.2.1⟩)⟩

/-! ## The first deployment reference -/

theorem deployNeededInstallation_no_fetch {σ M : Type} (c : Client σ) (h : HashFunctions M)
    (st : σ) (seed : Seed) (d : Option ControllerDeployment) (reg : ControllerRegistration)
    (existing : Option ControllerInstallation) :
    ∀ call ∈ (deployNeededInstallation c h st seed d reg existing).2.2,
      ∀ name, call ≠ .getControllerDeployment name := by
  intro call hcall name heq
  subst heq
  cases existing with
  | none => simp [deployNeededInstallation] at hcall
  | some e =>
    simp only [deployNeededInstallation, GetAndCreateOrMergePatch] at hcall
    rcases hg : c.GetControllerInstallation st e.ObjectMeta.Name with ⟨r, st₁⟩
    rw [hg] at hcall
    cases r with
    | error err =>
      by_cases hnf : IsNotFound err = true
      · simp only [hnf, if_true] at hcall
        split at hcall <;> simp at hcall
      · simp [hnf] at hcall
    | ok current =>
      simp only at hcall
      split at hcall <;> simp at hcall

/-- C22, as stated, fails: with a serialization that fails on the spec of the registration
`regExt`, which has two deployment references, the deploy phase fetches `ext-deployment` for
`regExt` and for `regExtFirst` alike and returns no error for either, but the installation it
creates for `regExt` has no deployment reference and no deployment hash label (the create path
ignores the error of `mutate`), while the one it creates for `regExtFirst` has both. -/
theorem deployment_reference_counterexample :
    (deployNeededInstallations clusterClient
      (failingHash (fun input => decide (input = .registrationSpec regExt.Spec)))
      { deployments := [extDeployment] } seedObjEU ["ext"]
      (computeControllerRegistrationMaps [regExt]) []).outcome = .returned none ∧
    (deployNeededInstallations clusterClient
      (failingHash (fun input => decide (input = .registrationSpec regExt.Spec)))
      { deployments := [extDeployment] } seedObjEU ["ext"]
      (computeControllerRegistrationMaps [regExt]) []).calls.map
      (fun ic => (ic.call.isCreate, ic.call.written.map (fun obj =>
        (obj.Spec.DeploymentRef.map (fun r => r.Name),
          obj.ObjectMeta.Labels.get? ControllerDeploymentHash)))) =
      [(false, none), (true, some (none, none))] ∧
    (deployNeededInstallations clusterClient
      (failingHash (fun input => decide (input = .registrationSpec regExt.Spec)))
      { deployments := [extDeployment] } seedObjEU ["ext"]
      (computeControllerRegistrationMaps [regExtFirst]) []).outcome = .returned none ∧
    (deployNeededInstallations clusterClient
      (failingHash (fun input => decide (input = .registrationSpec regExt.Spec)))
      { deployments := [extDeployment] } seedObjEU ["ext"]
      (computeControllerRegistrationMaps [regExtFirst]) []).calls.map
      (fun ic => (ic.call.isCreate, ic.call.written.map (fun obj =>
        (obj.Spec.DeploymentRef.map (fun r => r.Name),
          obj.ObjectMeta.Labels.get? ControllerDeploymentHash)))) =
      [(false, none), (true, some (some "ext-deployment", some "deployment:helm:"))] := by
  refine ⟨by decide, by decide, by decide, by decide⟩

/-- C22, amended: only the first deployment reference is honored, and when the serialization
succeeds the installation written carries the fetched deployment.  In the iteration of the
deploy loop for a wanted name `a`, for every registration under that name that is not being
deleted and whose first deployment reference is `ref`, whatever references follow it: the loop
issues one fetch, of the ControllerDeployment named `ref.Name`; if the fetch fails the loop
ends with that error, wrapped; if it returns the deployment `d` the loop continues as
`deployNeededInstallation` with `d` does, whose calls are no fetches, and every installation it
writes carries the reference to `d` and the hash label of the type and provider configuration
of `d`, one being written whenever it returns no error.  For a registration without
deployment reference the loop issues no fetch and the installation written has no deployment
reference. -/
theorem first_deployment_reference_only {σ M : Type} (c : Client σ) (h : HashFunctions M)
    (seed : Seed) (m : GoMap ControllerInstallation) (a : String) (rest : List String)
    (st : σ) (calls : List IssuedCall) (ref : DeploymentRef)
    (hjson : ∀ input, ∃ out, convertObjToMap h input = .ok out) :
    (∀ (regs : GoMap controllerRegistration) (cr : controllerRegistration)
        (dep : ControllerRegistrationDeployment) (others : List DeploymentRef),
      regs.get? a = some cr → cr.obj.ObjectMeta.DeletionTimestamp = none →
      cr.obj.Spec.Deployment = some dep → dep.DeploymentRefs = ref :: others →
      (∀ err st₁, c.GetControllerDeployment st ref.Name = (.error err, st₁) →
        deployLoop c h seed regs m (a :: rest) st calls =
          { outcome := .returned (some (.wrapf
              "cannot deploy ControllerInstallation because the referenced ControllerDeployment cannot be retrieved: %w"
              [] err))
            state := st₁
            calls := calls ++ [⟨a, .getControllerDeployment ref.Name⟩] }) ∧
      (∀ d st₁, c.GetControllerDeployment st ref.Name = (.ok d, st₁) →
        (((m.get? a).bind (fun i => i.ObjectMeta.DeletionTimestamp)).isSome = true →
          deployLoop c h seed regs m (a :: rest) st calls =
            { outcome := .returned (some (.errorf
                "cannot deploy new ControllerInstallation for %q because the deletion of the old ControllerInstallation is still pending"
                [.str a]))
              state := st₁
              calls := calls ++ [⟨a, .getControllerDeployment ref.Name⟩] }) ∧
        (((m.get? a).bind (fun i => i.ObjectMeta.DeletionTimestamp)).isSome = false →
          (∀ err st₂ issued,
            deployNeededInstallation c h st₁ seed (some d) cr.obj (m.get? a) =
              (some err, st₂, issued) →
            deployLoop c h seed regs m (a :: rest) st calls =
              { outcome := .returned (some err)
                state := st₂
                calls := calls ++ [⟨a, .getControllerDeployment ref.Name⟩] ++
                  issued.map (IssuedCall.mk a) }) ∧
          (∀ st₂ issued,
            deployNeededInstallation c h st₁ seed (some d) cr.obj (m.get? a) =
              (none, st₂, issued) →
            deployLoop c h seed regs m (a :: rest) st calls =
              deployLoop c h seed regs m rest st₂
                (calls ++ [⟨a, .getControllerDeployment ref.Name⟩] ++
                  issued.map (IssuedCall.mk a)))) ∧
        (∀ call ∈ (deployNeededInstallation c h st₁ seed (some d) cr.obj (m.get? a)).2.2,
          (∀ name, call ≠ .getControllerDeployment name) ∧
          ∀ obj, call.written = some obj →
            obj.Spec.DeploymentRef =
              some { Name := d.ObjectMeta.Name
                     ResourceVersion := d.ObjectMeta.ResourceVersion } ∧
            ∃ depMap, convertObjToMap h (.hashFields d.Type_ d.ProviderConfig) = .ok depMap ∧
              obj.ObjectMeta.Labels.get? ControllerDeploymentHash =
                some (first16 (h.HashForMap depMap))) ∧
        ((deployNeededInstallation c h st₁ seed (some d) cr.obj (m.get? a)).1 = none →
          ∃ call ∈ (deployNeededInstallation c h st₁ seed (some d) cr.obj (m.get? a)).2.2,
            ∃ obj, call.written = some obj))) ∧
    (∀ (regs : GoMap controllerRegistration) (cr : controllerRegistration),
      regs.get? a = some cr → cr.obj.ObjectMeta.DeletionTimestamp = none →
      (cr.obj.Spec.Deployment = none ∨
        ∃ dep, cr.obj.Spec.Deployment = some dep ∧ dep.DeploymentRefs = []) →
      ((m.get? a).bind (fun i => i.ObjectMeta.DeletionTimestamp)).isSome = false →
      (∀ err st₂ issued,
        deployNeededInstallation c h st seed none cr.obj (m.get? a) = (some err, st₂, issued) →
        deployLoop c h seed regs m (a :: rest) st calls =
          { outcome := .returned (some err)
            state := st₂
            calls := calls ++ issued.map (IssuedCall.mk a) }) ∧
      (∀ st₂ issued,
        deployNeededInstallation c h st seed none cr.obj (m.get? a) = (none, st₂, issued) →
        deployLoop c h seed regs m (a :: rest) st calls =
          deployLoop c h seed regs m rest st₂ (calls ++ issued.map (IssuedCall.mk a))) ∧
      (∀ call ∈ (deployNeededInstallation c h st seed none cr.obj (m.get? a)).2.2,
        (∀ name, call ≠ .getControllerDeployment name) ∧
        ∀ obj, call.written = some obj → obj.Spec.DeploymentRef = none)) := by
  refine ⟨?_, ?_⟩
  · intro regs cr dep others hget hdel hdep hrefs
    refine ⟨?_, ?_⟩
    · intro err st₁ hg
      have hf : fetchControllerDeployment c st cr.obj =
          (.error err, st₁, [.getControllerDeployment ref.Name]) := by
        simp only [fetchControllerDeployment, hdep, hrefs, hg]
      exact deployLoop_fetch_error c h seed regs m a rest st st₁ calls cr err _ hget hdel hf
    · intro d st₁ hg
      have hf : fetchControllerDeployment c st cr.obj =
          (.ok (some d), st₁, [.getControllerDeployment ref.Name]) := by
        simp only [fetchControllerDeployment, hdep, hrefs, hg]
      refine ⟨?_, ?_, ?_, ?_⟩
      · intro hp
        exact deployLoop_pending c h seed regs m a rest st st₁ calls cr (some d) _ hget hdel hf
          hp
      · intro hp
        refine ⟨?_, ?_⟩
        · intro err st₂ issued hd
          exact deployLoop_deploy_error c h seed regs m a rest st st₁ st₂ calls cr (some d) _
            issued err hget hdel hf hp hd
        · intro st₂ issued hd
          exact deployLoop_deploy_ok c h seed regs m a rest st st₁ st₂ calls cr (some d) _
            issued hget hdel hf hp hd
      · intro call hcall
        refine ⟨deployNeededInstallation_no_fetch c h st₁ seed (some d) cr.obj (m.get? a) call
          hcall, ?_⟩
        intro obj hobj
        obtain ⟨base, hbase⟩ := deployNeededInstallation_written c h st₁ seed (some d) cr.obj
          (m.get? a) call hcall obj hobj
        obtain ⟨_, hspec, _, _, _, _, _, _, hlabel⟩ := mutate_of_json h seed (some d) cr.obj
          (installationSpecOf seed (some d) cr.obj) base hjson
        rw [hbase]
        refine ⟨?_, hlabel d rfl⟩
        rw [hspec]
        rfl
      · intro hnone
        obtain ⟨call, hcall, hwrite⟩ := deployNeededInstallation_write c h st₁ seed (some d)
          cr.obj (m.get? a) hnone
        refine ⟨call, hcall, ?_⟩
        cases call with
        | getControllerDeployment n => simp [ClientCall.isCreate, ClientCall.isPatch] at hwrite
        | getControllerInstallation n => simp [ClientCall.isCreate, ClientCall.isPatch] at hwrite
        | create obj => exact ⟨obj, rfl⟩
        | patch obj base => exact ⟨obj, rfl⟩
  · intro regs cr hget hdel hnoref hp
    have hf : fetchControllerDeployment c st cr.obj = (.ok none, st, []) := by
      rcases hnoref with h1 | ⟨dep, h1, h2⟩
      · simp only [fetchControllerDeployment, h1]
      · simp only [fetchControllerDeployment, h1, h2]
    refine ⟨?_, ?_, ?_⟩
    · intro err st₂ issued hd
      have := deployLoop_deploy_error c h seed regs m a rest st st st₂ calls cr none []
        issued err hget hdel hf hp hd
      simpa using this
    · intro st₂ issued hd
      have := deployLoop_deploy_ok c h seed regs m a rest st st st₂ calls cr none []
        issued hget hdel hf hp hd
      simpa using this
    · intro call hcall
      refine ⟨deployNeededInstallation_no_fetch c h st seed none cr.obj (m.get? a) call hcall,
        ?_⟩
      intro obj hobj
      obtain ⟨base, hbase⟩ := deployNeededInstallation_written c h st seed none cr.obj
        (m.get? a) call hcall obj hobj
      obtain ⟨_, hspec, _⟩ := mutate_of_json h seed none cr.obj
        (installationSpecOf seed none cr.obj) base hjson
      rw [hbase, hspec]
      rfl

theorem first_deployment_reference_only_witness :
    (computeControllerRegistrationMaps [regExt]).get? "ext" =
      some { obj := regExt, deployAlways := false, deployAlwaysExceptNoShoots := false } ∧
    clusterClient.GetControllerDeployment clusterExt "ext-deployment" =
      (.ok extDeployment, clusterExt) ∧
    (deployNeededInstallation clusterClient exampleHash clusterExt seedObjEU
      (some extDeployment) regExt none).2.2.map
      (fun call => call.written.map (fun obj => obj.Spec.DeploymentRef)) =
      [some (some { Name := "ext-deployment", ResourceVersion := "3" })] ∧
    (deployNeededInstallation clusterClient exampleHash clusterExt seedObjEU
      (some extDeployment) regExtFirst none).2.2.map
      (fun call => call.written.map (fun obj => obj.Spec.DeploymentRef)) =
      [some (some { Name := "ext-deployment", ResourceVersion := "3" })] ∧
    deployLoop clusterClient exampleHash seedObjEU (computeControllerRegistrationMaps [regExt])
      [] ["ext"] clusterExt [] =
      deployLoop clusterClient exampleHash seedObjEU
        (computeControllerRegistrationMaps [regExt]) [] []
        (deployNeededInstallation clusterClient exampleHash clusterExt seedObjEU
          (some extDeployment) regExt none).2.1
        ([] ++ [⟨"ext", .getControllerDeployment "ext-deployment"⟩] ++
          (deployNeededInstallation clusterClient exampleHash clusterExt seedObjEU
            (some extDeployment) regExt none).2.2.map (IssuedCall.mk "ext")) :=
  ⟨by decide, by decide, by decide, by decide,
    ((((first_deployment_reference_only clusterClient exampleHash seedObjEU [] "ext" []
      clusterExt [] { Name := "ext-deployment" }
      (by
        intro input
        cases input <;> exact ⟨_, rfl⟩)).1
      (computeControllerRegistrationMaps [regExt])
      { obj := regExt, deployAlways := false, deployAlwaysExceptNoShoots := false }
      { DeploymentRefs := [{ Name := "ext-deployment" }, { Name := "ext-extra" }] }
      [{ Name := "ext-extra" }] (by decide) rfl rfl rfl).2 extDeployment clusterExt
      (by decide)).2.1 (by decide)).2 _ _ (by decide)⟩

/-! ## Idempotence of the reconcile cycle -/

theorem GoMap.set_of_get? {V : Type} (m : GoMap V) (k : String) (v : V)
    (h : m.get? k = some v) : m.set k v = m := by
  induction m with
  | nil => simp [GoMap.get?] at h
  | cons e rest ih =>
    obtain ⟨k1, w⟩ := e
    by_cases h1 : k1 = k
    · simp only [GoMap.get?, h1, if_true, Option.some.injEq] at h
      simp [GoMap.set, h1, h]
    · simp only [GoMap.get?, h1, if_false] at h
      simp [GoMap.set, h1, ih h]

theorem uniqueNames_eq (l : List ControllerInstallation) (hu : uniqueNames l)
    (i j : ControllerInstallation) (hi : i ∈ l) (hj : j ∈ l)
    (hn : i.ObjectMeta.Name = j.ObjectMeta.Name) : i = j :=
  List.inj_on_of_nodup_map hu hi hj hn

theorem find_of_uniqueNames (l : List ControllerInstallation) (hu : uniqueNames l)
    (e : ControllerInstallation) (he : e ∈ l) :
    l.find? (fun i => i.ObjectMeta.Name == e.ObjectMeta.Name) = some e := by
  cases hf : l.find? (fun i => i.ObjectMeta.Name == e.ObjectMeta.Name) with
  | none =>
    rw [List.find?_eq_none] at hf
    have := hf e he
    simp at this
  | some x =>
    have hx := List.find?_some hf
    have hmem := List.mem_of_find?_eq_some hf
    simp only [beq_iff_eq] at hx
    rw [uniqueNames_eq l hu x e hmem he hx]

theorem any_name_iff (l : List ControllerInstallation) (n : String) :
    l.any (fun i => i.ObjectMeta.Name == n) = true ↔ ∃ i ∈ l, i.ObjectMeta.Name = n := by
  simp [List.any_eq_true]

theorem mutate_rename {M : Type} (h : HashFunctions M) (seed : Seed)
    (d : Option ControllerDeployment) (reg : ControllerRegistration)
    (spec : ControllerInstallationSpec) (x : ControllerInstallation) (n : String) :
    mutate h seed d reg spec { x with ObjectMeta := { x.ObjectMeta with Name := n } } =
      ({ (mutate h seed d reg spec x).1 with
          ObjectMeta := { (mutate h seed d reg spec x).1.ObjectMeta with Name := n } },
        (mutate h seed d reg spec x).2) := by
  cases hs : convertObjToMap h (.seedSpec seed.Spec) with
  | error err => simp only [mutate, hs]
  | ok seedMap =>
    cases hr : convertObjToMap h (.registrationSpec reg.Spec) with
    | error err => simp only [mutate, hs, hr, SetMetaDataLabel]
    | ok regMap =>
      cases d with
      | none => simp only [mutate, hs, hr, SetMetaDataLabel]
      | some dd =>
        cases hd : convertObjToMap h (.hashFields dd.Type_ dd.ProviderConfig) with
        | error err => simp only [mutate, hs, hr, hd, SetMetaDataLabel]
        | ok depMap => simp only [mutate, hs, hr, hd, SetMetaDataLabel]

theorem labels_fix (l : GoMap String) (v₁ v₂ v₃ : String) :
    ((((((l.set SeedSpecHash v₁).set RegistrationSpecHash v₂).set ControllerDeploymentHash
      v₃).set SeedSpecHash v₁).set RegistrationSpecHash v₂).set ControllerDeploymentHash v₃) =
      ((l.set SeedSpecHash v₁).set RegistrationSpecHash v₂).set ControllerDeploymentHash v₃ := by
  have h12 : RegistrationSpecHash ≠ SeedSpecHash := by decide
  have h13 : ControllerDeploymentHash ≠ SeedSpecHash := by decide
  have h23 : ControllerDeploymentHash ≠ RegistrationSpecHash := by decide
  rw [GoMap.set_of_get? _ SeedSpecHash v₁ (by simp [GoMap.get?_set, h12, h13]),
    GoMap.set_of_get? _ RegistrationSpecHash v₂ (by simp [GoMap.get?_set, h23]),
    GoMap.set_of_get? _ ControllerDeploymentHash v₃ (by simp [GoMap.get?_set])]

theorem labels_fix₂ (l : GoMap String) (v₁ v₂ : String) :
    ((((l.set SeedSpecHash v₁).set RegistrationSpecHash v₂).set SeedSpecHash v₁).set
      RegistrationSpecHash v₂) = (l.set SeedSpecHash v₁).set RegistrationSpecHash v₂ := by
  have h12 : RegistrationSpecHash ≠ SeedSpecHash := by decide
  rw [GoMap.set_of_get? _ SeedSpecHash v₁ (by simp [GoMap.get?_set, h12]),
    GoMap.set_of_get? _ RegistrationSpecHash v₂ (by simp [GoMap.get?_set])]

/-- Applying `mutate` to its own result changes nothing. -/
theorem mutate_fix {M : Type} (h : HashFunctions M) (seed : Seed)
    (d : Option ControllerDeployment) (reg : ControllerRegistration)
    (spec : ControllerInstallationSpec) (x : ControllerInstallation)
    (hjson : ∀ input, ∃ out, convertObjToMap h input = .ok out) :
    mutate h seed d reg spec (mutate h seed d reg spec x).1 =
      ((mutate h seed d reg spec x).1, none) := by
  obtain ⟨seedMap, hs⟩ := hjson (.seedSpec seed.Spec)
  obtain ⟨regMap, hr⟩ := hjson (.registrationSpec reg.Spec)
  cases d with
  | none =>
    simp only [mutate, hs, hr, SetMetaDataLabel, labels_fix₂]
  | some dd =>
    obtain ⟨depMap, hd⟩ := hjson (.hashFields dd.Type_ dd.ProviderConfig)
    simp only [mutate, hs, hr, hd, SetMetaDataLabel, labels_fix]

/-- On the cluster store a fetch leaves the store as it is, issues no create, and its result
depends on the controller deployments only. -/
theorem fetch_cluster (finalizers : String → Bool) (now : Time) (st : Cluster)
    (reg : ControllerRegistration) :
    (fetchControllerDeployment (finalizerClient finalizers now) st reg).2.1 = st ∧
    (∀ call ∈ (fetchControllerDeployment (finalizerClient finalizers now) st reg).2.2,
      call.isCreate = false) ∧
    ∀ st₁ : Cluster, st₁.deployments = st.deployments →
      (fetchControllerDeployment (finalizerClient finalizers now) st₁ reg).1 =
        (fetchControllerDeployment (finalizerClient finalizers now) st reg).1 := by
  cases hdep : reg.Spec.Deployment with
  | none =>
    simp [fetchControllerDeployment, hdep]
  | some dep =>
    cases hrefs : dep.DeploymentRefs with
    | nil => simp [fetchControllerDeployment, hdep, hrefs]
    | cons ref rest =>
      refine ⟨?_, ?_, ?_⟩
      · simp only [fetchControllerDeployment, hdep, hrefs, finalizerClient]
        cases st.deployments.find? (fun d => d.ObjectMeta.Name == ref.Name) <;> rfl
      · simp only [fetchControllerDeployment, hdep, hrefs, finalizerClient]
        cases st.deployments.find? (fun d => d.ObjectMeta.Name == ref.Name) <;>
          simp [ClientCall.isCreate]
      · intro st₁ hst
        simp only [fetchControllerDeployment, hdep, hrefs, finalizerClient, hst]
        cases st.deployments.find? (fun d => d.ObjectMeta.Name == ref.Name) <;> rfl

/-- A successful create on the cluster store: the store gains one installation, of a name that
was free, with the installation spec, no status, no deletion timestamp, and which `mutate`
leaves as it is. -/
theorem deployCluster_create {M : Type} (finalizers : String → Bool) (now : Time)
    (h : HashFunctions M) (st : Cluster) (seed : Seed)
    (d : Option ControllerDeployment) (reg : ControllerRegistration)
    (hjson : ∀ input, ∃ out, convertObjToMap h input = .ok out)
    (hok : (deployNeededInstallation (finalizerClient finalizers now) h st seed d reg
      none).1 = none) :
    ∃ obj, (∀ i ∈ st.installations, i.ObjectMeta.Name ≠ obj.ObjectMeta.Name) ∧
      (deployNeededInstallation (finalizerClient finalizers now) h st seed d reg none).2.1 =
        { st with installations := st.installations ++ [obj] } ∧
      obj.Spec = installationSpecOf seed d reg ∧
      IsControllerInstallationRequired obj = false ∧
      obj.ObjectMeta.DeletionTimestamp = none ∧
      mutate h seed d reg (installationSpecOf seed d reg) obj = (obj, none) := by
  obtain ⟨_, hspec, hstatus, _, _, hdel, _⟩ := mutate_of_json h seed d reg
    (installationSpecOf seed d reg)
    { ObjectMeta := { GenerateName := reg.ObjectMeta.Name ++ "-" } } hjson
  have hfix := mutate_fix h seed d reg (installationSpecOf seed d reg)
    { ObjectMeta := { GenerateName := reg.ObjectMeta.Name ++ "-" } } hjson
  generalize hobj : (mutate h seed d reg (installationSpecOf seed d reg)
    { ObjectMeta := { GenerateName := reg.ObjectMeta.Name ++ "-" } }).1 = obj at *
  have hdn : deployNeededInstallation (finalizerClient finalizers now) h st seed d reg none =
      (((finalizerClient finalizers now).Create st obj).1,
        ((finalizerClient finalizers now).Create st obj).2, [.create obj]) := by
    simp only [deployNeededInstallation]
    rw [← hobj]
    rfl
  rw [hdn] at hok ⊢
  generalize hname : generatedName st.installations obj = name at *
  by_cases hany : st.installations.any (fun i => i.ObjectMeta.Name == name) = true
  · simp only [finalizerClient, hname, hany, if_true] at hok
    cases hok
  · refine ⟨{ obj with ObjectMeta := { obj.ObjectMeta with Name := name } }, ?_, ?_, hspec, ?_,
      hdel, ?_⟩
    · intro i hi hn
      exact hany ((any_name_iff _ _).mpr ⟨i, hi, hn⟩)
    · simp only [finalizerClient, hname, hany, Bool.false_eq_true, if_false]
    · simp only [IsControllerInstallationRequired, hstatus]
    · rw [mutate_rename, hfix]

/-- An update on the cluster store of an installation that the store holds: the installation is
read, `mutate` is applied to it, and the result replaces it. -/
theorem deployCluster_patch {M : Type} (finalizers : String → Bool) (now : Time)
    (h : HashFunctions M) (st : Cluster) (seed : Seed)
    (d : Option ControllerDeployment) (reg : ControllerRegistration)
    (e : ControllerInstallation)
    (hjson : ∀ input, ∃ out, convertObjToMap h input = .ok out)
    (hu : uniqueNames st.installations) (he : e ∈ st.installations) :
    deployNeededInstallation (finalizerClient finalizers now) h st seed d reg (some e) =
      (none,
        { st with installations := st.installations.map (fun i =>
            if i.ObjectMeta.Name = e.ObjectMeta.Name then
              (mutate h seed d reg (installationSpecOf seed d reg) e).1
            else i) },
        [.getControllerInstallation e.ObjectMeta.Name,
          .patch (mutate h seed d reg (installationSpecOf seed d reg) e).1 e]) := by
  obtain ⟨hnone, _, _, hname, _⟩ := mutate_of_json h seed d reg
    (installationSpecOf seed d reg) e hjson
  have hfind := find_of_uniqueNames st.installations hu e he
  have hany : st.installations.any (fun i => i.ObjectMeta.Name ==
      (mutate h seed d reg (installationSpecOf seed d reg) e).1.ObjectMeta.Name) = true := by
    rw [hname]
    exact (any_name_iff _ _).mpr ⟨e, he, rfl⟩
  rcases hm : mutate h seed d reg (installationSpecOf seed d reg) e with ⟨obj, merr⟩
  rw [hm] at hnone hany hname
  simp only at hnone hany hname
  subst hnone
  rw [hname] at hany
  have hm1 : mutate h seed d reg
      { SeedRef := { Name := seed.ObjectMeta.Name
                     ResourceVersion := seed.ObjectMeta.ResourceVersion }
        RegistrationRef := { Name := reg.ObjectMeta.Name
                             ResourceVersion := reg.ObjectMeta.ResourceVersion }
        DeploymentRef := d.map (fun d =>
          { Name := d.ObjectMeta.Name, ResourceVersion := d.ObjectMeta.ResourceVersion }) } e =
      (obj, none) := hm
  simp only [deployNeededInstallation, GetAndCreateOrMergePatch, finalizerClient,
    hfind, hm1, hany, if_true, hname]

theorem DeployInv_start {M : Type} (c : Client Cluster) (h : HashFunctions M) (seed : Seed)
    (regs : GoMap controllerRegistration) (cl : Cluster) (hu : uniqueNames cl.installations) :
    DeployInv c h seed regs cl cl [] where
  deployments := rfl
  unique := hu
  kept := fun _ hi _ _ => hi
  pending := fun _ hi _ _ => hi
  settled := fun _ _ _ hd => absurd hd (List.not_mem_nil _)
  present := fun _ hn => absurd hn (List.not_mem_nil _)
  requiredFrom := fun i hi hs hr => ⟨i, hi, hs, rfl, hr⟩
  requiredTo := fun j hj hs => ⟨j, hj, rfl, hs, rfl, rfl⟩

/-- A wanted registration that is being deleted is skipped. -/
theorem DeployInv_skip {M : Type} (c : Client Cluster) (h : HashFunctions M) (seed : Seed)
    (regs : GoMap controllerRegistration) (cl st : Cluster) (done : List String) (a : String)
    (cr : controllerRegistration) (hget : regs.get? a = some cr)
    (hdel : cr.obj.ObjectMeta.DeletionTimestamp ≠ none)
    (hinv : DeployInv c h seed regs cl st done) :
    DeployInv c h seed regs cl st (a :: done) where
  deployments := hinv.deployments
  unique := hinv.unique
  kept := fun i hi hs hn => hinv.kept i hi hs (fun hd => hn (List.mem_cons_of_mem _ hd))
  pending := fun i hi hs hn => hinv.pending i hi hs (fun hd => hn (List.mem_cons_of_mem _ hd))
  settled := by
    intro i hi hs hd cr1 d hget1 hdel1 hf
    rcases List.mem_cons.mp hd with h1 | h1
    · rw [h1, hget] at hget1
      cases hget1
      exact absurd hdel1 hdel
    · exact hinv.settled i hi hs h1 cr1 d hget1 hdel1 hf
  present := by
    intro n hn cr1 hget1 hdel1
    rcases List.mem_cons.mp hn with h1 | h1
    · rw [h1, hget] at hget1
      cases hget1
      exact absurd hdel1 hdel
    · exact hinv.present n h1 cr1 hget1 hdel1
  requiredFrom := hinv.requiredFrom
  requiredTo := hinv.requiredTo

/-- A wanted registration without installation on the seed gets one by a create. -/
theorem DeployInv_create {M : Type} (c : Client Cluster) (h : HashFunctions M) (seed : Seed)
    (regs : GoMap controllerRegistration) (cl st : Cluster) (done : List String) (a : String)
    (cr : controllerRegistration) (d : Option ControllerDeployment)
    (obj : ControllerInstallation)
    (hget : regs.get? a = some cr) (hname : cr.obj.ObjectMeta.Name = a)
    (hf : (fetchControllerDeployment c cl cr.obj).1 = .ok d)
    (hnone : ∀ i ∈ cl.installations, i.Spec.SeedRef.Name = seed.ObjectMeta.Name →
      i.Spec.RegistrationRef.Name ≠ a)
    (ha : a ∉ done)
    (hfree : ∀ i ∈ st.installations, i.ObjectMeta.Name ≠ obj.ObjectMeta.Name)
    (hspec : obj.Spec = installationSpecOf seed d cr.obj)
    (hreq : IsControllerInstallationRequired obj = false)
    (hdt : obj.ObjectMeta.DeletionTimestamp = none)
    (hfix : mutate h seed d cr.obj (installationSpecOf seed d cr.obj) obj = (obj, none))
    (hinv : DeployInv c h seed regs cl st done) :
    DeployInv c h seed regs cl { st with installations := st.installations ++ [obj] }
      (a :: done) := by
  have hseed : obj.Spec.SeedRef.Name = seed.ObjectMeta.Name := by rw [hspec]; rfl
  have href : obj.Spec.RegistrationRef.Name = a := by rw [hspec]; exact hname
  refine
    { deployments := hinv.deployments
      unique := ?_
      kept := ?_
      pending := ?_
      settled := ?_
      present := ?_
      requiredFrom := ?_
      requiredTo := ?_ }
  · have hu := hinv.unique
    unfold uniqueNames at hu ⊢
    simp only [List.map_append, List.map_cons, List.map_nil]
    rw [List.nodup_append]
    refine ⟨hu, List.nodup_singleton _, ?_⟩
    intro n hn hn1
    simp only [List.mem_singleton] at hn1
    obtain ⟨i, hi, hin⟩ := List.mem_map.mp hn
    exact hfree i hi (hin.trans hn1)
  · intro i hi hs hn
    rcases List.mem_append.mp hi with h1 | h1
    · exact hinv.kept i h1 hs (fun hd => hn (List.mem_cons_of_mem _ hd))
    · simp only [List.mem_singleton] at h1
      subst h1
      exact absurd (href ▸ List.mem_cons_self _ _) hn
  · intro i hi hs hn
    exact List.mem_append_left _
      (hinv.pending i hi hs (fun hd => hn (List.mem_cons_of_mem _ hd)))
  · intro i hi hs hd cr1 d1 hget1 hdel1 hf1
    rcases List.mem_append.mp hi with h1 | h1
    · rcases List.mem_cons.mp hd with h2 | h2
      · have := hinv.kept i h1 hs (h2 ▸ ha)
        exact absurd h2 (hnone i this hs)
      · exact hinv.settled i h1 hs h2 cr1 d1 hget1 hdel1 hf1
    · simp only [List.mem_singleton] at h1
      subst h1
      rw [href, hget] at hget1
      cases hget1
      rw [hf] at hf1
      cases hf1
      exact ⟨hdt, hfix⟩
  · intro n hn cr1 hget1 hdel1
    rcases List.mem_cons.mp hn with h1 | h1
    · subst h1
      rw [hget] at hget1
      cases hget1
      exact ⟨⟨d, hf⟩, obj, List.mem_append_right _ (List.mem_singleton_self _), hseed, href⟩
    · obtain ⟨hd1, i, hi, hi2⟩ := hinv.present n h1 cr1 hget1 hdel1
      exact ⟨hd1, i, List.mem_append_left _ hi, hi2⟩
  · intro i hi hs hr
    rcases List.mem_append.mp hi with h1 | h1
    · exact hinv.requiredFrom i h1 hs hr
    · simp only [List.mem_singleton] at h1
      subst h1
      rw [hreq] at hr
      cases hr
  · intro j hj hs
    obtain ⟨i, hi, hi2⟩ := hinv.requiredTo j hj hs
    exact ⟨i, List.mem_append_left _ hi, hi2⟩

theorem mem_replace (l : List ControllerInstallation) (e obj x : ControllerInstallation)
    (he : e ∈ l) :
    x ∈ l.map (fun i => if i.ObjectMeta.Name = e.ObjectMeta.Name then obj else i) ↔
      x = obj ∨ (x ∈ l ∧ x.ObjectMeta.Name ≠ e.ObjectMeta.Name) := by
  rw [List.mem_map]
  constructor
  · rintro ⟨i, hi, hx⟩
    by_cases hn : i.ObjectMeta.Name = e.ObjectMeta.Name
    · rw [if_pos hn] at hx
      exact Or.inl hx.symm
    · rw [if_neg hn] at hx
      subst hx
      exact Or.inr ⟨hi, hn⟩
  · rintro (hx | ⟨hx, hn⟩)
    · exact ⟨e, he, by rw [if_pos rfl, hx]⟩
    · exact ⟨x, hx, by rw [if_neg hn]⟩

theorem uniqueNames_replace (l : List ControllerInstallation) (e obj : ControllerInstallation)
    (hn : obj.ObjectMeta.Name = e.ObjectMeta.Name) (hu : uniqueNames l) :
    uniqueNames (l.map (fun i => if i.ObjectMeta.Name = e.ObjectMeta.Name then obj else i)) := by
  unfold uniqueNames at hu ⊢
  have : (l.map (fun i => if i.ObjectMeta.Name = e.ObjectMeta.Name then obj else i)).map
      (fun i => i.ObjectMeta.Name) = l.map (fun i => i.ObjectMeta.Name) := by
    rw [List.map_map]
    apply List.map_congr_left
    intro i _
    by_cases h1 : i.ObjectMeta.Name = e.ObjectMeta.Name
    · simp [h1, hn]
    · simp [h1]
  rw [this]
  exact hu

/-- A wanted registration with an installation on the seed has it updated by a patch. -/
theorem DeployInv_patch {M : Type} (c : Client Cluster) (h : HashFunctions M) (seed : Seed)
    (regs : GoMap controllerRegistration) (cl st : Cluster) (done : List String) (a : String)
    (cr : controllerRegistration) (d : Option ControllerDeployment)
    (e obj : ControllerInstallation)
    (hget : regs.get? a = some cr) (hname : cr.obj.ObjectMeta.Name = a)
    (hf : (fetchControllerDeployment c cl cr.obj).1 = .ok d)
    (hecl : e ∈ cl.installations)
    (hes : e.Spec.SeedRef.Name = seed.ObjectMeta.Name)
    (her : e.Spec.RegistrationRef.Name = a)
    (hone : ∀ i ∈ cl.installations, i.Spec.SeedRef.Name = seed.ObjectMeta.Name →
      i.Spec.RegistrationRef.Name = a → i = e)
    (ha : a ∉ done)
    (hen : obj.ObjectMeta.Name = e.ObjectMeta.Name)
    (hspec : obj.Spec = installationSpecOf seed d cr.obj)
    (hreq : obj.Status = e.Status)
    (hdt : obj.ObjectMeta.DeletionTimestamp = none)
    (hfix : mutate h seed d cr.obj (installationSpecOf seed d cr.obj) obj = (obj, none))
    (hinv : DeployInv c h seed regs cl st done) :
    DeployInv c h seed regs cl
      { st with installations := st.installations.map (fun i =>
          if i.ObjectMeta.Name = e.ObjectMeta.Name then obj else i) }
      (a :: done) := by
  have hseed : obj.Spec.SeedRef.Name = seed.ObjectMeta.Name := by rw [hspec]; rfl
  have href : obj.Spec.RegistrationRef.Name = a := by rw [hspec]; exact hname
  have hest : e ∈ st.installations := hinv.pending e hecl hes (her ▸ ha)
  have hsame : ∀ i ∈ st.installations, i.ObjectMeta.Name = e.ObjectMeta.Name → i = e :=
    fun i hi hn => uniqueNames_eq _ hinv.unique i e hi hest hn
  refine
    { deployments := hinv.deployments
      unique := uniqueNames_replace _ e obj hen hinv.unique
      kept := ?_
      pending := ?_
      settled := ?_
      present := ?_
      requiredFrom := ?_
      requiredTo := ?_ }
  · intro i hi hs hn
    rcases (mem_replace _ e obj i hest).mp hi with h1 | ⟨h1, _⟩
    · subst h1
      exact absurd (href ▸ List.mem_cons_self _ _) hn
    · exact hinv.kept i h1 hs (fun hd => hn (List.mem_cons_of_mem _ hd))
  · intro i hi hs hn
    have h1 := hinv.pending i hi hs (fun hd => hn (List.mem_cons_of_mem _ hd))
    refine (mem_replace _ e obj i hest).mpr (Or.inr ⟨h1, ?_⟩)
    intro h2
    have := hsame i h1 h2
    subst this
    exact hn (her ▸ List.mem_cons_self _ _)
  · intro i hi hs hd cr1 d1 hget1 hdel1 hf1
    rcases (mem_replace _ e obj i hest).mp hi with h1 | ⟨h1, h2⟩
    · subst h1
      rw [href, hget] at hget1
      cases hget1
      rw [hf] at hf1
      cases hf1
      exact ⟨hdt, hfix⟩
    · rcases List.mem_cons.mp hd with h3 | h3
      · have h4 := hinv.kept i h1 hs (h3 ▸ ha)
        have := hone i h4 hs h3
        subst this
        exact absurd rfl h2
      · exact hinv.settled i h1 hs h3 cr1 d1 hget1 hdel1 hf1
  · intro n hn cr1 hget1 hdel1
    rcases List.mem_cons.mp hn with h1 | h1
    · subst h1
      rw [hget] at hget1
      cases hget1
      exact ⟨⟨d, hf⟩, obj, (mem_replace _ e obj obj hest).mpr (Or.inl rfl), hseed, href⟩
    · obtain ⟨hd1, i, hi, hi2, hi3⟩ := hinv.present n h1 cr1 hget1 hdel1
      refine ⟨hd1, i, (mem_replace _ e obj i hest).mpr (Or.inr ⟨hi, ?_⟩), hi2, hi3⟩
      intro h2
      have := hsame i hi h2
      subst this
      rw [her] at hi3
      exact ha (hi3 ▸ h1)
  · intro i hi hs hr
    rcases (mem_replace _ e obj i hest).mp hi with h1 | ⟨h1, _⟩
    · subst h1
      refine ⟨e, hecl, hes, her.trans href.symm, ?_⟩
      simp only [IsControllerInstallationRequired] at hr ⊢
      rw [← hreq]
      exact hr
    · exact hinv.requiredFrom i h1 hs hr
  · intro j hj hs
    obtain ⟨i, hi, hi1, hi2, hi3, hi4⟩ := hinv.requiredTo j hj hs
    by_cases h2 : i.ObjectMeta.Name = e.ObjectMeta.Name
    · have := hsame i hi h2
      subst this
      refine ⟨obj, (mem_replace _ i obj obj hest).mpr (Or.inl rfl), hen.trans hi1, hseed,
        href.trans (her.symm.trans hi3), ?_⟩
      simp only [IsControllerInstallationRequired] at hi4 ⊢
      rw [hreq]
      exact hi4
    · exact ⟨i, (mem_replace _ e obj i hest).mpr (Or.inr ⟨hi, h2⟩), hi1, hi2, hi3, hi4⟩

/-- The deploy phase of a successful run keeps the invariant of the store, from the names
processed before to all wanted names. -/
theorem deployLoop_inv {M : Type} (finalizers : String → Bool) (now : Time)
    (h : HashFunctions M) (seed : Seed)
    (regs : GoMap controllerRegistration) (m : GoMap ControllerInstallation) (cl : Cluster)
    (hjson : ∀ input, ∃ out, convertObjToMap h input = .ok out)
    (hkey : ∀ n cr, regs.get? n = some cr → cr.obj.ObjectMeta.Name = n)
    (hm1 : ∀ n e, m.get? n = some e → e ∈ cl.installations ∧
      e.Spec.SeedRef.Name = seed.ObjectMeta.Name ∧ e.Spec.RegistrationRef.Name = n)
    (hm2 : ∀ i ∈ cl.installations, i.Spec.SeedRef.Name = seed.ObjectMeta.Name →
      m.get? i.Spec.RegistrationRef.Name = some i)
    (wanted : List String) (st : Cluster) (calls : List IssuedCall) (done : List String)
    (hnodup : wanted.Nodup) (hdisj : ∀ w ∈ wanted, w ∉ done)
    (hinv : DeployInv (finalizerClient finalizers now) h seed regs cl st done)
    (hsucc : (deployLoop (finalizerClient finalizers now) h seed regs m wanted st calls).outcome =
      .returned none) :
    DeployInv (finalizerClient finalizers now) h seed regs cl (deployLoop (finalizerClient finalizers now) h seed regs m wanted st calls).state
      (wanted.reverse ++ done) := by
  induction wanted generalizing st calls done with
  | nil => simpa [deployLoop] using hinv
  | cons a rest ih =>
    have hrest : rest.Nodup := (List.nodup_cons.mp hnodup).2
    have ha : a ∉ done := hdisj a (List.mem_cons_self _ _)
    have hdisj1 : ∀ w ∈ rest, w ∉ a :: done := by
      intro w hw hmem
      rcases List.mem_cons.mp hmem with h1 | h1
      · subst h1
        exact (List.nodup_cons.mp hnodup).1 hw
      · exact hdisj w (List.mem_cons_of_mem _ hw) h1
    have hlist : (a :: rest).reverse ++ done = rest.reverse ++ (a :: done) := by simp
    rw [hlist]
    rcases deployLoop_cases (finalizerClient finalizers now) h seed regs m a rest st calls with
      ⟨_, heq⟩ | ⟨cr, hget, hdel, heq⟩ | ⟨cr, err, st₁, issued, _, _, _, heq⟩ |
      ⟨cr, d, st₁, issued, _, _, _, _, heq⟩ |
      ⟨cr, d, st₁, issued, err, st₂, issued₂, _, _, _, _, _, heq⟩ |
      ⟨cr, d, st₁, issued, st₂, issued₂, hget, hdel, hf, hp, hd, heq⟩
    · rw [heq] at hsucc
      simp at hsucc
    · rw [heq] at hsucc ⊢
      exact ih st calls (a :: done) hrest hdisj1
        (DeployInv_skip (finalizerClient finalizers now) h seed regs cl st done a cr hget hdel hinv) hsucc
    · rw [heq] at hsucc
      simp at hsucc
    · rw [heq] at hsucc
      simp at hsucc
    · rw [heq] at hsucc
      simp at hsucc
    · rw [heq] at hsucc ⊢
      have hst₁ : st₁ = st := by
        have := (fetch_cluster finalizers now st cr.obj).1
        rw [hf] at this
        exact this
      subst hst₁
      have hfcl : (fetchControllerDeployment (finalizerClient finalizers now) cl cr.obj).1 = .ok d := by
        have := (fetch_cluster finalizers now cl cr.obj).2.2 st₁ hinv.deployments
        rw [hf] at this
        exact this.symm
      have hname := hkey a cr hget
      refine ih st₂ _ (a :: done) hrest hdisj1 ?_ hsucc
      cases hma : m.get? a with
      | none =>
        rw [hma] at hd
        obtain ⟨obj, hfree, hstate, hspec, hreq, hdt, hfix⟩ :=
          deployCluster_create finalizers now h st₁ seed d cr.obj hjson (by rw [hd])
        rw [hd] at hstate
        simp only at hstate
        rw [hstate]
        refine DeployInv_create (finalizerClient finalizers now) h seed regs cl st₁ done a cr d obj hget hname hfcl ?_ ha hfree
          hspec hreq hdt hfix hinv
        intro i hi hs hr
        have := hm2 i hi hs
        rw [hr, hma] at this
        cases this
      | some e =>
        rw [hma] at hd hp
        obtain ⟨hecl, hes, her⟩ := hm1 a e hma
        have hedt : e.ObjectMeta.DeletionTimestamp = none := by
          cases hx : e.ObjectMeta.DeletionTimestamp with
          | none => rfl
          | some t => simp [hx] at hp
        have hest : e ∈ st₁.installations := hinv.pending e hecl hes (her ▸ ha)
        rw [deployCluster_patch finalizers now h st₁ seed d cr.obj e hjson hinv.unique hest] at hd
        simp only [Prod.mk.injEq, true_and] at hd
        rw [← hd.1]
        obtain ⟨_, hspec, hstatus, hen, _, hdt, _⟩ := mutate_of_json h seed d cr.obj
          (installationSpecOf seed d cr.obj) e hjson
        refine DeployInv_patch (finalizerClient finalizers now) h seed regs cl st₁ done a cr d e _ hget hname hfcl hecl hes her
          ?_ ha hen hspec hstatus (hdt.trans hedt)
          (mutate_fix h seed d cr.obj (installationSpecOf seed d cr.obj) e hjson) hinv
        intro i hi hs hr
        have := hm2 i hi hs
        rw [hr, hma] at this
        cases this
        rfl

theorem replace_self (l : List ControllerInstallation) (hu : uniqueNames l)
    (e : ControllerInstallation) (he : e ∈ l) :
    l.map (fun i => if i.ObjectMeta.Name = e.ObjectMeta.Name then e else i) = l := by
  conv_rhs => rw [← List.map_id l]
  apply List.map_congr_left
  intro i hi
  by_cases hn : i.ObjectMeta.Name = e.ObjectMeta.Name
  · simp [hn, uniqueNames_eq l hu i e hi he hn]
  · simp [hn]

/-- The deploy phase on a settled store: when every wanted registration is being deleted or has
an installation in the store that `mutate` leaves as it is, the deploy phase succeeds, leaves
the store as it is and issues no create. -/
theorem deployLoop_noop {M : Type} (finalizers : String → Bool) (now : Time)
    (h : HashFunctions M) (seed : Seed)
    (regs : GoMap controllerRegistration) (m : GoMap ControllerInstallation) (st : Cluster)
    (hjson : ∀ input, ∃ out, convertObjToMap h input = .ok out)
    (hu : uniqueNames st.installations)
    (wanted : List String) (calls : List IssuedCall)
    (hstep : ∀ w ∈ wanted, ∃ cr, regs.get? w = some cr ∧
      (cr.obj.ObjectMeta.DeletionTimestamp ≠ none ∨
        ∃ d e, (fetchControllerDeployment (finalizerClient finalizers now) st cr.obj).1 = .ok d ∧
          m.get? w = some e ∧ e ∈ st.installations ∧ e.ObjectMeta.DeletionTimestamp = none ∧
          mutate h seed d cr.obj (installationSpecOf seed d cr.obj) e = (e, none))) :
    (deployLoop (finalizerClient finalizers now) h seed regs m wanted st calls).outcome = .returned none ∧
    (deployLoop (finalizerClient finalizers now) h seed regs m wanted st calls).state = st ∧
    ∀ ic ∈ (deployLoop (finalizerClient finalizers now) h seed regs m wanted st calls).calls,
      ic ∈ calls ∨ ic.call.isCreate = false := by
  induction wanted generalizing calls with
  | nil =>
    simp only [deployLoop, true_and]
    exact fun ic hic => Or.inl hic
  | cons a rest ih =>
    have hrest : ∀ w ∈ rest, ∃ cr, regs.get? w = some cr ∧
        (cr.obj.ObjectMeta.DeletionTimestamp ≠ none ∨
          ∃ d e, (fetchControllerDeployment (finalizerClient finalizers now) st cr.obj).1 = .ok d ∧
            m.get? w = some e ∧ e ∈ st.installations ∧
            e.ObjectMeta.DeletionTimestamp = none ∧
            mutate h seed d cr.obj (installationSpecOf seed d cr.obj) e = (e, none)) :=
      fun w hw => hstep w (List.mem_cons_of_mem _ hw)
    obtain ⟨cr0, hget0, hcase⟩ := hstep a (List.mem_cons_self _ _)
    rcases deployLoop_cases (finalizerClient finalizers now) h seed regs m a rest st calls with
      ⟨hget, _⟩ | ⟨cr, hget, hdel, heq⟩ | ⟨cr, err, st₁, issued, hget, hdel, hf, _⟩ |
      ⟨cr, d, st₁, issued, hget, hdel, hf, hp, _⟩ |
      ⟨cr, d, st₁, issued, err, st₂, issued₂, hget, hdel, hf, hp, hd, _⟩ |
      ⟨cr, d, st₁, issued, st₂, issued₂, hget, hdel, hf, hp, hd, heq⟩
    · rw [hget0] at hget
      cases hget
    · rw [heq]
      exact ih calls hrest
    · rw [hget0] at hget
      cases hget
      rcases hcase with h1 | ⟨d, e, h1, _⟩
      · exact absurd hdel h1
      · rw [hf] at h1
        cases h1
    · rw [hget0] at hget
      cases hget
      rcases hcase with h1 | ⟨d1, e, _, h2, _, h3, _⟩
      · exact absurd hdel h1
      · simp [h2, h3] at hp
    · rw [hget0] at hget
      cases hget
      rcases hcase with h1 | ⟨d1, e, h1, h2, h3, _, h5⟩
      · exact absurd hdel h1
      · have hst₁ : st₁ = st := by
          have := (fetch_cluster finalizers now st cr0.obj).1
          rw [hf] at this
          exact this
        subst hst₁
        rw [hf] at h1
        cases h1
        rw [h2, deployCluster_patch finalizers now h st₁ seed d cr0.obj e hjson hu h3] at hd
        cases hd
    · rw [hget0] at hget
      cases hget
      rcases hcase with h1 | ⟨d1, e, h1, h2, h3, _, h5⟩
      · exact absurd hdel h1
      · have hst₁ : st₁ = st := by
          have := (fetch_cluster finalizers now st cr0.obj).1
          rw [hf] at this
          exact this
        subst hst₁
        rw [hf] at h1
        cases h1
        rw [h2, deployCluster_patch finalizers now h st₁ seed d cr0.obj e hjson hu h3, h5] at hd
        simp only [Prod.mk.injEq, true_and] at hd
        rw [replace_self _ hu e h3] at hd
        obtain ⟨hst₂, hissued⟩ := hd
        have hst₂1 : st₂ = st₁ := hst₂.symm
        subst hst₂1
        rw [heq]
        obtain ⟨h6, h7, h8⟩ := ih (calls ++ issued.map (IssuedCall.mk a) ++
          issued₂.map (IssuedCall.mk a)) hrest
        refine ⟨h6, h7, ?_⟩
        intro ic hic
        rcases h8 ic hic with h9 | h9
        · rcases List.mem_append.mp h9 with h10 | h10
          · rcases List.mem_append.mp h10 with h11 | h11
            · exact Or.inl h11
            · obtain ⟨call, hcall, hic1⟩ := List.mem_map.mp h11
              have := (fetch_cluster finalizers now st₂ cr0.obj).2.1 call (by rw [hf]; exact hcall)
              exact Or.inr (by rw [← hic1]; exact this)
          · obtain ⟨call, hcall, hic1⟩ := List.mem_map.mp h10
            rw [← hissued] at hcall
            refine Or.inr ?_
            rw [← hic1]
            simp only [List.mem_cons, List.mem_singleton, List.not_mem_nil, or_false] at hcall
            rcases hcall with h12 | h12 <;> rw [h12] <;> rfl
        · exact Or.inr h9

theorem markDeleting_facts (now : Time) (i : ControllerInstallation) :
    (markDeleting now i).ObjectMeta.Name = i.ObjectMeta.Name ∧
    (markDeleting now i).Spec = i.Spec ∧
    (markDeleting now i).Status = i.Status ∧
    (markDeleting now i).ObjectMeta.DeletionTimestamp ≠ none ∧
    (i.ObjectMeta.DeletionTimestamp ≠ none → markDeleting now i = i) := by
  unfold markDeleting
  cases hd : i.ObjectMeta.DeletionTimestamp with
  | none => simp
  | some t => simp [hd]

theorem markDeleting_twice (now : Time) (i : ControllerInstallation) :
    markDeleting now (markDeleting now i) = markDeleting now i :=
  (markDeleting_facts now (markDeleting now i)).2.2.2.2 (markDeleting_facts now i).2.2.2.1

theorem unwantedNames_wanted (wanted : StringSet) (name : String)
    (inst : ControllerInstallation) (rest : GoMap ControllerInstallation)
    (hw : wanted.Has name = true) :
    unwantedNames wanted ((name, inst) :: rest) = unwantedNames wanted rest := by
  unfold unwantedNames
  rw [List.filter_cons_of_neg (by simp [hw])]

theorem unwantedNames_unwanted (wanted : StringSet) (name : String)
    (inst : ControllerInstallation) (rest : GoMap ControllerInstallation)
    (hw : wanted.Has name = false) :
    unwantedNames wanted ((name, inst) :: rest) =
      inst.ObjectMeta.Name :: unwantedNames wanted rest := by
  unfold unwantedNames
  rw [List.filter_cons_of_pos (by simp [hw]), List.map_cons]

theorem mem_unwantedNames (wanted : StringSet) (m : GoMap ControllerInstallation) (x : String) :
    x ∈ unwantedNames wanted m ↔
      ∃ n e, (n, e) ∈ m ∧ n ∉ wanted ∧ e.ObjectMeta.Name = x := by
  simp only [unwantedNames, List.mem_map, List.mem_filter, Bool.not_eq_true',
    StringSet.Has, decide_eq_false_iff_not]
  constructor
  · rintro ⟨⟨n, e⟩, ⟨h1, h2⟩, h3⟩
    exact ⟨n, e, h1, h2, h3⟩
  · rintro ⟨n, e, h1, h2, h3⟩
    exact ⟨(n, e), ⟨h1, h2⟩, h3⟩

theorem mem_afterDeletes (finalizers : String → Bool) (now : Time) (names : List String)
    (store : List ControllerInstallation) (x : ControllerInstallation) :
    x ∈ afterDeletes finalizers now names store ↔
      ∃ i ∈ store, (i.ObjectMeta.Name ∉ names ∧ x = i) ∨
        (i.ObjectMeta.Name ∈ names ∧ finalizers i.ObjectMeta.Name = true ∧
          x = markDeleting now i) := by
  unfold afterDeletes
  rw [List.mem_filterMap]
  constructor
  · rintro ⟨i, hi, hx⟩
    refine ⟨i, hi, ?_⟩
    by_cases hn : i.ObjectMeta.Name ∈ names
    · by_cases hf : finalizers i.ObjectMeta.Name = true
      · simp only [hn, hf, if_true, Option.some.injEq] at hx
        exact Or.inr ⟨hn, hf, hx.symm⟩
      · simp [hn, hf] at hx
    · simp only [hn, if_false, Option.some.injEq] at hx
      exact Or.inl ⟨hn, hx.symm⟩
  · rintro ⟨i, hi, ⟨hn, hx⟩ | ⟨hn, hf, hx⟩⟩
    · exact ⟨i, hi, by simp [hn, hx]⟩
    · exact ⟨i, hi, by simp [hn, hf, hx]⟩

theorem afterDeletes_names (finalizers : String → Bool) (now : Time) (names : List String)
    (store : List ControllerInstallation) :
    List.Sublist ((afterDeletes finalizers now names store).map (fun i => i.ObjectMeta.Name))
      (store.map (fun i => i.ObjectMeta.Name)) := by
  unfold afterDeletes
  induction store with
  | nil => simp
  | cons i rest ih =>
    by_cases hn : i.ObjectMeta.Name ∈ names
    · by_cases hf : finalizers i.ObjectMeta.Name = true
      · simp only [List.filterMap_cons, hn, hf, if_true, List.map_cons,
          (markDeleting_facts now i).1]
        exact ih.cons₂ _
      · simp only [List.filterMap_cons, hn, hf, if_true, if_false, Bool.false_eq_true,
          List.map_cons]
        exact ih.cons _
    · simp only [List.filterMap_cons, hn, if_false, List.map_cons]
      exact ih.cons₂ _

theorem afterDeletes_unique (finalizers : String → Bool) (now : Time) (names : List String)
    (store : List ControllerInstallation) (hu : uniqueNames store) :
    uniqueNames (afterDeletes finalizers now names store) := by
  unfold uniqueNames at hu ⊢
  exact hu.sublist (afterDeletes_names finalizers now names store)

/-- Deletes of installations that have a finalizer and a deletion timestamp change nothing. -/
theorem afterDeletes_self (finalizers : String → Bool) (now : Time) (names : List String)
    (store : List ControllerInstallation)
    (hall : ∀ i ∈ store, i.ObjectMeta.Name ∈ names →
      finalizers i.ObjectMeta.Name = true ∧ i.ObjectMeta.DeletionTimestamp ≠ none) :
    afterDeletes finalizers now names store = store := by
  unfold afterDeletes
  induction store with
  | nil => simp
  | cons i rest ih =>
    have hrest := ih (fun j hj => hall j (List.mem_cons_of_mem _ hj))
    by_cases hn : i.ObjectMeta.Name ∈ names
    · obtain ⟨hf, hd⟩ := hall i (List.mem_cons_self _ _) hn
      simp only [List.filterMap_cons, hn, hf, if_true, hrest,
        (markDeleting_facts now i).2.2.2.2 hd]
    · simp only [List.filterMap_cons, hn, if_false, hrest]

theorem afterDeletes_cons (finalizers : String → Bool) (now : Time) (n : String)
    (names : List String) (store : List ControllerInstallation) :
    afterDeletes finalizers now names (afterDeletes finalizers now [n] store) =
      afterDeletes finalizers now (n :: names) store := by
  unfold afterDeletes
  rw [List.filterMap_filterMap]
  apply List.filterMap_congr
  intro i _
  by_cases h1 : i.ObjectMeta.Name = n
  · by_cases hf : finalizers i.ObjectMeta.Name = true
    · by_cases h2 : n ∈ names
      · have hf1 : finalizers n = true := h1 ▸ hf
        simp [h1, hf1, h2, (markDeleting_facts now i).1, markDeleting_twice]
      · have hf1 : finalizers n = true := h1 ▸ hf
        simp [h1, hf1, h2, (markDeleting_facts now i).1]
    · have hf1 : ¬ finalizers n = true := h1 ▸ hf
      simp [h1, hf1]
  · simp [h1]

theorem clusterDelete_eq (finalizers : String → Bool) (now : Time) (st : Cluster)
    (inst : ControllerInstallation) :
    IgnoreNotFound ((finalizerClient finalizers now).Delete st inst).1 = none ∧
    ((finalizerClient finalizers now).Delete st inst).2 =
      { st with installations :=
          afterDeletes finalizers now [inst.ObjectMeta.Name] st.installations } := by
  refine ⟨?_, ?_⟩
  · by_cases hany : st.installations.any
        (fun i => i.ObjectMeta.Name == inst.ObjectMeta.Name) = true
    · simp only [finalizerClient, hany, if_true, IgnoreNotFound]
    · simp only [finalizerClient, hany, Bool.false_eq_true, if_false, IgnoreNotFound, if_true]
  · simp only [finalizerClient, afterDeletes, List.mem_singleton]

/-- The delete phase on the cluster store acts on the installations that bear a name of an
unwanted entry of the map, and on no other. -/
theorem deleteCluster_state (finalizers : String → Bool) (now : Time) (wanted : StringSet)
    (m : GoMap ControllerInstallation) (st : Cluster) (issued : List ControllerInstallation) :
    (deleteUnneededInstallations (finalizerClient finalizers now) wanted m st issued).state =
      { st with installations :=
          afterDeletes finalizers now (unwantedNames wanted m) st.installations } := by
  induction m generalizing st issued with
  | nil =>
    simp only [deleteUnneededInstallations]
    rw [afterDeletes_self finalizers now _ _ (by simp [unwantedNames])]
  | cons e rest ih =>
    obtain ⟨name, installation⟩ := e
    cases hw : wanted.Has name with
    | true =>
      simp only [deleteUnneededInstallations, hw, Bool.not_true, Bool.false_eq_true, if_false]
      rw [ih, unwantedNames_wanted wanted name installation rest hw]
    | false =>
      simp only [deleteUnneededInstallations, hw, Bool.not_false, if_true,
        (clusterDelete_eq finalizers now _ _).1]
      rw [ih, (clusterDelete_eq finalizers now st installation).2,
        unwantedNames_unwanted wanted name installation rest hw]
      simp only [afterDeletes_cons]

theorem registrationNameToInstallationLoop_WF (regs : GoMap controllerRegistration)
    (seedName : String) (installs : List ControllerInstallation)
    (acc m : GoMap ControllerInstallation) (hacc : acc.WF)
    (h : registrationNameToInstallationLoop regs seedName installs acc = .ok m) : m.WF := by
  induction installs generalizing acc with
  | nil =>
    simp only [registrationNameToInstallationLoop, Except.ok.injEq] at h
    subst h
    exact hacc
  | cons inst rest ih =>
    by_cases hs : inst.Spec.SeedRef.Name = seedName
    · cases hget : regs.get? inst.Spec.RegistrationRef.Name with
      | none => simp [registrationNameToInstallationLoop, hs, hget] at h
      | some cr =>
        simp only [registrationNameToInstallationLoop, hs, ne_eq, not_true_eq_false, if_false,
          hget] at h
        exact ih _ (GoMap.WF_set acc hacc _ _) h
    · simp only [registrationNameToInstallationLoop, hs, ne_eq, not_false_eq_true, if_true] at h
      exact ih _ hacc h

/-- What the registration-to-installation map holds when no two installations on the seed
reference the same registration. -/
theorem registrationMap_facts (installs : List ControllerInstallation)
    (regs : GoMap controllerRegistration) (seedName : String)
    (m : GoMap ControllerInstallation)
    (hm : computeRegistrationNameToInstallationMap installs regs seedName = .ok m) :
    (∀ n e, m.get? n = some e → e ∈ installs ∧ e.Spec.SeedRef.Name = seedName ∧
      e.Spec.RegistrationRef.Name = n) ∧
    (∀ n e, (n, e) ∈ m → m.get? n = some e) ∧
    (∀ n, (∃ i ∈ installs, i.Spec.SeedRef.Name = seedName ∧ i.Spec.RegistrationRef.Name = n) →
      ∃ e, m.get? n = some e) ∧
    (onePerRegistration installs seedName →
      ∀ i ∈ installs, i.Spec.SeedRef.Name = seedName →
        m.get? i.Spec.RegistrationRef.Name = some i) := by
  have hall := registrationNameToInstallationLoop_ok regs seedName installs [] m hm
  obtain ⟨m1, hm1, hlook⟩ := duplicate_lookup installs regs seedName hall
  rw [hm] at hm1
  cases hm1
  have hwf : m.WF := registrationNameToInstallationLoop_WF regs seedName installs [] m
    (by simp [GoMap.WF, GoMap.keys]) hm
  have hfirst : ∀ n e, m.get? n = some e → e ∈ installs ∧ e.Spec.SeedRef.Name = seedName ∧
      e.Spec.RegistrationRef.Name = n := by
    intro n e hget
    rw [hlook n] at hget
    have := lastSuch_mem _ _ _ hget
    exact ⟨this.1, by simpa using this.2⟩
  have hex : ∀ n, (∃ i ∈ installs, i.Spec.SeedRef.Name = seedName ∧
      i.Spec.RegistrationRef.Name = n) → ∃ e, m.get? n = some e := by
    rintro n ⟨i, hi, hs, hr⟩
    cases hget : m.get? n with
    | some e => exact ⟨e, rfl⟩
    | none =>
      rw [hlook n, lastSuch_none] at hget
      have := hget i hi
      simp [hs, hr] at this
  refine ⟨hfirst, fun n e he => GoMap.get?_of_mem m hwf n e he, hex, ?_⟩
  intro hone i hi hs
  obtain ⟨e, he⟩ := hex i.Spec.RegistrationRef.Name ⟨i, hi, hs, rfl⟩
  obtain ⟨h1, h2, h3⟩ := hfirst _ e he
  rw [he, hone e h1 i hi h2 hs h3]

/-- The store after the delete phase of a successful run is settled. -/
theorem settled_of_delete {M : Type} (c : Client Cluster) (finalizers : String → Bool)
    (now : Time) (h : HashFunctions M) (seed : Seed)
    (regs : GoMap controllerRegistration) (m : GoMap ControllerInstallation)
    (cl st : Cluster) (done : List String) (wanted : StringSet)
    (hdone : ∀ n, n ∈ done ↔ n ∈ wanted)
    (hm1 : ∀ n e, m.get? n = some e → e ∈ cl.installations ∧
      e.Spec.SeedRef.Name = seed.ObjectMeta.Name ∧ e.Spec.RegistrationRef.Name = n)
    (hentry : ∀ n e, (n, e) ∈ m → m.get? n = some e)
    (hm2 : ∀ i ∈ cl.installations, i.Spec.SeedRef.Name = seed.ObjectMeta.Name →
      m.get? i.Spec.RegistrationRef.Name = some i)
    (hregs : ∀ i ∈ cl.installations, i.Spec.SeedRef.Name = seed.ObjectMeta.Name →
      (regs.get? i.Spec.RegistrationRef.Name).isSome = true)
    (hinv : DeployInv c h seed regs cl st done) :
    Settled c finalizers h seed regs cl
      { st with installations :=
          afterDeletes finalizers now (unwantedNames wanted m) st.installations } wanted := by
  have hunw : ∀ i ∈ st.installations, i.ObjectMeta.Name ∈ unwantedNames wanted m →
      i ∈ cl.installations ∧ i.Spec.SeedRef.Name = seed.ObjectMeta.Name ∧
        i.Spec.RegistrationRef.Name ∉ wanted := by
    intro i hi hrem
    obtain ⟨n, e, he, hn, hname⟩ := (mem_unwantedNames wanted m _).mp hrem
    obtain ⟨h1, h2, h3⟩ := hm1 n e (hentry n e he)
    have hest : e ∈ st.installations :=
      hinv.pending e h1 h2 (fun hd => hn ((hdone _).mp (h3 ▸ hd)))
    have := uniqueNames_eq _ hinv.unique e i hest hi hname
    subst this
    exact ⟨h1, h2, h3 ▸ hn⟩
  have hkeep : ∀ i ∈ st.installations, i.Spec.RegistrationRef.Name ∈ wanted →
      i.ObjectMeta.Name ∉ unwantedNames wanted m :=
    fun i hi hw hrem => (hunw i hi hrem).2.2 hw
  have hnot : ∀ i ∈ st.installations, i.Spec.SeedRef.Name = seed.ObjectMeta.Name →
      i.Spec.RegistrationRef.Name ∉ wanted → i.ObjectMeta.Name ∈ unwantedNames wanted m := by
    intro i hi hs hw
    have hcl := hinv.kept i hi hs (fun hd => hw ((hdone _).mp hd))
    exact (mem_unwantedNames wanted m _).mpr
      ⟨_, i, GoMap.mem_of_get? m _ i (hm2 i hcl hs), hw, rfl⟩
  have hmem := mem_afterDeletes finalizers now (unwantedNames wanted m) st.installations
  refine
    { deployments := hinv.deployments
      unique := afterDeletes_unique finalizers now _ _ hinv.unique
      lingering := ?_
      settled := ?_
      present := ?_
      requiredFrom := ?_
      requiredTo := ?_ }
  · intro x hx hs hw
    obtain ⟨i, hi, ⟨hn, rfl⟩ | ⟨hn, hf, rfl⟩⟩ := (hmem x).mp hx
    · exact absurd (hnot x hi hs hw) hn
    · obtain ⟨hname, hspec, _, hdt, _⟩ := markDeleting_facts now i
      rw [hspec] at hs ⊢
      obtain ⟨hcl, _, _⟩ := hunw i hi hn
      exact ⟨hdt, by rw [hname]; exact hf, hregs i hcl hs⟩
  · intro x hx hs hw cr d hget hdel hfetch
    obtain ⟨i, hi, ⟨hn, rfl⟩ | ⟨hn, hf, rfl⟩⟩ := (hmem x).mp hx
    · exact hinv.settled x hi hs ((hdone _).mpr hw) cr d hget hdel hfetch
    · rw [(markDeleting_facts now i).2.1] at hw
      exact absurd hw (hunw i hi hn).2.2
  · intro n hn cr hget hdel
    obtain ⟨hd, i, hi, hs, hr⟩ := hinv.present n ((hdone n).mpr hn) cr hget hdel
    exact ⟨hd, i, (hmem i).mpr ⟨i, hi, Or.inl ⟨hkeep i hi (hr ▸ hn), rfl⟩⟩, hs, hr⟩
  · rintro n ⟨x, hx, hs, hreq, hr⟩
    obtain ⟨i, hi, ⟨_, rfl⟩ | ⟨_, _, rfl⟩⟩ := (hmem x).mp hx
    · obtain ⟨j, hj, hjs, hjr, hjreq⟩ := hinv.requiredFrom x hi hs hreq
      exact ⟨j, hj, hjs, hjreq, hjr.trans hr⟩
    · obtain ⟨_, hspec, hstatus, _⟩ := markDeleting_facts now i
      rw [hspec] at hs hr
      have hreq1 : IsControllerInstallationRequired i = true := by
        simp only [IsControllerInstallationRequired] at hreq ⊢
        rw [← hstatus]
        exact hreq
      obtain ⟨j, hj, hjs, hjr, hjreq⟩ := hinv.requiredFrom i hi hs hreq1
      exact ⟨j, hj, hjs, hjreq, hjr.trans hr⟩
  · rintro n hn ⟨j, hj, hjs, hjreq, hjr⟩
    obtain ⟨i, hi, _, his, hir, hireq⟩ := hinv.requiredTo j hj hjs
    exact ⟨i, (hmem i).mpr ⟨i, hi, Or.inl ⟨hkeep i hi (by rw [hir, hjr]; exact hn), rfl⟩⟩, his,
      hireq.trans hjreq, hir.trans hjr⟩

theorem Insert1_nodup (s : StringSet) (x : String) (hs : s.Nodup) : (s.Insert1 x).Nodup := by
  unfold StringSet.Insert1
  by_cases hx : x ∈ s
  · simp [hx, hs]
  · simp only [hx, if_false]
    rw [List.nodup_append]
    exact ⟨hs, List.nodup_singleton _, by simpa using hx⟩

theorem matchingLoop_nodup (regs : GoMap controllerRegistration) (seedLabels : GoMap String)
    (names : List String) (acc s : StringSet) (hacc : acc.Nodup)
    (h : matchingSeedLabelSelectorLoop regs seedLabels names acc = .ok s) : s.Nodup := by
  induction names generalizing acc with
  | nil =>
    simp only [matchingSeedLabelSelectorLoop, Except.ok.injEq] at h
    subst h
    exact hacc
  | cons name rest ih =>
    cases hget : regs.get? name with
    | none => simp [matchingSeedLabelSelectorLoop, hget] at h
    | some cr =>
      cases hm : seedSelectorMatches cr.obj.Spec.Deployment seedLabels with
      | error err => simp [matchingSeedLabelSelectorLoop, hget, hm] at h
      | ok b =>
        simp only [matchingSeedLabelSelectorLoop, hget, hm] at h
        refine ih _ ?_ h
        cases b
        · simpa using hacc
        · simpa [StringSet.Insert] using Insert1_nodup acc name hacc

/-- The Wanted Set holds every name once. -/
theorem computeWanted_nodup (required : StringSet) (installs : List ControllerInstallation)
    (regs : GoMap controllerRegistration) (numberOfShoots : Int) (seedObjectMeta : ObjectMeta)
    (s : StringSet)
    (h : computeWantedControllerRegistrationNames required installs regs numberOfShoots
      seedObjectMeta = .ok s) : s.Nodup := by
  rw [computeWanted_unfold] at h
  cases hreq : requiredLoop (policyLoop numberOfShoots seedObjectMeta regs ([], [])).1 required
      (policyLoop numberOfShoots seedObjectMeta regs ([], [])).2 with
  | error err => simp [hreq] at h
  | ok w =>
    simp only [hreq] at h
    exact matchingLoop_nodup _ _ _ _ _ List.nodup_nil h

/-- A successful run on the cluster store leaves a settled store. -/
theorem firstRun_settled {M : Type} (finalizers : String → Bool) (now : Time)
    (h : HashFunctions M) (cl : Cluster) (seed : Seed)
    (required : StringSet) (regs : GoMap controllerRegistration) (numberOfShoots : Int)
    (hjson : ∀ input, ∃ out, convertObjToMap h input = .ok out)
    (hkey : ∀ n cr, regs.get? n = some cr → cr.obj.ObjectMeta.Name = n)
    (hu : uniqueNames cl.installations)
    (hone : onePerRegistration cl.installations seed.ObjectMeta.Name)
    (hfirst : (reconcilePhases (finalizerClient finalizers now) h cl seed required regs
      cl.installations numberOfShoots).outcome = .returned none) :
    ∃ wanted, computeWantedControllerRegistrationNames required cl.installations regs
        numberOfShoots seed.ObjectMeta = .ok wanted ∧
      Settled (finalizerClient finalizers now) finalizers h seed regs cl
        (reconcilePhases (finalizerClient finalizers now) h cl seed required regs
          cl.installations numberOfShoots).state wanted := by
  cases hw : computeWantedControllerRegistrationNames required cl.installations regs
      numberOfShoots seed.ObjectMeta with
  | error err =>
    rw [reconcilePhases_wanted_error (finalizerClient finalizers now) h cl seed required regs
      cl.installations numberOfShoots err hw] at hfirst
    simp at hfirst
  | ok wanted =>
    cases hm : computeRegistrationNameToInstallationMap cl.installations regs
        seed.ObjectMeta.Name with
    | error err =>
      rw [reconcilePhases_map_error (finalizerClient finalizers now) h cl seed required regs
        cl.installations numberOfShoots wanted err hw hm] at hfirst
      simp at hfirst
    | ok m =>
      by_cases hd : (deployNeededInstallations (finalizerClient finalizers now) h cl seed
          wanted regs m).outcome = .returned none
      · refine ⟨wanted, rfl, ?_⟩
        rw [reconcilePhases_deploy_ok (finalizerClient finalizers now) h cl seed required regs
          cl.installations numberOfShoots wanted m hw hm hd]
        simp only
        rw [deleteCluster_state]
        obtain ⟨hm1, hentry, _, hm2⟩ := registrationMap_facts cl.installations regs
          seed.ObjectMeta.Name m hm
        have hinv := deployLoop_inv finalizers now h seed regs m cl hjson hkey hm1 (hm2 hone)
          wanted cl [] []
          (computeWanted_nodup required cl.installations regs numberOfShoots seed.ObjectMeta
            wanted hw)
          (fun _ _ => List.not_mem_nil _)
          (DeployInv_start (finalizerClient finalizers now) h seed regs cl hu) hd
        exact settled_of_delete (finalizerClient finalizers now) finalizers now h seed regs m cl
          _ (wanted.reverse ++ []) wanted (by intro n; simp) hm1 hentry (hm2 hone)
          (registrationNameToInstallationLoop_ok regs seed.ObjectMeta.Name cl.installations []
            m hm) hinv
      · rw [reconcilePhases_deploy_failed (finalizerClient finalizers now) h cl seed required
          regs cl.installations numberOfShoots wanted m hw hm hd] at hfirst
        exact absurd hfirst hd

/-- A run on a settled store succeeds, leaves the store as it is, creates nothing, and issues
deletes only for installations that linger with a finalizer and a deletion timestamp. -/
theorem secondRun_noop {M : Type} (finalizers : String → Bool) (now : Time)
    (h : HashFunctions M) (cl st : Cluster) (seed : Seed)
    (required : StringSet) (regs : GoMap controllerRegistration) (numberOfShoots : Int)
    (wanted : StringSet)
    (hjson : ∀ input, ∃ out, convertObjToMap h input = .ok out)
    (hw : computeWantedControllerRegistrationNames required cl.installations regs
      numberOfShoots seed.ObjectMeta = .ok wanted)
    (hs : Settled (finalizerClient finalizers now) finalizers h seed regs cl st wanted) :
    (reconcilePhases (finalizerClient finalizers now) h st seed required regs st.installations
      numberOfShoots).outcome = .returned none ∧
    (reconcilePhases (finalizerClient finalizers now) h st seed required regs st.installations
      numberOfShoots).state = st ∧
    (∀ inst ∈ (reconcilePhases (finalizerClient finalizers now) h st seed required regs
      st.installations numberOfShoots).deleted,
      inst ∈ st.installations ∧ inst.ObjectMeta.DeletionTimestamp ≠ none ∧
        finalizers inst.ObjectMeta.Name = true) ∧
    ∀ ic ∈ (reconcilePhases (finalizerClient finalizers now) h st seed required regs
      st.installations numberOfShoots).calls, ic.call.isCreate = false := by
  obtain ⟨hok1, hok2, hok3⟩ := computeWanted_ok required cl.installations regs numberOfShoots
    seed.ObjectMeta wanted hw
  have hcand : ∀ n, candidate required st.installations regs numberOfShoots seed.ObjectMeta n →
      candidate required cl.installations regs numberOfShoots seed.ObjectMeta n := by
    intro n hn
    rcases hn with h1 | h1 | h1
    · exact Or.inl h1
    · exact Or.inr (Or.inl h1)
    · exact Or.inr (Or.inr (hs.requiredFrom n h1))
  -- the Wanted Set of the second run has the members of the first
  cases hw2 : computeWantedControllerRegistrationNames required st.installations regs
      numberOfShoots seed.ObjectMeta with
  | error err =>
    exfalso
    rcases computeWanted_error required st.installations regs numberOfShoots seed.ObjectMeta err
      hw2 with ⟨id, hid, hno, _⟩ | ⟨_, ⟨n, hn, hget, _⟩ | ⟨n, hn, cr, hget, hsel⟩⟩
    · exact hno (hok1 id hid)
    · obtain ⟨cr, b, hget1, _⟩ := hok2 n (hcand n hn)
      rw [hget] at hget1
      cases hget1
    · obtain ⟨cr1, b, hget1, hsel1⟩ := hok2 n (hcand n hn)
      rw [hget] at hget1
      cases hget1
      rw [hsel] at hsel1
      cases hsel1
  | ok wanted2 =>
    obtain ⟨_, _, hok4⟩ := computeWanted_ok required st.installations regs numberOfShoots
      seed.ObjectMeta wanted2 hw2
    have hsame : ∀ n, n ∈ wanted2 ↔ n ∈ wanted := by
      intro n
      rw [hok4 n, hok3 n]
      constructor
      · rintro ⟨h1, h2⟩
        exact ⟨hcand n h1, h2⟩
      · rintro ⟨h1, h2⟩
        refine ⟨?_, h2⟩
        rcases h1 with h3 | h3 | h3
        · exact Or.inl h3
        · exact Or.inr (Or.inl h3)
        · exact Or.inr (Or.inr (hs.requiredTo n ((hok3 n).mpr ⟨Or.inr (Or.inr h3), h2⟩) h3))
    have hreg : ∀ n ∈ wanted, ∃ cr, regs.get? n = some cr := by
      intro n hn
      obtain ⟨_, cr, hget, _⟩ := (hok3 n).mp hn
      exact ⟨cr, hget⟩
    -- the registration-to-installation map of the second run
    have hall : ∀ inst ∈ st.installations, inst.Spec.SeedRef.Name = seed.ObjectMeta.Name →
        (regs.get? inst.Spec.RegistrationRef.Name).isSome = true := by
      intro inst hinst hseed
      by_cases hwant : inst.Spec.RegistrationRef.Name ∈ wanted
      · obtain ⟨cr, hget⟩ := hreg _ hwant
        simp [hget]
      · exact (hs.lingering inst hinst hseed hwant).2.2
    obtain ⟨m, hm, _⟩ := duplicate_lookup st.installations regs seed.ObjectMeta.Name hall
    obtain ⟨hm1, hentry, hex, _⟩ := registrationMap_facts st.installations regs
      seed.ObjectMeta.Name m hm
    -- the deploy phase
    have hstep : ∀ w ∈ wanted2, ∃ cr, regs.get? w = some cr ∧
        (cr.obj.ObjectMeta.DeletionTimestamp ≠ none ∨
          ∃ d e, (fetchControllerDeployment (finalizerClient finalizers now) st cr.obj).1 =
              .ok d ∧
            m.get? w = some e ∧ e ∈ st.installations ∧
            e.ObjectMeta.DeletionTimestamp = none ∧
            mutate h seed d cr.obj (installationSpecOf seed d cr.obj) e = (e, none)) := by
      intro w hw2mem
      have hwmem := (hsame w).mp hw2mem
      obtain ⟨cr, hget⟩ := hreg w hwmem
      refine ⟨cr, hget, ?_⟩
      by_cases hdel : cr.obj.ObjectMeta.DeletionTimestamp = none
      · obtain ⟨⟨d, hd⟩, i, hi, hiseed, hiref⟩ := hs.present w hwmem cr hget hdel
        obtain ⟨e, he⟩ := hex w ⟨i, hi, hiseed, hiref⟩
        obtain ⟨he1, he2, he3⟩ := hm1 w e he
        obtain ⟨hdt, hfix⟩ := hs.settled e he1 he2 (he3 ▸ hwmem) cr d (he3 ▸ hget) hdel hd
        refine Or.inr ⟨d, e, ?_, he, he1, hdt, hfix⟩
        rw [(fetch_cluster finalizers now cl cr.obj).2.2 st hs.deployments]
        exact hd
      · exact Or.inl hdel
    obtain ⟨hd1, hd2, hd3⟩ := deployLoop_noop finalizers now h seed regs m st hjson hs.unique
      wanted2 [] hstep
    have hdout : (deployNeededInstallations (finalizerClient finalizers now) h st seed wanted2
        regs m).outcome = .returned none := hd1
    have hdstate : (deployNeededInstallations (finalizerClient finalizers now) h st seed
        wanted2 regs m).state = st := hd2
    -- the delete phase
    have hunw : ∀ n e, (n, e) ∈ m → n ∉ wanted2 →
        e ∈ st.installations ∧ e.ObjectMeta.DeletionTimestamp ≠ none ∧
          finalizers e.ObjectMeta.Name = true := by
      intro n e hmem hn
      obtain ⟨he1, he2, he3⟩ := hm1 n e (hentry n e hmem)
      obtain ⟨h1, h2, _⟩ := hs.lingering e he1 he2
        (fun hwant => hn ((hsame n).mpr (he3 ▸ hwant)))
      exact ⟨he1, h1, h2⟩
    have hdel := deleteUnneededInstallations_run (finalizerClient finalizers now) wanted2 m st
      [] (fun st inst => (clusterDelete_eq finalizers now st inst).1)
    rw [reconcilePhases_deploy_ok (finalizerClient finalizers now) h st seed required regs
      st.installations numberOfShoots wanted2 m hw2 hm hdout]
    simp only [hdstate]
    refine ⟨by rw [hdel.1], ?_, ?_, ?_⟩
    · rw [deleteCluster_state, afterDeletes_self]
      intro i hi hname
      obtain ⟨n, e, hmem, hn, hen⟩ := (mem_unwantedNames wanted2 m _).mp hname
      obtain ⟨he1, he2, he3⟩ := hunw n e hmem hn
      have := uniqueNames_eq _ hs.unique e i he1 hi hen
      subst this
      exact ⟨he3, he2⟩
    · intro inst hinst
      rw [hdel.2] at hinst
      simp only [List.nil_append, List.mem_map, List.mem_filter, Bool.not_eq_true',
        StringSet.Has, decide_eq_false_iff_not] at hinst
      obtain ⟨⟨n, e⟩, ⟨hmem, hn⟩, rfl⟩ := hinst
      exact hunw n e hmem hn
    · intro ic hic
      rcases hd3 ic hic with h1 | h1
      · exact absurd h1 (List.not_mem_nil _)
      · exact h1

/-- The key `computeControllerRegistrationMaps` stores a registration under is its name. -/
theorem computeMaps_name (l : List ControllerRegistration) (n : String)
    (cr : controllerRegistration)
    (h : (computeControllerRegistrationMaps l).get? n = some cr) :
    cr.obj.ObjectMeta.Name = n := by
  have key : ∀ (l : List ControllerRegistration) (acc : GoMap controllerRegistration),
      (∀ p ∈ acc, p.2.obj.ObjectMeta.Name = p.1) →
      ∀ p ∈ l.foldl
        (fun out cr => GoMap.set out cr.ObjectMeta.Name
          { obj := cr
            deployAlways := hasPolicy cr ControllerDeploymentPolicyAlways
            deployAlwaysExceptNoShoots :=
              hasPolicy cr ControllerDeploymentPolicyAlwaysExceptNoShoots }) acc,
        p.2.obj.ObjectMeta.Name = p.1 := by
    intro l
    induction l with
    | nil => intro acc hacc p hp; exact hacc p hp
    | cons cr rest ih =>
      intro acc hacc p hp
      rw [List.foldl_cons] at hp
      refine ih _ ?_ p hp
      intro q hq
      rcases GoMap.mem_set _ _ _ _ hq with h1 | h1
      · exact hacc q h1
      · subst h1
        rfl
  exact key l [] (by simp) (n, cr) (GoMap.mem_of_get? _ n cr h)

/-- C23, as stated, fails, in three ways.  Duplicates: two installations on `seed-eu` reference
the unwanted registration `dns`; on a store without finalizers the first run succeeds and
deletes the one the registration-to-installation map holds, and the second run, on the store
the first run left, deletes the other one.  Finalizers: the only installation of the unwanted
registration `dns` has a finalizer; the first run succeeds, the installation lingers with a
deletion timestamp, and the second run issues the delete again.  Serialization: when the
serialization fails, the first run succeeds and creates an installation of the wanted
registration `always` without spec, which does not count as one of the seed, so the second
run creates another one. -/
theorem idempotence_counterexample :
    ((Reconcile (finalizerClient (fun _ => false) 0) exampleHash exampleShootFunctions id true
        { installations := [installationOn "dns-4hq9z" "dns" false,
            installationOn "dns-p6c2w" "dns" false] }
        seedObjEU [regDNS]
        [installationOn "dns-4hq9z" "dns" false, installationOn "dns-p6c2w" "dns" false]
        [] [] [] none []).outcome = .returned none ∧
      (Reconcile (finalizerClient (fun _ => false) 0) exampleHash exampleShootFunctions id true
        { installations := [installationOn "dns-4hq9z" "dns" false,
            installationOn "dns-p6c2w" "dns" false] }
        seedObjEU [regDNS]
        [installationOn "dns-4hq9z" "dns" false, installationOn "dns-p6c2w" "dns" false]
        [] [] [] none []).state = { installations := [installationOn "dns-4hq9z" "dns" false] } ∧
      (Reconcile (finalizerClient (fun _ => false) 0) exampleHash exampleShootFunctions id true
        { installations := [installationOn "dns-4hq9z" "dns" false] }
        seedObjEU [regDNS] [installationOn "dns-4hq9z" "dns" false]
        [] [] [] none []).deleted = [installationOn "dns-4hq9z" "dns" false]) ∧
    ((Reconcile (finalizerClient (fun _ => true) 7) exampleHash exampleShootFunctions id true
        { installations := [installationOn "dns-4hq9z" "dns" false] }
        seedObjEU [regDNS] [installationOn "dns-4hq9z" "dns" false]
        [] [] [] none []).outcome = .returned none ∧
      (Reconcile (finalizerClient (fun _ => true) 7) exampleHash exampleShootFunctions id true
        { installations := [installationOn "dns-4hq9z" "dns" false] }
        seedObjEU [regDNS] [installationOn "dns-4hq9z" "dns" false]
        [] [] [] none []).state =
        { installations := [deletingInstallationOn "dns-4hq9z" "dns"] } ∧
      (Reconcile (finalizerClient (fun _ => true) 7) exampleHash exampleShootFunctions id true
        { installations := [deletingInstallationOn "dns-4hq9z" "dns"] }
        seedObjEU [regDNS] [deletingInstallationOn "dns-4hq9z" "dns"]
        [] [] [] none []).deleted = [deletingInstallationOn "dns-4hq9z" "dns"]) ∧
    ((Reconcile (finalizerClient (fun _ => false) 0) (failingHash (fun _ => true))
        exampleShootFunctions id true {} seedObjEU [regAlways] [] [] [] [] none []).outcome =
        .returned none ∧
      (Reconcile (finalizerClient (fun _ => false) 0) (failingHash (fun _ => true))
        exampleShootFunctions id true {} seedObjEU [regAlways] [] [] [] [] none []).state =
        { installations := [{ ObjectMeta := { Name := "always-x", GenerateName := "always-" } }] } ∧
      (Reconcile (finalizerClient (fun _ => false) 0) (failingHash (fun _ => true))
        exampleShootFunctions id true
        { installations := [{ ObjectMeta := { Name := "always-x", GenerateName := "always-" } }] }
        seedObjEU [regAlways]
        [{ ObjectMeta := { Name := "always-x", GenerateName := "always-" } }]
        [] [] [] none []).state.installations.map (fun i => i.ObjectMeta.Name) =
        ["always-x", "always-xx"]) := by
  refine ⟨⟨by decide, by decide, by decide⟩, ⟨by decide, by decide, by decide⟩,
    ⟨by decide, by decide, by decide⟩⟩

/-- C23, amended: idempotence on a store without duplicates.  On a cluster store, with or
without finalizers, whose installations bear distinct names and in which no two installations
on the seed reference the same registration, with a serialization that succeeds: when a first
`Reconcile` (resolve, deploy phase, delete phase) succeeds, a second `Reconcile` on the store
the first one left, with the same registrations, backup buckets, backup entries, shoots and
domains, succeeds, issues no create and leaves the store as it is, so that every installation
keeps its hash labels and its spec; it issues a delete only for an installation that lingers in
that store with a finalizer and a deletion timestamp, and for none on a store without
finalizers. -/
theorem reconcile_idempotent {M : Type} (finalizers : String → Bool) (now : Time)
    (h : HashFunctions M) (fns : ShootFunctions)
    (schedule : List Shoot → List Shoot) (useDNSRecords : Bool) (cl : Cluster) (seed : Seed)
    (controllerRegistrationList : List ControllerRegistration)
    (backupBucketList : List BackupBucket) (backupEntryList : List BackupEntry)
    (shootList : List Shoot) (internalDomain : Option Domain) (defaultDomains : List Domain)
    (first second : ReconcileRun Cluster)
    (hjson : ∀ input, ∃ out, convertObjToMap h input = .ok out)
    (hnames : uniqueNames cl.installations)
    (hone : onePerRegistration cl.installations seed.ObjectMeta.Name)
    (hfirst : first = Reconcile (finalizerClient finalizers now) h fns schedule useDNSRecords cl
      seed controllerRegistrationList cl.installations backupBucketList backupEntryList
      shootList internalDomain defaultDomains)
    (hsecond : second = Reconcile (finalizerClient finalizers now) h fns schedule useDNSRecords
      first.state seed controllerRegistrationList first.state.installations backupBucketList
      backupEntryList shootList internalDomain defaultDomains)
    (hsucc : first.outcome = .returned none) :
    second.outcome = .returned none ∧
    (∀ ic ∈ second.calls, ic.call.isCreate = false) ∧
    (∀ inst ∈ second.deleted, inst ∈ first.state.installations ∧
      inst.ObjectMeta.DeletionTimestamp ≠ none ∧ finalizers inst.ObjectMeta.Name = true) ∧
    ((∀ name, finalizers name = false) → second.deleted = []) ∧
    second.state = first.state := by
  subst hfirst hsecond
  unfold Reconcile at *
  obtain ⟨wanted, hw, hs⟩ := firstRun_settled finalizers now h cl seed _
    (computeControllerRegistrationMaps controllerRegistrationList) _ hjson
    (computeMaps_name controllerRegistrationList) hnames hone hsucc
  obtain ⟨h1, h2, h3, h4⟩ := secondRun_noop finalizers now h cl _ seed _
    (computeControllerRegistrationMaps controllerRegistrationList) _ wanted hjson hw hs
  refine ⟨h1, h4, h3, ?_, h2⟩
  intro hnone
  apply List.eq_nil_iff_forall_not_mem.mpr
  intro inst hinst
  have := (h3 inst hinst).2.2
  rw [hnone] at this
  cases this

theorem reconcile_idempotent_witness :
    uniqueNames clusterEU.installations ∧
    onePerRegistration clusterEU.installations seedObjDNS.ObjectMeta.Name ∧
    firstRunEU.outcome = .returned none ∧
    firstRunEU.calls.map (fun ic => (ic.registrationName, ic.call.isCreate, ic.call.isPatch)) =
      [("always", true, false), ("dns", false, false), ("dns", false, true)] ∧
    firstRunEU.deleted = [installationOn "backup-us-x7k2p" "backup-us" false] ∧
    secondRunEU.deleted = [deletingInstallationOn "backup-us-x7k2p" "backup-us"] ∧
    secondRunEU.outcome = .returned none ∧
    (∀ ic ∈ secondRunEU.calls, ic.call.isCreate = false) ∧
    (∀ inst ∈ secondRunEU.deleted, inst ∈ firstRunEU.state.installations ∧
      inst.ObjectMeta.DeletionTimestamp ≠ none ∧
      (fun name => name == "backup-us-x7k2p") inst.ObjectMeta.Name = true) ∧
    ((∀ name, (fun name => name == "backup-us-x7k2p") name = false) →
      secondRunEU.deleted = []) ∧
    secondRunEU.state = firstRunEU.state :=
  ⟨by decide, by decide, by decide, by decide, by decide, by decide,
    reconcile_idempotent (fun name => name == "backup-us-x7k2p") 7 exampleHash
      exampleShootFunctions id true clusterEU seedObjDNS [regDNS, regAlways, regBackupUS]
      [] [] [] none [] firstRunEU secondRunEU
      (by
        intro input
        cases input <;> exact ⟨_, rfl⟩)
      (by decide) (by decide) rfl rfl (by decide)⟩

end Gardener
